import Mathlib

/-!
# The persistent GTID ledger (`sql/rpl_gtid_persist.cc`)

A shallow embedding of `Gtid_table_persistor`: the table `mysql.gtid_executed`
is a list of rows kept in primary-key order, the storage engine is a small
deterministic handler with an explicit schedule of failing calls, and every
function of the persistor is a pure function on that state.

Conventions.
* The table is kept in primary-key order `(sid, gno_start)`; index scans and full
  scans both return the rows in that order.
* `rpl_gno` values are natural numbers below `2 ^ 64`; the one arithmetic
  operation of the source, `prev_gno_end + 1`, is taken modulo `2 ^ 64`.
* `std::string` and the text of the SID column are `List Char`; a text stored
  into the SID field of a record is cut to `rpl_sid::TEXT_LENGTH` characters.
* `int` results are `Int` (`0`, `1`, `-1`).
-/

namespace GtidPersist

/-! ## Constants of the storage interface (`my_base.h`, not part of the sources) -/

/-- Modelled from the spec: the handler result "key not found" of an exact index read. -/
def HA_ERR_KEY_NOT_FOUND : Int := 120

/-- Modelled from the spec: the handler result of an insert whose primary key exists. -/
def HA_ERR_FOUND_DUPP_KEY : Int := 121

/-- Modelled from the spec: the code standing for any storage-layer non-success. -/
def HA_ERR_INTERNAL_ERROR : Int := 122

/-- Modelled from the spec: the handler result of a scan that reached its end. -/
def HA_ERR_END_OF_FILE : Int := 137

/-- Width of `rpl_gno` and of the two GNO columns. -/
def GNO_BITS : Nat := 64

/-- The expression `g + 1` on a 64-bit `rpl_gno`. -/
def gno_succ (g : Nat) : Nat := (g + 1) % 2 ^ GNO_BITS

/-! ## Rows and the table -/

/-- A ledger row `(sid, gno_start, gno_end)`; the primary key is `(sid, gno_start)`. -/
structure Row where
  sid : List Char
  gno_start : Nat
  gno_end : Nat
deriving DecidableEq, Repr

/-- Two rows have the same primary key. -/
def same_key (a b : Row) : Prop := a.sid = b.sid ∧ a.gno_start = b.gno_start

instance (a b : Row) : Decidable (same_key a b) := by
  unfold same_key; exact inferInstance

/-- Strict primary-key order: SID text first, then `gno_start`. -/
def key_lt (a b : Row) : Prop :=
  a.sid < b.sid ∨ (a.sid = b.sid ∧ a.gno_start < b.gno_start)

instance (a b : Row) : Decidable (key_lt a b) := by
  unfold key_lt; exact inferInstance

/-- Modelled from the spec: the opened table `TABLE*` with its handler
(`table->file`), the row-oriented transactional table API the persistor consumes.
`fields` is `table->s->fields`; `rows` is the content in primary-key order;
`faults` schedules the coming engine calls: `true` makes the next call fail with
a storage error, `false` (or an exhausted schedule) lets it proceed. -/
structure TABLE where
  fields : Nat
  rows : List Row
  faults : List Bool
deriving DecidableEq, Repr

/-- Modelled from the spec: one engine call consumes one entry of the fault
schedule; an exhausted schedule lets the call proceed. -/
def TABLE.engine_call (t : TABLE) : Bool × TABLE :=
  (t.faults.headD false, { t with faults := t.faults.tail })

/-- Modelled from the spec: `Field::store`; a non-zero result is a store failure. -/
def TABLE.field_store (t : TABLE) : Int × TABLE :=
  let (f, t1) := t.engine_call
  if f then (1, t1) else (0, t1)

/-- Modelled from the spec: `handler::ha_index_init` (also `ha_rnd_init`). -/
def TABLE.ha_index_init (t : TABLE) : Int × TABLE :=
  let (f, t1) := t.engine_call
  if f then (HA_ERR_INTERNAL_ERROR, t1) else (0, t1)

/-- Modelled from the spec: `handler::ha_index_first` and `ha_index_next` (also
`ha_rnd_next`): `cursor` holds the rows from the new cursor position on; the call
yields `0` with the head of `cursor` as `table->record[0]`, end-of-file when
`cursor` is empty, or a storage error. -/
def TABLE.ha_index_next (t : TABLE) (cursor : List Row) : Int × TABLE :=
  let (f, t1) := t.engine_call
  if f then (HA_ERR_INTERNAL_ERROR, t1)
  else match cursor with
    | [] => (HA_ERR_END_OF_FILE, t1)
    | _ :: _ => (0, t1)

/-- Modelled from the spec: `handler::ha_delete_row` on the row under the cursor. -/
def TABLE.ha_delete_row (t : TABLE) (record : Row) : Int × TABLE :=
  let (f, t1) := t.engine_call
  if f then (HA_ERR_INTERNAL_ERROR, t1)
  else (0, { t1 with rows := t1.rows.filter (fun r => ¬ same_key r record) })

/-- Modelled from the spec: `handler::ha_index_read_map` with `HA_READ_KEY_EXACT`
on the whole primary key of `key`; on success the row found replaces
`table->record[0]`, otherwise the record stays as it was filled. -/
def TABLE.ha_index_read_map (t : TABLE) (key : Row) : Int × Row × TABLE :=
  let (f, t1) := t.engine_call
  if f then (HA_ERR_INTERNAL_ERROR, key, t1)
  else match t1.rows.find? (fun r => same_key r key) with
    | none => (HA_ERR_KEY_NOT_FOUND, key, t1)
    | some r => (0, r, t1)

/-- Modelled from the spec: `handler::ha_update_row(old, new)`. -/
def TABLE.ha_update_row (t : TABLE) (old new : Row) : Int × TABLE :=
  let (f, t1) := t.engine_call
  if f then (HA_ERR_INTERNAL_ERROR, t1)
  else (0, { t1 with rows := t1.rows.map (fun r => if same_key r old then new else r) })

/-- Insertion of a row at its place in primary-key order. -/
def key_insert (r : Row) : List Row → List Row
  | [] => [r]
  | a :: l => if key_lt r a then r :: a :: l else a :: key_insert r l

/-- Modelled from the spec: `handler::ha_write_row`; the primary key is unique. -/
def TABLE.ha_write_row (t : TABLE) (r : Row) : Int × TABLE :=
  let (f, t1) := t.engine_call
  if f then (HA_ERR_INTERNAL_ERROR, t1)
  else if t1.rows.any (fun a => same_key a r) then (HA_ERR_FOUND_DUPP_KEY, t1)
  else (0, { t1 with rows := key_insert r t1.rows })

/-! ## Row helpers of the persistor -/

/-- Modelled from the spec: `rpl_sid::TEXT_LENGTH`, the length of the canonical text
of a SID (32 hex digits). -/
def rpl_sid.TEXT_LENGTH : Nat := 32

/-- `Gtid_table_persistor::fill_fields`: three field stores into `table->record[0]`,
each failure is `-1`. The result carries the filled record: the SID field takes
exactly `rpl_sid::TEXT_LENGTH` characters of `sid`
(`fields[0]->store(sid, rpl_sid::TEXT_LENGTH, &my_charset_bin)`), so a longer text
is cut to that length. The diagnostics raised inside the table functions
(`my_error`, `print_error`) are not recorded. -/
def fill_fields (t : TABLE) (sid : List Char) (gno_start gno_end : Nat) :
    Int × TABLE × Row :=
  let record : Row := ⟨sid.take rpl_sid.TEXT_LENGTH, gno_start, gno_end⟩
  let (e0, t0) := t.field_store
  if e0 ≠ 0 then (-1, t0, record) else
  let (e1, t1) := t0.field_store
  if e1 ≠ 0 then (-1, t1, record) else
  let (e2, t2) := t1.field_store
  if e2 ≠ 0 then (-1, t2, record) else
  (0, t2, record)

/-- `Gtid_table_persistor::write_row`. -/
def write_row (t : TABLE) (sid : List Char) (gno_start gno_end : Nat) : Int × TABLE :=
  let (e, t1, record) := fill_fields t sid gno_start gno_end
  if e ≠ 0 then (-1, t1) else
  let (error, t2) := t1.ha_write_row record
  if error ≠ 0 then (-1, t2) else (0, t2)

/-- `Gtid_table_persistor::update_row`. -/
def update_row (t : TABLE) (sid : List Char) (gno_start gno_end new_gno_end : Nat) :
    Int × TABLE :=
  let (e, t1, user_key) := fill_fields t sid gno_start gno_end
  if e ≠ 0 then (-1, t1) else
  let (error, t2) := t1.ha_index_init
  if error ≠ 0 then (-1, t2) else
  let (error, record, t3) := t2.ha_index_read_map user_key
  if error ≠ 0 then (-1, t3) else
  let (error, t4) := t3.field_store
  if error ≠ 0 then (-1, t4) else
  let (error, t5) := t4.ha_update_row record { record with gno_end := new_gno_end }
  if error ≠ 0 then (-1, t5) else (0, t5)

/-- The local variables of `compress_first_consecutive_gtids` that live across
iterations of its loop. -/
structure Locals where
  sid : List Char
  gno_start : Nat
  gno_end : Nat
  prev_sid : List Char
  prev_gno_start : Nat
  prev_gno_end : Nat
  find_first_consecutive_row : Bool
deriving DecidableEq, Repr

/-- The initial values of the locals: empty strings, zeros, `false`. -/
def Locals.init : Locals := ⟨[], 0, 0, [], 0, 0, false⟩

/-- The loop `while(!err)` of `compress_first_consecutive_gtids`. `cursor` holds
the rows from the cursor position on (its head is `table->record[0]`), `err` is
the result of the last `ha_index_first`/`ha_index_next`. -/
def compress_loop : List Row → Int → TABLE → Locals → Int × TABLE × Locals
  | [], err, t, l => (err, t, l)
  | cur :: rest, err, t, l =>
    if err ≠ 0 then (err, t, l) else
    if l.prev_sid = cur.sid ∧ gno_succ l.prev_gno_end = cur.gno_start then
      let l1 : Locals :=
        if l.find_first_consecutive_row then l
        else { l with sid := l.prev_sid, gno_start := l.prev_gno_start,
                      gno_end := l.prev_gno_end, find_first_consecutive_row := true }
      let (e, t1) := t.ha_delete_row cur
      if e ≠ 0 then (e, t1, l1) else
      let l2 : Locals := { l1 with prev_sid := cur.sid, prev_gno_start := cur.gno_start,
                                   prev_gno_end := cur.gno_end }
      let (e2, t2) := t1.ha_index_next rest
      compress_loop rest e2 t2 l2
    else if l.find_first_consecutive_row then (err, t, l)
    else
      let l2 : Locals := { l with prev_sid := cur.sid, prev_gno_start := cur.gno_start,
                                  prev_gno_end := cur.gno_end }
      let (e2, t2) := t.ha_index_next rest
      compress_loop rest e2 t2 l2

/-- `Gtid_table_persistor::compress_first_consecutive_gtids`. -/
def compress_first_consecutive_gtids (t : TABLE) : Int × TABLE :=
  let (e0, t0) := t.ha_index_init
  if e0 ≠ 0 then (-1, t0) else
  let (e1, t1) := t0.ha_index_next t0.rows
  let (err, t2, l) := compress_loop t0.rows e1 t1 Locals.init
  let last_gno_end := if l.find_first_consecutive_row then l.prev_gno_end else 0
  if err ≠ HA_ERR_END_OF_FILE ∧ err ≠ 0 then (-1, t2)
  else if l.find_first_consecutive_row then
    update_row t2 l.sid l.gno_start l.gno_end last_gno_end
  else (0, t2)

/-- `Gtid_table_persistor::delete_all`: a full scan deleting the row under the
cursor; `cursor` holds the rows the scan has not returned yet. -/
def delete_all_loop : List Row → TABLE → Int × TABLE
  | cursor, t =>
    let (err, t1) := t.ha_index_next cursor
    match cursor with
    | [] => (err, t1)
    | cur :: rest =>
      if err ≠ 0 then (err, t1) else
      let (e, t2) := t1.ha_delete_row cur
      if e ≠ 0 then (e, t2) else delete_all_loop rest t2

/-- `Gtid_table_persistor::delete_all`. -/
def delete_all (t : TABLE) : Int × TABLE :=
  let (e0, t0) := t.ha_index_init
  if e0 ≠ 0 then (-1, t0) else
  let (err, t1) := delete_all_loop t0.rows t0
  if err ≠ HA_ERR_END_OF_FILE then (-1, t1) else (0, t1)

/-! ## The identifier algebra's text layer -/

/-- Modelled from the spec: a source identifier (`rpl_sid`), a 16-byte value. -/
structure rpl_sid where
  val : Nat
  isLt : val < 2 ^ 128
deriving DecidableEq, Repr

/-- The digit `d` of a base up to sixteen as a lowercase character. -/
def digit_char (d : Nat) : Char :=
  if d < 10 then Char.ofNat (48 + d) else Char.ofNat (87 + d)

/-- The value of a decimal or hexadecimal digit character below `base`. -/
def digit_value (base : Nat) (c : Char) : Option Nat :=
  let v : Option Nat :=
    if 48 ≤ c.toNat ∧ c.toNat ≤ 57 then some (c.toNat - 48)
    else if 97 ≤ c.toNat ∧ c.toNat ≤ 102 then some (c.toNat - 87)
    else if 65 ≤ c.toNat ∧ c.toNat ≤ 70 then some (c.toNat - 55)
    else none
  match v with
  | some d => if d < base then some d else none
  | none => none

/-- The `width` low digits of `n` in `base`, most significant first. -/
def fixed_digits (base : Nat) : Nat → Nat → List Nat
  | 0, _ => []
  | w + 1, n => fixed_digits base w (n / base) ++ [n % base]

/-- The decimal digits of `n` without leading zeros (`fuel` bounds their number). -/
def decimal_digits : Nat → Nat → List Nat
  | 0, _ => []
  | fuel + 1, n => if n < 10 then [n] else decimal_digits fuel (n / 10) ++ [n % 10]

/-- Modelled from the spec: `Field::val_str` of an unsigned 64-bit column, the
decimal text of the number. -/
def decimal (n : Nat) : List Char := (decimal_digits (n + 1) n).map digit_char

/-- Read a non-empty run of digits of `base`; `none` on any other character. -/
def parse_digits (base : Nat) (cs : List Char) : Option Nat :=
  if cs = [] then none
  else cs.foldl
    (fun acc c => match acc, digit_value base c with
      | some a, some d => some (a * base + d)
      | _, _ => none)
    (some 0)

/-- Modelled from the spec: `sid_to_text`, the canonical 32 lowercase hex digits. -/
def rpl_sid.to_string (sid : rpl_sid) : List Char :=
  (fixed_digits 16 32 sid.val).map digit_char

/-- Modelled from the spec: `sid_from_text`, which parses the 32-hex form. -/
def sid_from_text (cs : List Char) : Option rpl_sid :=
  if cs.length = 32 then
    match parse_digits 16 cs with
    | some v => if h : v < 2 ^ 128 then some ⟨v, h⟩ else none
    | none => none
  else none

/-- Modelled from the spec: `Gtid_set::default_string_format.sid_gno_separator`. -/
def sid_gno_separator : Char := ':'

/-- Modelled from the spec: `Gtid_set::default_string_format.gno_start_end_separator`. -/
def gno_start_end_separator : Char := '-'

/-- `Gtid_table_persistor::encode_gtid_text` on the row under the cursor. -/
def encode_gtid_text (r : Row) : List Char :=
  r.sid ++ [sid_gno_separator] ++ decimal r.gno_start ++ [gno_start_end_separator] ++
    decimal r.gno_end

/-- Modelled from the spec: an identifier set (`Gtid_set`), the intervals added to
it, newest first. -/
structure Gtid_set where
  intervals : List (rpl_sid × Nat × Nat)
deriving DecidableEq, Repr

/-- The identifier `(sid, gno)` lies in one of the intervals of the set. -/
def Gtid_set.contains (g : Gtid_set) (sid : rpl_sid) (gno : Nat) : Prop :=
  ∃ i ∈ g.intervals, i.1 = sid ∧ i.2.1 ≤ gno ∧ gno ≤ i.2.2

/-- Modelled from the spec: the text `"<sid>:<start>-<end>"` read back, `none` on
any deviation from that form. -/
def parse_gtid_text (text : List Char) : Option (rpl_sid × Nat × Nat) :=
  let sid_text := text.takeWhile (fun c => c ≠ sid_gno_separator)
  match text.dropWhile (fun c => c ≠ sid_gno_separator) with
  | [] => none
  | _ :: range =>
    let start_text := range.takeWhile (fun c => c ≠ gno_start_end_separator)
    match range.dropWhile (fun c => c ≠ gno_start_end_separator) with
    | [] => none
    | _ :: end_text =>
      match sid_from_text sid_text, parse_digits 10 start_text, parse_digits 10 end_text with
      | some sid, some gno_start, some gno_end => some (sid, gno_start, gno_end)
      | _, _, _ => none

/-- Modelled from the spec: `Gtid_set::add_gtid_text` (`set.add_text`); `none` is
any result other than `RETURN_STATUS_OK`. -/
def Gtid_set.add_gtid_text (g : Gtid_set) (text : List Char) : Option Gtid_set :=
  match parse_gtid_text text with
  | some i => some ⟨i :: g.intervals⟩
  | none => none

/-! ## Sessions, the server, and the table access scope -/

/-- The calls with an effect outside the table, in the order they are made. -/
inductive Event where
  | mutex_lock
  | mutex_unlock
  | cond_signal
  | cond_wait
  | create_thd
  | drop_thd
  | reset_n_backup_open_tables_state
  | restore_backup_open_tables_state
  | open_n_lock_single_table (write : Bool)
  | close_thread_tables
  | ha_commit_trans (all : Bool)
  | ha_rollback_trans (all : Bool)
  | sql_print_warning
  | my_error
deriving DecidableEq, Repr

/-- The part of a session (`THD`) the persistor reads or writes. -/
structure THD where
  sql_mode : Nat
  option_bin_log : Bool
  is_operating_gtid_table : Bool
  open_tables_state : Nat
  query_tables_list : Nat
deriving DecidableEq, Repr

/-- Modelled from the spec: the session `create_thd` synthesises (`new THD`,
`init_thd`, `lex_start`). -/
def THD.fresh : THD := ⟨0, true, false, 0, 0⟩

/-- The server state the persistor works on: whether `mysql.gtid_executed` can be
opened and locked, the table itself, the append counter `m_count`, the system
variable `executed_gtids_compression_period`, and the trace of outside calls. -/
structure Server where
  table_exists : Bool
  table : TABLE
  m_count : Nat
  executed_gtids_compression_period : Nat
  trace : List Event
deriving DecidableEq, Repr

/-- Width of `ulong`, the type of `m_count`. -/
def ULONG_BITS : Nat := 64

/-- Record one outside call. -/
def Server.log (s : Server) (e : Event) : Server := { s with trace := s.trace ++ [e] }

/-- Number of `mysql_cond_signal(&COND_compress_gtid_table)` calls made so far. -/
def Server.signals (s : Server) : Nat := s.trace.count Event.cond_signal

/-- The result of a public operation: its `int` result, the server afterwards and
the caller's session afterwards (`none` when the caller passed no session). -/
structure Outcome where
  ret : Int
  server : Server
  thd : Option THD
deriving DecidableEq, Repr

/-- The ledger after the operation. -/
def Outcome.rows (o : Outcome) : List Row := o.server.table.rows

/-- `Gtid_table_persistor::open_table`: `true` is failure. The results are the
flag, the opened table, the saved open-tables state (`backup`), the server and
the session. -/
def open_table (s : Server) (thd : THD) (write : Bool) :
    Bool × Option TABLE × Nat × Server × THD :=
  let query_tables_list_backup := thd.query_tables_list
  let backup := thd.open_tables_state
  let thd1 : THD := { thd with query_tables_list := 0, open_tables_state := 0,
                               is_operating_gtid_table := true }
  let s1 := (s.log Event.reset_n_backup_open_tables_state).log
    (Event.open_n_lock_single_table write)
  if ¬ s.table_exists then
    let s2 := ((s1.log Event.close_thread_tables).log
      Event.restore_backup_open_tables_state).log Event.sql_print_warning
    (true, none, backup, s2,
      { thd1 with open_tables_state := backup, query_tables_list := query_tables_list_backup })
  else if s.table.fields < 3 then
    let s2 := (((s1.log (Event.ha_rollback_trans false)).log Event.close_thread_tables).log
      Event.restore_backup_open_tables_state).log Event.my_error
    (true, none, backup, s2,
      { thd1 with open_tables_state := backup, query_tables_list := query_tables_list_backup })
  else
    (false, some s.table, backup, s1, { thd1 with query_tables_list := query_tables_list_backup })

/-- `Gtid_table_persistor::close_table`. A rollback leaves the rows the server had
when the table was opened, a commit installs the rows of `table`; the fault
schedule goes on from where `table` left it. -/
def close_table (s : Server) (thd : THD) (table : Option TABLE) (backup : Nat)
    (error need_commit : Bool) : Server × THD :=
  match table with
  | some t =>
    let s1 : Server :=
      if error then
        ({ s with table := { s.table with faults := t.faults } }).log
          (Event.ha_rollback_trans false)
      else ({ s with table := t }).log (Event.ha_commit_trans false)
    let s2 : Server :=
      if need_commit then
        if error then s1.log (Event.ha_rollback_trans true)
        else s1.log (Event.ha_commit_trans true)
      else s1
    let s3 := (s2.log Event.close_thread_tables).log Event.restore_backup_open_tables_state
    (s3, { thd with open_tables_state := backup, is_operating_gtid_table := false })
  | none => (s, { thd with is_operating_gtid_table := false })

/-- The session an operation runs in: the caller's, or one made by `create_thd`. -/
def enter_thd (s : Server) (thd : Option THD) : Server × THD :=
  match thd with
  | some t => (s, t)
  | none => (s.log Event.create_thd, THD.fresh)

/-- The end of an operation: `drop_thd` for a session made by `create_thd`. -/
def leave_thd (s : Server) (thd : Option THD) (cur : THD) : Server × Option THD :=
  match thd with
  | some _ => (s, some cur)
  | none => (s.log Event.drop_thd, none)

/-- A transaction identifier `(sid, gno)`; `sid` stands for
`global_sid_map->sidno_to_sid(gtid->sidno)`. -/
structure Gtid where
  sid : rpl_sid
  gno : Nat
deriving DecidableEq, Repr

/-- `Gtid_table_persistor::save(THD *thd, Gtid *gtid)` (no debug injection).
`close_table` is called here without its last argument `need_commit`, which is
taken as `false`. -/
def save (s : Server) (thd : Option THD) (gtid : Gtid) : Outcome :=
  let buf := gtid.sid.to_string
  let (s0, thd0) := enter_thd s thd
  let saved_options := thd0.option_bin_log
  let thd1 : THD := { thd0 with option_bin_log := false }
  let saved_mode := thd1.sql_mode
  let (failed, table, backup, s1, thd2) := open_table s0 thd1 true
  let (error, table1) : Int × Option TABLE :=
    match failed, table with
    | false, some t => let (e, t1) := write_row t buf gtid.gno gtid.gno; (e, some t1)
    | _, _ => (1, none)
  let (s2, thd3) := close_table s1 thd2 table1 backup (0 ≠ error) false
  let thd4 : THD := { thd3 with option_bin_log := saved_options, sql_mode := saved_mode }
  let (s3, out_thd) := leave_thd s2 thd thd4
  if 0 = error then
    let s4 : Server := { s3 with m_count := (s3.m_count + 1) % 2 ^ ULONG_BITS }
    if s4.executed_gtids_compression_period ≠ 0 ∧
        s4.m_count ≥ s4.executed_gtids_compression_period then
      ⟨error, ({ s4 with m_count := 0 }).log Event.cond_signal, out_thd⟩
    else ⟨error, s4, out_thd⟩
  else ⟨error, s3, out_thd⟩

/-- `Gtid_table_persistor::compress(THD *thd)` (release build: no
`dbug_test_on_compress`). -/
def compress (s : Server) (thd : Option THD) : Outcome :=
  let (s0, thd0) := enter_thd s thd
  let saved_options := thd0.option_bin_log
  let thd1 : THD := { thd0 with option_bin_log := false }
  let saved_mode := thd1.sql_mode
  let sl := s0.log Event.mutex_lock
  let (failed, table, backup, s1, thd2) := open_table sl thd1 true
  let (error, table1) : Int × Option TABLE :=
    match failed, table with
    | false, some t => let (e, t1) := compress_first_consecutive_gtids t; (e, some t1)
    | _, _ => (1, none)
  let (s2, thd3) := close_table s1 thd2 table1 backup (0 ≠ error) true
  let su := s2.log Event.mutex_unlock
  let thd4 : THD := { thd3 with option_bin_log := saved_options, sql_mode := saved_mode }
  let (s3, out_thd) := leave_thd su thd thd4
  ⟨error, s3, out_thd⟩

/-- `Gtid_table_persistor::reset(THD *thd)`. -/
def reset (s : Server) (thd : Option THD) : Outcome :=
  let (s0, thd0) := enter_thd s thd
  let saved_options := thd0.option_bin_log
  let thd1 : THD := { thd0 with option_bin_log := false }
  let saved_mode := thd1.sql_mode
  let sl := s0.log Event.mutex_lock
  let (failed, table, backup, s1, thd2) := open_table sl thd1 true
  let (error, table1) : Int × Option TABLE :=
    match failed, table with
    | false, some t => let (e, t1) := delete_all t; (e, some t1)
    | _, _ => (1, none)
  let (s2, thd3) := close_table s1 thd2 table1 backup (0 ≠ error) true
  let su := s2.log Event.mutex_unlock
  let thd4 : THD := { thd3 with option_bin_log := saved_options, sql_mode := saved_mode }
  let (s3, out_thd) := leave_thd su thd thd4
  ⟨error, s3, out_thd⟩

/-- The scan loop of `Gtid_table_persistor::fetch_gtids`; `cursor` holds the rows
the scan has not returned yet. A row the set rejects leaves the loop with the
`err` of the scan call, which is `0`. -/
def fetch_gtids_loop : List Row → TABLE → Gtid_set → Int × TABLE × Gtid_set
  | cursor, t, gtid_set =>
    let (err, t1) := t.ha_index_next cursor
    match cursor with
    | [] => (err, t1, gtid_set)
    | cur :: rest =>
      if err ≠ 0 then (err, t1, gtid_set) else
      match gtid_set.add_gtid_text (encode_gtid_text cur) with
      | none => (err, t1, gtid_set)
      | some g1 => fetch_gtids_loop rest t1 g1

/-- `Gtid_table_persistor::fetch_gtids(Gtid_set *gtid_set)`; the second component
is the set afterwards. -/
def fetch_gtids (s : Server) (thd : Option THD) (gtid_set : Gtid_set) :
    Outcome × Gtid_set :=
  let (s0, thd0) := enter_thd s thd
  let (failed, table, backup, s1, thd2) := open_table s0 thd0 false
  let (ret, table1, set1) : Int × Option TABLE × Gtid_set :=
    match failed, table with
    | false, some t =>
      let (e0, t0) := t.ha_index_init
      if e0 ≠ 0 then (-1, some t0, gtid_set) else
      let (err, t1, g1) := fetch_gtids_loop t0.rows t0 gtid_set
      if err ≠ HA_ERR_END_OF_FILE then (-1, some t1, g1) else (0, some t1, g1)
    | _, _ => (1, none, gtid_set)
  let (s2, thd3) := close_table s1 thd2 table1 backup (0 ≠ ret) true
  let (s3, out_thd) := leave_thd s2 thd thd3
  (⟨ret, s3, out_thd⟩, set1)

/-! ## Notions of the claims -/

/-- Invariant I1 on one row: `1 ≤ gno_start ≤ gno_end`. -/
def I1 (r : Row) : Prop := 1 ≤ r.gno_start ∧ r.gno_start ≤ r.gno_end

/-- The identifier `(sid, gno)` is covered by a row of the ledger. -/
def covers (rows : List Row) (sid : List Char) (gno : Nat) : Prop :=
  ∃ r ∈ rows, r.sid = sid ∧ r.gno_start ≤ gno ∧ gno ≤ r.gno_end

/-- The test of the loop: same SID text and `prev.gno_end + 1 == cur.gno_start`. -/
def consecutive (a b : Row) : Prop := a.sid = b.sid ∧ gno_succ a.gno_end = b.gno_start

instance (a b : Row) : Decidable (consecutive a b) := by
  unfold consecutive; exact inferInstance

/-- The rows form a table of the persisted schema: strictly ascending in
primary-key order (so the key is unique), with 64-bit GNO columns and a SID
column whose texts have at most `rpl_sid::TEXT_LENGTH` characters. -/
def well_formed (rows : List Row) : Prop :=
  rows.Pairwise key_lt ∧ ∀ r ∈ rows, r.gno_start < 2 ^ GNO_BITS ∧ r.gno_end < 2 ^ GNO_BITS ∧
    r.sid.length ≤ rpl_sid.TEXT_LENGTH

/-- The previous row held in the locals. -/
def Locals.prev (l : Locals) : Row := ⟨l.prev_sid, l.prev_gno_start, l.prev_gno_end⟩

/-- The first row of the run held in the locals. -/
def Locals.first (l : Locals) : Row := ⟨l.sid, l.gno_start, l.gno_end⟩

/-- The rows at the head of `cursor` that continue a run ending in `prev`. -/
def run_after (prev : Row) : List Row → List Row
  | [] => []
  | c :: rest => if consecutive prev c then c :: run_after c rest else []

/-- The first run met when walking `cursor` after `prev`: its first row and the
rows that follow it in the run. -/
def first_run (prev : Row) : List Row → Option (Row × List Row)
  | [] => none
  | c :: rest => if consecutive prev c then some (prev, c :: run_after c rest)
                 else first_run c rest

/-- The rows left when every row with the key of a row of `del` is deleted. -/
def delete_rows (rows del : List Row) : List Row :=
  rows.filter (fun x => del.all (fun d => ¬ same_key x d))

/-- A scan call followed by the loop. -/
def scan_loop (cursor : List Row) (t : TABLE) (l : Locals) : Int × TABLE × Locals :=
  compress_loop cursor (t.ha_index_next cursor).1 (t.ha_index_next cursor).2 l

/-- The locals after `prev_sid= cur_sid; prev_gno_start= ...; prev_gno_end= ...`. -/
def Locals.advance (l : Locals) (cur : Row) : Locals :=
  { l with prev_sid := cur.sid, prev_gno_start := cur.gno_start, prev_gno_end := cur.gno_end }

/-- The locals after the block `if (!find_first_consecutive_row) ...`. -/
def Locals.enter_run (l : Locals) : Locals :=
  if l.find_first_consecutive_row then l
  else { l with sid := l.prev_sid, gno_start := l.prev_gno_start,
                gno_end := l.prev_gno_end, find_first_consecutive_row := true }

/-- The previous row before the first iteration: empty SID text, zeros. -/
def phantom : Row := ⟨[], 0, 0⟩

/-- The table can be opened, locked and has the three columns. -/
def Server.usable (s : Server) : Prop := s.table_exists = true ∧ ¬ s.table.fields < 3

instance (s : Server) : Decidable s.usable := by
  unfold Server.usable; exact inferInstance

/-- Two rows share an identifier `(sid, gno)`. -/
def overlap (a b : Row) : Prop :=
  ∃ gno, a.sid = b.sid ∧ a.gno_start ≤ gno ∧ gno ≤ a.gno_end ∧
    b.gno_start ≤ gno ∧ gno ≤ b.gno_end

/-- Invariant I2: no identifier `(sid, gno)` is represented by more than one row. -/
def I2 (rows : List Row) : Prop := rows.Pairwise (fun a b => ¬ overlap a b)

/-- The server whose table holds `rows` with three columns, a fault schedule
`faults`, the counter at zero and the compression period `period`. -/
def ledger (rows : List Row) (faults : List Bool) (period : Nat) : Server :=
  ⟨true, ⟨3, rows, faults⟩, 0, period, []⟩

/-- The SID text `A` of the scenarios. -/
def sid_A : List Char := ['A']

/-- The SID text `B` of the scenarios. -/
def sid_B : List Char := ['B']

/-- A text of `rpl_sid::TEXT_LENGTH` characters. -/
def sid_P : List Char := List.replicate 32 'p'

/-- A text one character longer than `rpl_sid::TEXT_LENGTH`, which extends `sid_P`. -/
def sid_Px : List Char := sid_P ++ ['x']

/-- Row `b` follows row `a`: same SID and `b.gno_start == a.gno_end + 1`. -/
def follows (a b : Row) : Prop := a.sid = b.sid ∧ b.gno_start = a.gno_end + 1

instance (a b : Row) : Decidable (follows a b) := by
  unfold follows; exact inferInstance

/-- The number with the digits `ds` in `base`, most significant first, after `a`. -/
def of_digits (base : Nat) (a : Nat) (ds : List Nat) : Nat :=
  ds.foldl (fun acc d => acc * base + d) a

/-- A sequence of `save(thd, gtid)` calls; the second component lists the
identifiers whose `save` returned `0`, in call order. -/
def save_seq (s : Server) : List (Option THD × Gtid) → Server × List Gtid
  | [] => (s, [])
  | (thd, g) :: rest =>
    let o := save s thd g
    let r := save_seq o.server rest
    (r.1, if o.ret = 0 then g :: r.2 else r.2)

/-- The SID `A` of the save scenarios, a 16-byte value. -/
def SID_A : rpl_sid := ⟨10, by decide⟩

/-- The SID `B` of the save scenarios, a 16-byte value. -/
def SID_B : rpl_sid := ⟨11, by decide⟩

/-- The degenerate row `(sid, gno, gno)` that `save(thd, gtid)` writes. -/
def Gtid.row (g : Gtid) : Row := ⟨g.sid.to_string, g.gno, g.gno⟩

/-- One call of an interleaving of `save(thd, gtid)` and `compress(thd)`. -/
inductive Op where
  | save (thd : Option THD) (g : Gtid)
  | compress (thd : Option THD)
deriving DecidableEq, Repr

/-- One call on the server, keeping the list of identifiers whose `save`
returned `0` (newest first). -/
def step (st : Server × List Gtid) : Op → Server × List Gtid
  | Op.save thd g =>
    let o := save st.1 thd g
    (o.server, if o.ret = 0 then g :: st.2 else st.2)
  | Op.compress thd => ((compress st.1 thd).server, st.2)

/-- A finite sequence of `save` and `compress` calls. -/
def run (st : Server × List Gtid) (ops : List Op) : Server × List Gtid :=
  ops.foldl step st

/-- Every `save` of the sequence is for a GNO in `[1, 2^64)` and for an identifier
whose `save` has not already returned `0`. -/
def admissible : Server × List Gtid → List Op → Prop
  | _, [] => True
  | st, Op.save thd g :: rest =>
    (g ∉ st.2 ∧ 1 ≤ g.gno ∧ g.gno < 2 ^ GNO_BITS) ∧ admissible (step st (Op.save thd g)) rest
  | st, Op.compress thd :: rest => admissible (step st (Op.compress thd)) rest

instance admissible_decidable : (st : Server × List Gtid) → (ops : List Op) →
    Decidable (admissible st ops)
  | _, [] => isTrue trivial
  | st, Op.save thd g :: rest =>
    have := admissible_decidable (step st (Op.save thd g)) rest
    (inferInstance : Decidable ((g ∉ st.2 ∧ 1 ≤ g.gno ∧ g.gno < 2 ^ GNO_BITS) ∧
      admissible (step st (Op.save thd g)) rest))
  | st, Op.compress thd :: rest => admissible_decidable (step st (Op.compress thd)) rest

/-- The invariant of an interleaving: the table is well formed, every row
satisfies I1, no identifier is covered twice, and the covered identifiers are
those whose `save` returned `0`. -/
def Inv (st : Server × List Gtid) : Prop :=
  well_formed st.1.table.rows ∧ (∀ r ∈ st.1.table.rows, I1 r) ∧ I2 st.1.table.rows ∧
  ∀ (text : List Char) (gno : Nat),
    covers st.1.table.rows text gno ↔ ∃ g ∈ st.2, g.sid.to_string = text ∧ g.gno = gno

/-! ## Saving a whole set, repeated compaction, the compression thread -/

/-- Modelled from the spec: `Gtid_set::get_gtid_intervals` (`set.intervals()`), the
finite sequence of the intervals `(sid, gno_start, gno_end)` of the set; `sid`
stands for `gtid_set->get_sid_map()->sidno_to_sid(iter->sidno)`. -/
def Gtid_set.get_gtid_intervals (g : Gtid_set) : List (rpl_sid × Nat × Nat) := g.intervals

/-- The loop of `Gtid_table_persistor::save(TABLE*, Gtid_set*)` over the intervals
still to write: the first `write_row` that fails ends it with that result. -/
def save_intervals : List (rpl_sid × Nat × Nat) → TABLE → Int × TABLE
  | [], t => (0, t)
  | i :: rest, t =>
    let (error, t1) := write_row t i.1.to_string i.2.1 i.2.2
    if error ≠ 0 then (error, t1) else save_intervals rest t1

/-- `Gtid_table_persistor::save(TABLE* table, Gtid_set *gtid_set)`. -/
def save_table_gtid_set (t : TABLE) (gtid_set : Gtid_set) : Int × TABLE :=
  save_intervals gtid_set.get_gtid_intervals t

/-- `Gtid_table_persistor::save(Gtid_set *gtid_set)`; `thd` is `current_thd`.
`close_table` is called without its last argument `need_commit`, which is taken
as `false`. -/
def save_gtid_set (s : Server) (thd : Option THD) (gtid_set : Gtid_set) : Outcome :=
  let (s0, thd0) := enter_thd s thd
  let saved_options := thd0.option_bin_log
  let thd1 : THD := { thd0 with option_bin_log := false }
  let saved_mode := thd1.sql_mode
  let (failed, table, backup, s1, thd2) := open_table s0 thd1 true
  let (error, table1) : Int × Option TABLE :=
    match failed, table with
    | false, some t => let (e, t1) := save_table_gtid_set t gtid_set; (e, some t1)
    | _, _ => (1, none)
  let (s2, thd3) := close_table s1 thd2 table1 backup (0 ≠ error) false
  let thd4 : THD := { thd3 with option_bin_log := saved_options, sql_mode := saved_mode }
  let (s3, out_thd) := leave_thd s2 thd thd4
  ⟨error, s3, out_thd⟩

/-- The row an interval of a set is written as. -/
def interval_row (i : rpl_sid × Nat × Nat) : Row := ⟨i.1.to_string, i.2.1, i.2.2⟩

/-- The part of the fault schedule of `before` that the engine calls leading to
`after` have used up. -/
def consumed (before after : TABLE) : List Bool :=
  before.faults.take (before.faults.length - after.faults.length)

/-- Number of calls of `e` made so far. -/
def Server.calls (s : Server) (e : Event) : Nat := s.trace.count e

/-- `compress()` called once for each session of the list, with nothing in
between; the second component lists the results of the calls, in call order. -/
def compress_passes (s : Server) : List (Option THD) → Server × List Int
  | [] => (s, [])
  | thd :: rest =>
    let o := compress s thd
    let r := compress_passes o.server rest
    (r.1, o.ret :: r.2)

/-- Number of maximal runs of two or more consecutive rows from `prev` on;
`in_run` tells that `prev` already follows its predecessor. -/
def runs_from (in_run : Bool) (prev : Row) : List Row → Nat
  | [] => 0
  | cur :: rest =>
    if consecutive prev cur then (if in_run then 0 else 1) + runs_from true cur rest
    else runs_from false cur rest

/-- Number of maximal runs of two or more consecutive rows of the ledger. -/
def run_count : List Row → Nat
  | [] => 0
  | first :: rest => runs_from false first rest

/-- Canonical form: no two rows of the same SID with one row's `gno_end + 1` equal
to the other's `gno_start`. -/
def canonical (rows : List Row) : Prop := ∀ a ∈ rows, ∀ b ∈ rows, ¬ follows a b

instance (rows : List Row) : Decidable (canonical rows) := by
  unfold canonical; exact inferInstance

/-- How the loop of the compression thread stands: still in the loop (waiting for
the next read of the terminate flag) or left through a `break`. -/
structure Worker where
  server : Server
  thd : THD
  exited : Bool
deriving DecidableEq, Repr

/-- The loop `for (;;)` of `compress_gtid_table`, the body of the compression
thread. The list gives, for each turn of the loop, what the two reads of
`terminate_compress_thread` return: before waiting and after waking. The wait
`mysql_cond_wait` is entered with `LOCK_compress_gtid_table` held and
`THD_EXIT_COND` releases it. Modelled from the spec: `gtid_state->compress(thd)`
is the persistor's `compress(thd)`. -/
def compress_gtid_table (s : Server) (thd : THD) : List (Bool × Bool) → Worker
  | [] => ⟨s, thd, false⟩
  | (before, after) :: rest =>
    if before then ⟨s, thd, true⟩ else
    let s1 := ((s.log Event.mutex_lock).log Event.cond_wait).log Event.mutex_unlock
    if after then ⟨s1, thd, true⟩ else
    let o := compress s1 (some thd)
    let s2 := if o.ret ≠ 0 then o.server.log Event.sql_print_warning else o.server
    compress_gtid_table s2 (o.thd.getD thd) rest

/-- A server whose table `mysql.gtid_executed` is found and opened but has only two
columns, with one row of `A`. -/
def two_column_ledger : Server := ⟨true, ⟨2, [⟨sid_A, 1, 1⟩], []⟩, 0, 0, []⟩

/-- The engine calls that lead from the fault schedule `fs` to the schedule `fs1`
all proceeded: `fs1` is `fs` without its first `n` entries, none of them a fault. -/
def fault_free (fs fs1 : List Bool) : Prop :=
  ∃ n, fs1 = fs.drop n ∧ ∀ b ∈ fs.take n, b = false

/-- What an operation called on the server `s` with the session `thd` has left
behind when it returns the outcome `o`. For the caller's session: `sql_mode` and
the binary-logging option are what they were at entry, `is_operating_gtid_table`
is false, the open-tables state and the `Query_tables_list` are the saved ones.
Without a caller's session: one `create_thd` and one `drop_thd`, and no session
is left. On the server: one `reset_n_backup_open_tables_state` and one
`restore_backup_open_tables_state`, and `locks` calls each of `mysql_mutex_lock`
and `mysql_mutex_unlock` on `LOCK_compress_gtid_table`. -/
def restored (s : Server) (thd : Option THD) (o : Outcome) (locks : Nat) : Prop :=
  (match thd with
    | some t =>
      o.thd = some { t with is_operating_gtid_table := false } ∧
      o.server.calls Event.create_thd = s.calls Event.create_thd ∧
      o.server.calls Event.drop_thd = s.calls Event.drop_thd
    | none =>
      o.thd = none ∧
      o.server.calls Event.create_thd = s.calls Event.create_thd + 1 ∧
      o.server.calls Event.drop_thd = s.calls Event.drop_thd + 1) ∧
  o.server.calls Event.reset_n_backup_open_tables_state =
    s.calls Event.reset_n_backup_open_tables_state + 1 ∧
  o.server.calls Event.restore_backup_open_tables_state =
    s.calls Event.restore_backup_open_tables_state + 1 ∧
  o.server.calls Event.mutex_lock = s.calls Event.mutex_lock + locks ∧
  o.server.calls Event.mutex_unlock = s.calls Event.mutex_unlock + locks

/-! ## Notions of the lock discipline -/

/-- The calls that open, close, commit or roll back the ledger table. -/
def Event.touches_table : Event → Bool
  | Event.open_n_lock_single_table _ => true
  | Event.close_thread_tables => true
  | Event.ha_commit_trans _ => true
  | Event.ha_rollback_trans _ => true
  | _ => false

/-- A walk over a sequence of calls, `held` telling whether
`LOCK_compress_gtid_table` is held: true when every call that touches the table
is made with the lock held, the lock is never taken while held nor released
while not held, and it is not held at the end. -/
def under_lock : Bool → List Event → Bool
  | held, [] => !held
  | held, Event.mutex_lock :: rest => !held && under_lock true rest
  | held, Event.mutex_unlock :: rest => held && under_lock false rest
  | held, e :: rest => (held || !e.touches_table) && under_lock held rest

/-- The calls an operation started on the server `s` has made when it returns `o`. -/
def Outcome.made (o : Outcome) (s : Server) : List Event := o.server.trace.drop s.trace.length

/-! ## The engine calls, by cases on the fault schedule -/

@[simp] theorem engine_call_rows (t : TABLE) : t.engine_call.2.rows = t.rows := rfl

@[simp] theorem engine_call_fields (t : TABLE) : t.engine_call.2.fields = t.fields := rfl

theorem ha_index_next_eq (t : TABLE) (cursor : List Row) :
    t.ha_index_next cursor =
      if t.engine_call.1 = true then (HA_ERR_INTERNAL_ERROR, t.engine_call.2)
      else if cursor = [] then (HA_ERR_END_OF_FILE, t.engine_call.2)
      else (0, t.engine_call.2) := by
  cases cursor <;> rfl

theorem ha_delete_row_eq (t : TABLE) (record : Row) :
    t.ha_delete_row record =
      if t.engine_call.1 = true then (HA_ERR_INTERNAL_ERROR, t.engine_call.2)
      else (0, { t.engine_call.2 with rows := delete_rows t.rows [record] }) := by
  simp [TABLE.ha_delete_row, delete_rows]

theorem compress_loop_err (cursor : List Row) (err : Int) (t : TABLE) (l : Locals)
    (h : err ≠ 0) : compress_loop cursor err t l = (err, t, l) := by
  cases cursor <;> simp [compress_loop, h]

theorem scan_loop_nil (t : TABLE) (l : Locals) :
    scan_loop [] t l =
      (if t.engine_call.1 = true then HA_ERR_INTERNAL_ERROR else HA_ERR_END_OF_FILE,
        t.engine_call.2, l) := by
  unfold scan_loop
  rw [ha_index_next_eq]
  by_cases h : t.engine_call.1 = true <;> simp [h, compress_loop]

theorem scan_loop_fault (cursor : List Row) (t : TABLE) (l : Locals)
    (h : t.engine_call.1 = true) :
    scan_loop cursor t l = (HA_ERR_INTERNAL_ERROR, t.engine_call.2, l) := by
  unfold scan_loop
  rw [ha_index_next_eq]
  simp [h, compress_loop_err, HA_ERR_INTERNAL_ERROR]

theorem scan_loop_cons (c : Row) (rest : List Row) (t : TABLE) (l : Locals)
    (h : t.engine_call.1 = false) :
    scan_loop (c :: rest) t l = compress_loop (c :: rest) 0 t.engine_call.2 l := by
  unfold scan_loop
  rw [ha_index_next_eq]
  simp [h]

theorem delete_rows_nil (rows : List Row) : delete_rows rows [] = rows := by
  simp [delete_rows]

theorem delete_rows_cons (rows : List Row) (c : Row) (del : List Row) :
    delete_rows (delete_rows rows [c]) del = delete_rows rows (c :: del) := by
  simp [delete_rows, List.filter_filter, Bool.and_comm]

theorem compress_loop_delete (c : Row) (rest : List Row) (t : TABLE) (l : Locals)
    (hc : consecutive l.prev c) (hf : t.engine_call.1 = false) :
    compress_loop (c :: rest) 0 t l =
      scan_loop rest { t.engine_call.2 with rows := delete_rows t.rows [c] }
        (l.enter_run.advance c) := by
  have hc' : l.prev_sid = c.sid ∧ gno_succ l.prev_gno_end = c.gno_start := hc
  rw [compress_loop, if_neg (by simp), if_pos hc', ha_delete_row_eq]
  simp only [hf, Bool.false_eq_true, if_false, ne_eq, not_true_eq_false]
  rfl

theorem compress_loop_delete_fault (c : Row) (rest : List Row) (t : TABLE) (l : Locals)
    (hc : consecutive l.prev c) (hf : t.engine_call.1 = true) :
    compress_loop (c :: rest) 0 t l = (HA_ERR_INTERNAL_ERROR, t.engine_call.2, l.enter_run) := by
  have hc' : l.prev_sid = c.sid ∧ gno_succ l.prev_gno_end = c.gno_start := hc
  rw [compress_loop, if_neg (by simp), if_pos hc', ha_delete_row_eq]
  simp only [hf, if_true, ne_eq, HA_ERR_INTERNAL_ERROR]
  rfl

theorem compress_loop_break (c : Row) (rest : List Row) (t : TABLE) (l : Locals)
    (hc : ¬ consecutive l.prev c) (hf : l.find_first_consecutive_row = true) :
    compress_loop (c :: rest) 0 t l = (0, t, l) := by
  have hc' : ¬ (l.prev_sid = c.sid ∧ gno_succ l.prev_gno_end = c.gno_start) := hc
  rw [compress_loop, if_neg (by simp), if_neg hc', if_pos hf]

theorem compress_loop_skip (c : Row) (rest : List Row) (t : TABLE) (l : Locals)
    (hc : ¬ consecutive l.prev c) (hf : l.find_first_consecutive_row = false) :
    compress_loop (c :: rest) 0 t l = scan_loop rest t (l.advance c) := by
  have hc' : ¬ (l.prev_sid = c.sid ∧ gno_succ l.prev_gno_end = c.gno_start) := hc
  rw [compress_loop, if_neg (by simp), if_neg hc', if_neg (by simp [hf])]
  rfl

theorem scan_loop_found (cursor : List Row) : ∀ (t : TABLE) (l : Locals),
    l.find_first_consecutive_row = true →
    ((scan_loop cursor t l).1 = 0 ∨ (scan_loop cursor t l).1 = HA_ERR_END_OF_FILE) →
    (scan_loop cursor t l).2.1.rows = delete_rows t.rows (run_after l.prev cursor) ∧
    (scan_loop cursor t l).2.1.fields = t.fields ∧
    (scan_loop cursor t l).2.2.first = l.first ∧
    (scan_loop cursor t l).2.2.find_first_consecutive_row = true ∧
    (scan_loop cursor t l).2.2.prev_gno_end =
      ((run_after l.prev cursor).getLastD l.prev).gno_end := by
  induction cursor with
  | nil =>
    intro t l hf hs
    rw [scan_loop_nil] at hs ⊢
    simp [run_after, delete_rows_nil, hf, Locals.prev]
  | cons c rest ih =>
    intro t l hf hs
    cases hfa : t.engine_call.1 with
    | true =>
      rw [scan_loop_fault _ _ _ hfa] at hs
      simp [HA_ERR_INTERNAL_ERROR, HA_ERR_END_OF_FILE] at hs
    | false =>
      rw [scan_loop_cons _ _ _ _ hfa] at hs ⊢
      by_cases hc : consecutive l.prev c
      · cases hfd : t.engine_call.2.engine_call.1 with
        | true =>
          rw [compress_loop_delete_fault _ _ _ _ hc hfd] at hs
          simp [HA_ERR_INTERNAL_ERROR, HA_ERR_END_OF_FILE] at hs
        | false =>
          rw [compress_loop_delete _ _ _ _ hc hfd] at hs ⊢
          have hf2 : (l.enter_run.advance c).find_first_consecutive_row = true := by
            simp [Locals.enter_run, Locals.advance, hf]
          have h := ih _ _ hf2 hs
          obtain ⟨h1, h2, h3, h4, h5⟩ := h
          refine ⟨?_, ?_, ?_, h4, ?_⟩
          · rw [h1]
            simp only [engine_call_rows, run_after, hc, if_true]
            rw [delete_rows_cons]
            rfl
          · rw [h2]; rfl
          · rw [h3]; simp [Locals.enter_run, Locals.advance, hf, Locals.first]
          · rw [h5]
            simp only [run_after, hc, if_true, List.getLastD_cons]
            rfl
      · rw [compress_loop_break _ _ _ _ hc hf]
        simp [run_after, hc, delete_rows_nil, hf]
        rfl

theorem scan_loop_search (cursor : List Row) : ∀ (t : TABLE) (l : Locals),
    l.find_first_consecutive_row = false →
    ((scan_loop cursor t l).1 = 0 ∨ (scan_loop cursor t l).1 = HA_ERR_END_OF_FILE) →
    (scan_loop cursor t l).2.1.fields = t.fields ∧
    match first_run l.prev cursor with
    | none => (scan_loop cursor t l).2.1.rows = t.rows ∧
        (scan_loop cursor t l).2.2.find_first_consecutive_row = false
    | some (f, del) => (scan_loop cursor t l).2.1.rows = delete_rows t.rows del ∧
        (scan_loop cursor t l).2.2.first = f ∧
        (scan_loop cursor t l).2.2.find_first_consecutive_row = true ∧
        (scan_loop cursor t l).2.2.prev_gno_end = (del.getLastD f).gno_end := by
  induction cursor with
  | nil =>
    intro t l hf hs
    rw [scan_loop_nil]
    simp [first_run, hf]
  | cons c rest ih =>
    intro t l hf hs
    cases hfa : t.engine_call.1 with
    | true =>
      rw [scan_loop_fault _ _ _ hfa] at hs
      simp [HA_ERR_INTERNAL_ERROR, HA_ERR_END_OF_FILE] at hs
    | false =>
      rw [scan_loop_cons _ _ _ _ hfa] at hs ⊢
      by_cases hc : consecutive l.prev c
      · cases hfd : t.engine_call.2.engine_call.1 with
        | true =>
          rw [compress_loop_delete_fault _ _ _ _ hc hfd] at hs
          simp [HA_ERR_INTERNAL_ERROR, HA_ERR_END_OF_FILE] at hs
        | false =>
          rw [compress_loop_delete _ _ _ _ hc hfd] at hs ⊢
          have hf2 : (l.enter_run.advance c).find_first_consecutive_row = true := by
            simp [Locals.enter_run, Locals.advance, hf]
          obtain ⟨h1, h2, h3, h4, h5⟩ := scan_loop_found _ _ _ hf2 hs
          refine ⟨by rw [h2]; rfl, ?_⟩
          simp only [first_run, hc, if_true]
          refine ⟨?_, ?_, h4, ?_⟩
          · rw [h1]
            simp only [engine_call_rows]
            rw [delete_rows_cons]
            rfl
          · rw [h3]; simp [Locals.enter_run, Locals.advance, hf, Locals.first, Locals.prev]
          · rw [h5]
            simp only [List.getLastD_cons]
            rfl
      · rw [compress_loop_skip _ _ _ _ hc hf] at hs ⊢
        have hf2 : (l.advance c).find_first_consecutive_row = false := by
          simp [Locals.advance, hf]
        have h := ih _ _ hf2 hs
        simp only [first_run, hc, if_false]
        exact h

theorem fill_fields_eq (t : TABLE) (sid : List Char) (gno_start gno_end : Nat) :
    (fill_fields t sid gno_start gno_end).2.2 =
      ⟨sid.take rpl_sid.TEXT_LENGTH, gno_start, gno_end⟩ ∧
    (fill_fields t sid gno_start gno_end).2.1.rows = t.rows ∧
    (fill_fields t sid gno_start gno_end).2.1.fields = t.fields ∧
    ((fill_fields t sid gno_start gno_end).1 = 0 ∨
      (fill_fields t sid gno_start gno_end).1 = -1) := by
  simp only [fill_fields, TABLE.field_store]
  split_ifs <;> simp

theorem update_row_ret (t : TABLE) (sid : List Char) (gno_start gno_end new_gno_end : Nat) :
    (update_row t sid gno_start gno_end new_gno_end).1 = 0 ∨
    (update_row t sid gno_start gno_end new_gno_end).1 = -1 := by
  simp only [update_row]
  split_ifs <;> simp

theorem field_store_eq (t : TABLE) :
    t.field_store = (if t.engine_call.1 = true then 1 else 0, t.engine_call.2) := by
  by_cases h : t.engine_call.1 = true <;> simp [TABLE.field_store, h]

theorem ha_index_init_eq (t : TABLE) :
    t.ha_index_init =
      (if t.engine_call.1 = true then HA_ERR_INTERNAL_ERROR else 0, t.engine_call.2) := by
  by_cases h : t.engine_call.1 = true <;> simp [TABLE.ha_index_init, h]

theorem ha_index_read_map_eq (t : TABLE) (key : Row) :
    t.ha_index_read_map key =
      if t.engine_call.1 = true then (HA_ERR_INTERNAL_ERROR, key, t.engine_call.2)
      else match t.rows.find? (fun r => same_key r key) with
        | none => (HA_ERR_KEY_NOT_FOUND, key, t.engine_call.2)
        | some r => (0, r, t.engine_call.2) := rfl

theorem ha_update_row_eq (t : TABLE) (old new : Row) :
    t.ha_update_row old new =
      if t.engine_call.1 = true then (HA_ERR_INTERNAL_ERROR, t.engine_call.2)
      else (0, { t.engine_call.2 with
        rows := t.rows.map (fun r => if same_key r old then new else r) }) := rfl

theorem update_row_ok (t : TABLE) (sid : List Char) (gno_start gno_end new_gno_end : Nat)
    (h : (update_row t sid gno_start gno_end new_gno_end).1 = 0) :
    (update_row t sid gno_start gno_end new_gno_end).2.fields = t.fields ∧
    ∃ old, t.rows.find? (fun r => same_key r
        ⟨sid.take rpl_sid.TEXT_LENGTH, gno_start, gno_end⟩) = some old ∧
      (update_row t sid gno_start gno_end new_gno_end).2.rows =
        t.rows.map (fun r => if same_key r old then { old with gno_end := new_gno_end } else r) := by
  have hff := fill_fields_eq t sid gno_start gno_end
  unfold update_row at h ⊢
  generalize fill_fields t sid gno_start gno_end = ff at hff h ⊢
  obtain ⟨e, t1, key⟩ := ff
  simp only at hff h ⊢
  obtain ⟨hkey, hrows, hfields, _⟩ := hff
  subst hkey
  by_cases he : e = 0
  · simp only [he, ne_eq, not_true_eq_false, if_false] at h ⊢
    rw [ha_index_init_eq] at h ⊢
    cases h1 : t1.engine_call.1 with
    | true => simp [h1, HA_ERR_INTERNAL_ERROR] at h
    | false =>
      simp only [h1, Bool.false_eq_true, if_false, ne_eq, not_true_eq_false] at h ⊢
      rw [ha_index_read_map_eq] at h ⊢
      cases h2 : t1.engine_call.2.engine_call.1 with
      | true => simp [h2, HA_ERR_INTERNAL_ERROR] at h
      | false =>
        simp only [h2, Bool.false_eq_true, if_false, engine_call_rows, hrows] at h ⊢
        cases hfind : t.rows.find? (fun r => same_key r
            ⟨sid.take rpl_sid.TEXT_LENGTH, gno_start, gno_end⟩) with
        | none => simp [hfind, HA_ERR_KEY_NOT_FOUND] at h
        | some old =>
          simp only [hfind, ne_eq, not_true_eq_false, if_false] at h ⊢
          rw [field_store_eq] at h ⊢
          cases h3 : t1.engine_call.2.engine_call.2.engine_call.1 with
          | true => simp [h3] at h
          | false =>
            simp only [h3, Bool.false_eq_true, if_false, ne_eq, not_true_eq_false] at h ⊢
            rw [ha_update_row_eq] at h ⊢
            cases h4 : t1.engine_call.2.engine_call.2.engine_call.2.engine_call.1 with
            | true => simp [h4, HA_ERR_INTERNAL_ERROR] at h
            | false =>
              simp [h4, hrows, hfields]
  · simp [he] at h

theorem compress_first_consecutive_gtids_eq (t : TABLE) :
    compress_first_consecutive_gtids t =
      if t.engine_call.1 = true then (-1, t.engine_call.2)
      else if (scan_loop t.rows t.engine_call.2 Locals.init).1 ≠ HA_ERR_END_OF_FILE ∧
          (scan_loop t.rows t.engine_call.2 Locals.init).1 ≠ 0 then
        (-1, (scan_loop t.rows t.engine_call.2 Locals.init).2.1)
      else if (scan_loop t.rows t.engine_call.2 Locals.init).2.2.find_first_consecutive_row
          = true then
        update_row (scan_loop t.rows t.engine_call.2 Locals.init).2.1
          (scan_loop t.rows t.engine_call.2 Locals.init).2.2.sid
          (scan_loop t.rows t.engine_call.2 Locals.init).2.2.gno_start
          (scan_loop t.rows t.engine_call.2 Locals.init).2.2.gno_end
          (scan_loop t.rows t.engine_call.2 Locals.init).2.2.prev_gno_end
      else (0, (scan_loop t.rows t.engine_call.2 Locals.init).2.1) := by
  unfold compress_first_consecutive_gtids
  rw [ha_index_init_eq]
  by_cases h : t.engine_call.1 = true
  · simp [h, HA_ERR_INTERNAL_ERROR]
  · simp only [h, if_false, ne_eq, not_true_eq_false, engine_call_rows]
    unfold scan_loop
    split_ifs <;> simp_all

theorem compress_first_consecutive_gtids_ok (t : TABLE)
    (h : (compress_first_consecutive_gtids t).1 = 0) :
    (compress_first_consecutive_gtids t).2.fields = t.fields ∧
    match first_run phantom t.rows with
    | none => (compress_first_consecutive_gtids t).2.rows = t.rows
    | some (f, del) =>
      ∃ old, (delete_rows t.rows del).find? (fun r => same_key r
          ⟨f.sid.take rpl_sid.TEXT_LENGTH, f.gno_start, f.gno_end⟩) = some old ∧
        (compress_first_consecutive_gtids t).2.rows =
          (delete_rows t.rows del).map
            (fun r => if same_key r old then { old with gno_end := (del.getLastD f).gno_end }
                      else r) := by
  rw [compress_first_consecutive_gtids_eq] at h ⊢
  by_cases hf : t.engine_call.1 = true
  · simp [hf] at h
  · rw [if_neg hf] at h ⊢
    by_cases he : (scan_loop t.rows t.engine_call.2 Locals.init).1 ≠ HA_ERR_END_OF_FILE ∧
        (scan_loop t.rows t.engine_call.2 Locals.init).1 ≠ 0
    · simp [he] at h
    · have hs : (scan_loop t.rows t.engine_call.2 Locals.init).1 = 0 ∨
          (scan_loop t.rows t.engine_call.2 Locals.init).1 = HA_ERR_END_OF_FILE := by
        by_contra hcon
        exact he ⟨fun h1 => hcon (Or.inr h1), fun h0 => hcon (Or.inl h0)⟩
      have hsearch := scan_loop_search t.rows t.engine_call.2 Locals.init rfl hs
      rw [if_neg he] at h ⊢
      obtain ⟨hfields, hm⟩ := hsearch
      have hprev : Locals.init.prev = phantom := rfl
      rw [hprev] at hm
      cases hfr : first_run phantom t.rows with
      | none =>
        rw [hfr] at hm
        simp only at hm ⊢
        simp [hm.2, hm.1, hfields]
      | some fd =>
        obtain ⟨f, del⟩ := fd
        rw [hfr] at hm
        simp only at hm ⊢
        obtain ⟨hrows, hfirst, hfound, hlast⟩ := hm
        rw [if_pos hfound] at h ⊢
        obtain ⟨hfl, old, hold, hres⟩ := update_row_ok _ _ _ _ _ h
        refine ⟨by rw [hfl, hfields]; rfl, old, ?_, ?_⟩
        · rw [← hold, hrows, ← hfirst]; rfl
        · rw [hres, hrows, hlast]
          rfl

/-! ## The walk on a list in primary-key order -/

theorem run_after_spec (cursor : List Row) : ∀ p : Row,
    ∃ Y, cursor = run_after p cursor ++ Y ∧ List.Chain consecutive p (run_after p cursor) ∧
      ∀ y, Y.head? = some y → ¬ consecutive ((run_after p cursor).getLastD p) y := by
  induction cursor with
  | nil => intro p; exact ⟨[], by simp [run_after]⟩
  | cons c rest ih =>
    intro p
    by_cases hc : consecutive p c
    · obtain ⟨Y, h1, h2, h3⟩ := ih c
      refine ⟨Y, ?_, ?_, ?_⟩
      · simp only [run_after, hc, if_true, List.cons_append]
        rw [← h1]
      · simp only [run_after, hc, if_true]
        exact List.Chain.cons hc h2
      · simp only [run_after, hc, if_true, List.getLastD_cons]
        exact h3
    · refine ⟨c :: rest, by simp [run_after, hc], by simp [run_after, hc], ?_⟩
      intro y hy
      simp only [List.head?_cons, Option.some.injEq] at hy
      subst hy
      simp [run_after, hc]

theorem first_run_none (cursor : List Row) : ∀ p : Row,
    first_run p cursor = none → List.Chain (fun a b => ¬ consecutive a b) p cursor := by
  induction cursor with
  | nil => intro p _; exact List.Chain.nil
  | cons c rest ih =>
    intro p h
    by_cases hc : consecutive p c
    · simp [first_run, hc] at h
    · simp only [first_run, hc, if_false] at h
      exact List.Chain.cons hc (ih c h)

theorem first_run_some (cursor : List Row) : ∀ (p f : Row) (del : List Row),
    first_run p cursor = some (f, del) →
    ∃ X Y, p :: cursor = X ++ f :: (del ++ Y) ∧ del ≠ [] ∧
      List.Chain' (fun a b => ¬ consecutive a b) (X ++ [f]) ∧
      List.Chain consecutive f del ∧
      ∀ y, Y.head? = some y → ¬ consecutive (del.getLastD f) y := by
  induction cursor with
  | nil => intro p f del h; simp [first_run] at h
  | cons c rest ih =>
    intro p f del h
    by_cases hc : consecutive p c
    · simp only [first_run, hc, if_true, Option.some.injEq, Prod.mk.injEq] at h
      obtain ⟨hp, hdel⟩ := h
      subst hp
      obtain ⟨Y, h1, h2, h3⟩ := run_after_spec rest c
      refine ⟨[], Y, ?_, ?_, ?_, ?_, ?_⟩
      · rw [← hdel]
        simp only [List.nil_append, List.cons_append]
        rw [← h1]
      · rw [← hdel]; simp
      · simp
      · rw [← hdel]; exact List.Chain.cons hc h2
      · rw [← hdel, List.getLastD_cons]; exact h3
    · simp only [first_run, hc, if_false] at h
      obtain ⟨X, Y, h1, h2, h3, h4, h5⟩ := ih c f del h
      refine ⟨p :: X, Y, by rw [List.cons_append, ← h1], h2, ?_, h4, h5⟩
      cases X with
      | nil =>
        simp only [List.nil_append, List.cons.injEq] at h1
        obtain ⟨hx, _⟩ := h1
        subst hx
        simp only [List.cons_append, List.nil_append]
        exact List.chain'_cons.mpr ⟨hc, List.chain'_singleton c⟩
      | cons x X' =>
        simp only [List.cons_append, List.cons.injEq] at h1
        obtain ⟨hx, _⟩ := h1
        subst hx
        simp only [List.cons_append] at h3 ⊢
        exact List.chain'_cons.mpr ⟨hc, h3⟩

theorem key_lt_not_same_key {a b : Row} (h : key_lt a b) : ¬ same_key a b ∧ ¬ same_key b a := by
  unfold key_lt at h
  unfold same_key
  rcases h with h | ⟨_, h⟩
  · exact ⟨fun hs => absurd hs.1 (ne_of_lt h), fun hs => absurd hs.1.symm (ne_of_lt h)⟩
  · exact ⟨fun hs => absurd hs.2 (ne_of_lt h), fun hs => absurd hs.2.symm (ne_of_lt h)⟩

theorem delete_rows_run (X Y del : List Row) (f : Row)
    (h : (X ++ f :: (del ++ Y)).Pairwise key_lt) :
    delete_rows (X ++ f :: (del ++ Y)) del = X ++ f :: Y := by
  have hX : ∀ x ∈ X, ∀ d ∈ del, ¬ same_key x d := by
    intro x hx d hd
    have := List.pairwise_append.mp h
    exact (key_lt_not_same_key (this.2.2 x hx d (by simp [hd]))).1
  have hcons := (List.pairwise_append.mp h).2.1
  have hf : ∀ d ∈ del, ¬ same_key f d := by
    intro d hd
    exact (key_lt_not_same_key ((List.pairwise_cons.mp hcons).1 d (by simp [hd]))).1
  have hdy := List.pairwise_append.mp (List.pairwise_cons.mp hcons).2
  have hY : ∀ y ∈ Y, ∀ d ∈ del, ¬ same_key y d := by
    intro y hy d hd
    exact (key_lt_not_same_key (hdy.2.2 d hd y hy)).2
  unfold delete_rows
  rw [List.filter_append, List.filter_cons, List.filter_append]
  have e1 : X.filter (fun x => del.all (fun d => ¬ same_key x d)) = X := by
    rw [List.filter_eq_self]
    intro x hx
    simpa using hX x hx
  have e2 : del.filter (fun x => del.all (fun d => ¬ same_key x d)) = [] := by
    rw [List.filter_eq_nil_iff]
    intro d hd
    simp only [List.all_eq_true, decide_eq_true_eq, not_forall]
    exact ⟨d, hd, by simp [same_key]⟩
  have e3 : Y.filter (fun x => del.all (fun d => ¬ same_key x d)) = Y := by
    rw [List.filter_eq_self]
    intro y hy
    simpa using hY y hy
  have e4 : (del.all (fun d => ¬ same_key f d)) = true := by
    simpa using hf
  rw [e1, e2, e3, e4]
  simp

theorem find_same_key (X Y : List Row) (f : Row) (h : (X ++ f :: Y).Pairwise key_lt) :
    (X ++ f :: Y).find? (fun r => same_key r f) = some f := by
  have hX : ∀ x ∈ X, ¬ same_key x f := by
    intro x hx
    exact (key_lt_not_same_key ((List.pairwise_append.mp h).2.2 x hx f (by simp))).1
  rw [List.find?_append]
  have : X.find? (fun r => same_key r f) = none := by
    rw [List.find?_eq_none]
    intro x hx
    simpa using hX x hx
  rw [this]
  simp [same_key]

theorem map_same_key (X Y : List Row) (f g : Row) (h : (X ++ f :: Y).Pairwise key_lt) :
    (X ++ f :: Y).map (fun r => if same_key r f then g else r) = X ++ g :: Y := by
  have hX : ∀ x ∈ X, ¬ same_key x f := by
    intro x hx
    exact (key_lt_not_same_key ((List.pairwise_append.mp h).2.2 x hx f (by simp))).1
  have hY : ∀ y ∈ Y, ¬ same_key y f := by
    intro y hy
    have := (List.pairwise_append.mp h).2.1
    exact (key_lt_not_same_key ((List.pairwise_cons.mp this).1 y hy)).2
  rw [List.map_append, List.map_cons]
  have e1 : X.map (fun r => if same_key r f then g else r) = X := by
    conv_rhs => rw [← List.map_id X]
    apply List.map_congr_left
    intro x hx
    simp [hX x hx]
  have e2 : Y.map (fun r => if same_key r f then g else r) = Y := by
    conv_rhs => rw [← List.map_id Y]
    apply List.map_congr_left
    intro y hy
    simp [hY y hy]
  rw [e1, e2]
  simp [same_key]

theorem delete_rows_subset (rows del : List Row) : ∀ r ∈ delete_rows rows del, r ∈ rows := by
  intro r hr
  exact (List.mem_filter.mp hr).1

theorem phantom_run_fails (rows del : List Row) (old : Row) (hwf : rows.Pairwise key_lt)
    (X Y : List Row) (hX : X = []) (hdec : phantom :: rows = X ++ phantom :: (del ++ Y))
    (hne : del ≠ []) (hch : List.Chain consecutive phantom del)
    (hfind : (delete_rows rows del).find? (fun r => same_key r phantom) = some old) : False := by
  subst hX
  simp only [List.nil_append, List.cons.injEq, true_and] at hdec
  cases del with
  | nil => exact hne rfl
  | cons d del' =>
    have hc : consecutive phantom d := (List.chain_cons.mp hch).1
    have hold_mem : old ∈ rows := delete_rows_subset _ _ _ (List.mem_of_find?_eq_some hfind)
    have hkey : same_key old phantom := by
      have := List.find?_some hfind
      simpa using this
    obtain ⟨hsid, hstart⟩ := hc
    have hstart1 : d.gno_start = 1 := by
      rw [← hstart]
      simp [gno_succ, phantom, GNO_BITS]
    obtain ⟨hk1, hk2⟩ := hkey
    simp only [phantom] at hk1 hk2 hsid
    rw [hdec] at hold_mem hwf
    simp only [List.cons_append, List.mem_cons] at hold_mem
    simp only [List.cons_append] at hwf
    rcases hold_mem with h | h
    · rw [h] at hk2; omega
    · have hlt := (List.pairwise_cons.mp hwf).1 old h
      rcases hlt with hl | ⟨_, hl⟩
      · rw [← hsid, hk1] at hl
        exact lt_irrefl _ hl
      · omega

theorem compress_first_consecutive_gtids_found (t : TABLE)
    (hlen : ∀ r ∈ t.rows, r.sid.length ≤ rpl_sid.TEXT_LENGTH)
    (h : (compress_first_consecutive_gtids t).1 = 0) :
    (compress_first_consecutive_gtids t).2.fields = t.fields ∧
    match first_run phantom t.rows with
    | none => (compress_first_consecutive_gtids t).2.rows = t.rows
    | some (f, del) =>
      ∃ old, (delete_rows t.rows del).find? (fun r => same_key r f) = some old ∧
        (compress_first_consecutive_gtids t).2.rows =
          (delete_rows t.rows del).map
            (fun r => if same_key r old then { old with gno_end := (del.getLastD f).gno_end }
                      else r) := by
  obtain ⟨hf, hm⟩ := compress_first_consecutive_gtids_ok t h
  refine ⟨hf, ?_⟩
  cases hfr : first_run phantom t.rows with
  | none =>
    rw [hfr] at hm
    exact hm
  | some fd =>
    obtain ⟨f, del⟩ := fd
    rw [hfr] at hm
    obtain ⟨X, Y, hdec, _⟩ := first_run_some _ _ _ _ hfr
    have hfl : f.sid.length ≤ rpl_sid.TEXT_LENGTH := by
      have hmem : f ∈ phantom :: t.rows := by rw [hdec]; simp
      rcases List.mem_cons.mp hmem with h | h
      · rw [h]; exact Nat.zero_le _
      · exact hlen f h
    simp only [List.take_of_length_le hfl] at hm
    exact hm

/-- What a successful walk does to a table in primary-key order whose SID texts
have at most `rpl_sid::TEXT_LENGTH` characters: nothing when no row is consecutive
to its predecessor, otherwise the rows of the first run after its first row are
gone and that first row ends where the run ended. -/
theorem compress_first_consecutive_gtids_merges (t : TABLE) (hwf : t.rows.Pairwise key_lt)
    (hlen : ∀ r ∈ t.rows, r.sid.length ≤ rpl_sid.TEXT_LENGTH)
    (h : (compress_first_consecutive_gtids t).1 = 0) :
    (List.Chain' (fun a b => ¬ consecutive a b) t.rows ∧
      (compress_first_consecutive_gtids t).2.rows = t.rows) ∨
    ∃ X f del Y, t.rows = X ++ f :: (del ++ Y) ∧ del ≠ [] ∧
      List.Chain' (fun a b => ¬ consecutive a b) (X ++ [f]) ∧
      List.Chain consecutive f del ∧
      (∀ y, Y.head? = some y → ¬ consecutive (del.getLastD f) y) ∧
      (compress_first_consecutive_gtids t).2.rows =
        X ++ { f with gno_end := (del.getLastD f).gno_end } :: Y := by
  obtain ⟨_, hm⟩ := compress_first_consecutive_gtids_found t hlen h
  cases hfr : first_run phantom t.rows with
  | none =>
    rw [hfr] at hm
    left
    have hch : List.Chain' (fun a b => ¬ consecutive a b) (phantom :: t.rows) :=
      first_run_none _ _ hfr
    exact ⟨hch.tail, hm⟩
  | some fd =>
    obtain ⟨f, del⟩ := fd
    rw [hfr] at hm
    obtain ⟨old, hfind, hres⟩ := hm
    obtain ⟨X, Y, hdec, hne, hfree, hchain, hmax⟩ := first_run_some _ _ _ _ hfr
    cases X with
    | nil =>
      exfalso
      have hf : phantom = f := by
        simp only [List.nil_append, List.cons.injEq] at hdec
        exact hdec.1
      subst hf
      exact phantom_run_fails t.rows del old hwf [] Y rfl hdec hne hchain hfind
    | cons x X' =>
      right
      simp only [List.cons_append, List.cons.injEq] at hdec
      obtain ⟨_, hrows⟩ := hdec
      have hwf' := hwf
      rw [hrows] at hwf'
      have hdel := delete_rows_run X' Y del f hwf'
      rw [hrows, hdel] at hfind hres
      have hwf2 : (X' ++ f :: Y).Pairwise key_lt := by
        rw [← hdel]
        exact List.Pairwise.sublist (List.filter_sublist _) hwf'
      rw [find_same_key X' Y f hwf2] at hfind
      simp only [Option.some.injEq] at hfind
      subst hfind
      rw [map_same_key X' Y f _ hwf2] at hres
      exact ⟨X', f, del, Y, hrows, hne, List.Chain'.tail hfree, hchain, hmax, hres⟩

/-! ## The public operations in terms of the table functions -/

theorem compress_ret (s : Server) (thd : Option THD) :
    (compress s thd).ret =
      if s.usable then (compress_first_consecutive_gtids s.table).1 else 1 := by
  unfold Server.usable
  cases thd <;>
  by_cases h1 : s.table_exists = true <;> by_cases h2 : s.table.fields < 3 <;>
  simp [compress, open_table, close_table, enter_thd, leave_thd, Server.log, h1, h2]

theorem compress_rows (s : Server) (thd : Option THD) :
    (compress s thd).rows =
      if s.usable ∧ (compress_first_consecutive_gtids s.table).1 = 0 then
        (compress_first_consecutive_gtids s.table).2.rows
      else s.table.rows := by
  unfold Server.usable
  cases thd <;>
  by_cases h1 : s.table_exists = true <;> by_cases h2 : s.table.fields < 3 <;>
  by_cases h3 : (compress_first_consecutive_gtids s.table).1 = 0 <;>
  first
  | (have h4 : (0 : Int) = (compress_first_consecutive_gtids s.table).1 := h3.symm
     simp [compress, open_table, close_table, enter_thd, leave_thd, Server.log, h1, h2, h3,
       ← h4, Outcome.rows])
  | (have h4 : ¬ (0 : Int) = (compress_first_consecutive_gtids s.table).1 :=
       fun h => h3 h.symm
     simp [compress, open_table, close_table, enter_thd, leave_thd, Server.log, h1, h2, h3,
       h4, Outcome.rows])

/-! ## Runs of consecutive rows -/

theorem consecutive_succ {a b : Row} (h : consecutive a b)
    (ha : a.gno_end < 2 ^ GNO_BITS) (hb : 1 ≤ b.gno_start) :
    a.sid = b.sid ∧ b.gno_start = a.gno_end + 1 := by
  obtain ⟨hs, hg⟩ := h
  refine ⟨hs, ?_⟩
  unfold gno_succ at hg
  simp only [GNO_BITS] at ha hg
  norm_num at ha hg
  omega

theorem run_cover (del : List Row) : ∀ f : Row, List.Chain consecutive f del →
    (∀ r ∈ f :: del, I1 r ∧ r.gno_end < 2 ^ GNO_BITS) →
    (∀ r ∈ del, r.sid = f.sid) ∧ f.gno_end ≤ (del.getLastD f).gno_end ∧
    (del ≠ [] → f.gno_end < (del.getLastD f).gno_end) ∧
    ∀ g, (f.gno_start ≤ g ∧ g ≤ (del.getLastD f).gno_end) ↔
      ∃ r ∈ f :: del, r.gno_start ≤ g ∧ g ≤ r.gno_end := by
  induction del with
  | nil =>
    intro f _ _
    simp
  | cons d del' ih =>
    intro f hch hI
    obtain ⟨hc, hch'⟩ := List.chain_cons.mp hch
    have hf := hI f (by simp)
    have hd := hI d (by simp)
    obtain ⟨hsid, hsucc⟩ := consecutive_succ hc hf.2 hd.1.1
    obtain ⟨h1, h2, _, h4⟩ := ih d hch' (fun r hr => hI r (List.mem_cons_of_mem _ hr))
    rw [List.getLastD_cons]
    have hfI := hf.1
    have hdI := hd.1
    unfold I1 at hfI hdI
    refine ⟨?_, by omega, fun _ => by omega, ?_⟩
    · intro r hr
      rcases List.mem_cons.mp hr with h | h
      · rw [h, hsid]
      · rw [h1 r h, hsid]
    · intro g
      constructor
      · intro hg
        by_cases hgf : g ≤ f.gno_end
        · exact ⟨f, by simp, hg.1, hgf⟩
        · obtain ⟨r, hr, hr2⟩ := (h4 g).mp ⟨by omega, hg.2⟩
          exact ⟨r, List.mem_cons_of_mem _ hr, hr2⟩
      · rintro ⟨r, hr, hr1, hr2⟩
        rcases List.mem_cons.mp hr with h | h
        · subst h
          omega
        · have := (h4 g).mpr ⟨r, h, hr1, hr2⟩
          omega

theorem covers_merge (X Y del : List Row) (f : Row) (hch : List.Chain consecutive f del)
    (hI : ∀ r ∈ f :: del, I1 r ∧ r.gno_end < 2 ^ GNO_BITS) (sid : List Char) (gno : Nat) :
    covers (X ++ { f with gno_end := (del.getLastD f).gno_end } :: Y) sid gno ↔
      covers (X ++ f :: (del ++ Y)) sid gno := by
  obtain ⟨hsid, _, _, hcov⟩ := run_cover del f hch hI
  unfold covers
  constructor
  · rintro ⟨r, hr, hs, h1, h2⟩
    simp only [List.mem_append, List.mem_cons] at hr
    rcases hr with h | h | h
    · exact ⟨r, by simp [h], hs, h1, h2⟩
    · subst h
      obtain ⟨r', hr', h3⟩ := (hcov gno).mp ⟨h1, h2⟩
      refine ⟨r', ?_, ?_, h3⟩
      · simp only [List.mem_append, List.mem_cons] at hr' ⊢
        rcases hr' with h | h
        · exact Or.inr (Or.inl h)
        · exact Or.inr (Or.inr (Or.inl h))
      · rcases List.mem_cons.mp hr' with h | h
        · rw [h]; exact hs
        · rw [hsid r' h]; exact hs
    · exact ⟨r, by simp [h], hs, h1, h2⟩
  · rintro ⟨r, hr, hs, h1, h2⟩
    simp only [List.mem_append, List.mem_cons] at hr
    rcases hr with h | h | h | h
    · exact ⟨r, by simp [h], hs, h1, h2⟩
    · subst h
      have := (hcov gno).mpr ⟨r, by simp, h1, h2⟩
      exact ⟨{ r with gno_end := (del.getLastD r).gno_end }, by simp, hs, this.1, this.2⟩
    · have := (hcov gno).mpr ⟨r, by simp [h], h1, h2⟩
      refine ⟨{ f with gno_end := (del.getLastD f).gno_end }, by simp, ?_, this.1, this.2⟩
      simp only
      rw [← hsid r h]; exact hs
    · exact ⟨r, by simp [h], hs, h1, h2⟩

theorem compress_ok_iff (s : Server) (thd : Option THD) :
    (compress s thd).ret = 0 ↔ s.usable ∧ (compress_first_consecutive_gtids s.table).1 = 0 := by
  rw [compress_ret]
  by_cases h : s.usable <;> simp [h]

theorem compress_ok_rows (s : Server) (thd : Option THD) (h : (compress s thd).ret = 0) :
    (compress s thd).rows = (compress_first_consecutive_gtids s.table).2.rows := by
  rw [compress_rows, if_pos ((compress_ok_iff s thd).mp h)]

theorem consecutive_iff_follows {a b : Row} (ha : a.gno_end < 2 ^ GNO_BITS)
    (hb : b.gno_start < 2 ^ GNO_BITS) (hb1 : 1 ≤ b.gno_start) :
    consecutive a b ↔ follows a b := by
  constructor
  · intro h
    exact consecutive_succ h ha hb1
  · rintro ⟨hs, hg⟩
    refine ⟨hs, ?_⟩
    unfold gno_succ
    rw [← hg]
    exact Nat.mod_eq_of_lt hb

theorem run_after_chain (Y del : List Row) : ∀ p : Row, List.Chain consecutive p del →
    (∀ y, Y.head? = some y → ¬ consecutive (del.getLastD p) y) →
    run_after p (del ++ Y) = del := by
  induction del with
  | nil =>
    intro p _ hmax
    cases Y with
    | nil => rfl
    | cons y Y' =>
      have := hmax y rfl
      simp only [List.getLastD_nil] at this
      simp [run_after, this]
  | cons d del' ih =>
    intro p hch hmax
    obtain ⟨hc, hch'⟩ := List.chain_cons.mp hch
    rw [List.getLastD_cons] at hmax
    simp only [List.cons_append, run_after, hc, if_true, List.append_eq]
    rw [ih d hch' hmax]

theorem first_run_free (rows : List Row) : ∀ p : Row,
    List.Chain (fun a b => ¬ consecutive a b) p rows → first_run p rows = none := by
  induction rows with
  | nil => intro p _; rfl
  | cons c rest ih =>
    intro p h
    obtain ⟨hc, hrest⟩ := List.chain_cons.mp h
    simp only [first_run, hc, if_false]
    exact ih c hrest

theorem first_run_decomp (Y del : List Row) (f : Row) (hne : del ≠ [])
    (hch : List.Chain consecutive f del)
    (hmax : ∀ y, Y.head? = some y → ¬ consecutive (del.getLastD f) y) (X : List Row) :
    ∀ p : Row, List.Chain (fun a b => ¬ consecutive a b) p (X ++ [f]) →
    first_run p (X ++ f :: (del ++ Y)) = some (f, del) := by
  induction X with
  | nil =>
    intro p hfree
    have hpf : ¬ consecutive p f := by
      simpa using hfree
    cases del with
    | nil => exact absurd rfl hne
    | cons d del' =>
      obtain ⟨hc, hch'⟩ := List.chain_cons.mp hch
      rw [List.getLastD_cons] at hmax
      simp only [List.nil_append, first_run, hpf, if_false, List.cons_append, hc, if_true,
        List.append_eq]
      rw [run_after_chain Y del' d hch' hmax]
  | cons x X' ih =>
    intro p hfree
    simp only [List.cons_append] at hfree ⊢
    obtain ⟨hc, hrest⟩ := List.chain_cons.mp hfree
    simp only [first_run, hc, if_false]
    exact ih x hrest

theorem merge_result (t : TABLE) (hwf : t.rows.Pairwise key_lt)
    (hlen : ∀ r ∈ t.rows, r.sid.length ≤ rpl_sid.TEXT_LENGTH)
    (h : (compress_first_consecutive_gtids t).1 = 0) (X Y del : List Row) (f : Row)
    (hrows : t.rows = X ++ f :: (del ++ Y)) (hfr : first_run phantom t.rows = some (f, del)) :
    (compress_first_consecutive_gtids t).2.rows =
      X ++ { f with gno_end := (del.getLastD f).gno_end } :: Y := by
  obtain ⟨_, hm⟩ := compress_first_consecutive_gtids_found t hlen h
  rw [hfr] at hm
  obtain ⟨old, hfind, hres⟩ := hm
  have hwf' := hwf
  rw [hrows] at hwf'
  have hdel := delete_rows_run X Y del f hwf'
  rw [hrows, hdel] at hfind hres
  have hwf2 : (X ++ f :: Y).Pairwise key_lt := by
    rw [← hdel]
    exact List.Pairwise.sublist (List.filter_sublist _) hwf'
  rw [find_same_key X Y f hwf2] at hfind
  simp only [Option.some.injEq] at hfind
  subst hfind
  rw [map_same_key X Y f _ hwf2] at hres
  exact hres

theorem chain_of_mem {R S : Row → Row → Prop} (l : List Row) : ∀ a : Row,
    (∀ x ∈ a :: l, ∀ y ∈ a :: l, R x y → S x y) → List.Chain R a l → List.Chain S a l := by
  induction l with
  | nil => intro a _ _; exact List.Chain.nil
  | cons b l' ih =>
    intro a himp hch
    obtain ⟨hab, hrest⟩ := List.chain_cons.mp hch
    refine List.Chain.cons (himp a (by simp) b (by simp) hab) (ih b ?_ hrest)
    intro x hx y hy
    exact himp x (List.mem_cons_of_mem _ hx) y (List.mem_cons_of_mem _ hy)

theorem chain'_of_mem {R S : Row → Row → Prop} (l : List Row)
    (himp : ∀ x ∈ l, ∀ y ∈ l, R x y → S x y) (h : List.Chain' R l) : List.Chain' S l := by
  cases l with
  | nil => exact List.chain'_nil
  | cons a l' => exact chain_of_mem l' a himp h

theorem getLastD_mem (del : List Row) : ∀ f : Row, del.getLastD f ∈ f :: del := by
  induction del with
  | nil => intro f; simp
  | cons d del' ih =>
    intro f
    rw [List.getLastD_cons]
    exact List.mem_cons_of_mem _ (ih d)

theorem phantom_chain (rows : List Row) (hsid : ∀ r ∈ rows, r.sid ≠ [])
    (h : List.Chain' (fun a b => ¬ consecutive a b) rows) :
    List.Chain (fun a b => ¬ consecutive a b) phantom rows := by
  cases rows with
  | nil => exact List.Chain.nil
  | cons a l =>
    refine List.Chain.cons ?_ h
    intro hc
    exact hsid a (by simp) hc.1.symm

theorem run_same_sid (del : List Row) : ∀ f : Row, List.Chain consecutive f del →
    ∀ r ∈ del, r.sid = f.sid := by
  induction del with
  | nil => intro f _ r hr; simp at hr
  | cons d del' ih =>
    intro f hch r hr
    obtain ⟨hc, hch'⟩ := List.chain_cons.mp hch
    rcases List.mem_cons.mp hr with h | h
    · rw [h]; exact hc.1.symm
    · rw [ih d hch' r h]; exact hc.1.symm

theorem compress_rows_cases (s : Server) (thd : Option THD) :
    (compress s thd).rows = s.table.rows ∨
    ((compress_first_consecutive_gtids s.table).1 = 0 ∧
      (compress s thd).rows = (compress_first_consecutive_gtids s.table).2.rows) := by
  rw [compress_rows]
  by_cases h : s.usable ∧ (compress_first_consecutive_gtids s.table).1 = 0
  · rw [if_pos h]; exact Or.inr ⟨h.2, rfl⟩
  · rw [if_neg h]; exact Or.inl rfl

/-! ## `delete_all`, `reset` and `fetch_gtids` -/

theorem delete_all_loop_ok (cursor : List Row) : ∀ t : TABLE,
    (delete_all_loop cursor t).1 = HA_ERR_END_OF_FILE →
    (delete_all_loop cursor t).2.rows = delete_rows t.rows cursor := by
  induction cursor with
  | nil =>
    intro t _
    unfold delete_all_loop
    rw [ha_index_next_eq, delete_rows_nil]
    by_cases h1 : t.engine_call.1 = true <;> simp [h1]
  | cons c rest ih =>
    intro t h
    unfold delete_all_loop at h ⊢
    rw [ha_index_next_eq] at h ⊢
    cases h1 : t.engine_call.1 with
    | true => simp [h1, HA_ERR_INTERNAL_ERROR, HA_ERR_END_OF_FILE] at h
    | false =>
      simp only [h1, Bool.false_eq_true, if_false, List.cons_ne_nil, ne_eq, not_true_eq_false]
        at h ⊢
      rw [ha_delete_row_eq] at h ⊢
      cases h2 : t.engine_call.2.engine_call.1 with
      | true => simp [h2, HA_ERR_INTERNAL_ERROR, HA_ERR_END_OF_FILE] at h
      | false =>
        simp only [h2, Bool.false_eq_true, if_false, ne_eq, not_true_eq_false] at h ⊢
        rw [ih _ h]
        simp only [engine_call_rows]
        rw [delete_rows_cons]

theorem delete_rows_self (rows : List Row) : delete_rows rows rows = [] := by
  unfold delete_rows
  rw [List.filter_eq_nil_iff]
  intro r hr
  simp only [List.all_eq_true, decide_eq_true_eq, not_forall]
  exact ⟨r, hr, by simp [same_key]⟩

theorem delete_all_ok (t : TABLE) (h : (delete_all t).1 = 0) : (delete_all t).2.rows = [] := by
  unfold delete_all at h ⊢
  rw [ha_index_init_eq] at h ⊢
  cases h1 : t.engine_call.1 with
  | true => simp [h1, HA_ERR_INTERNAL_ERROR] at h
  | false =>
    simp only [h1, Bool.false_eq_true, if_false, ne_eq, not_true_eq_false, engine_call_rows]
      at h ⊢
    by_cases he : (delete_all_loop t.rows t.engine_call.2).1 = HA_ERR_END_OF_FILE
    · simp only [he, not_true_eq_false, if_false]
      rw [delete_all_loop_ok _ _ he]
      exact delete_rows_self t.rows
    · simp [he] at h

theorem reset_ret (s : Server) (thd : Option THD) :
    (reset s thd).ret = if s.usable then (delete_all s.table).1 else 1 := by
  unfold Server.usable
  cases thd <;>
  by_cases h1 : s.table_exists = true <;> by_cases h2 : s.table.fields < 3 <;>
  simp [reset, open_table, close_table, enter_thd, leave_thd, Server.log, h1, h2]

theorem reset_rows (s : Server) (thd : Option THD) :
    (reset s thd).rows =
      if s.usable ∧ (delete_all s.table).1 = 0 then (delete_all s.table).2.rows
      else s.table.rows := by
  unfold Server.usable
  cases thd <;>
  by_cases h1 : s.table_exists = true <;> by_cases h2 : s.table.fields < 3 <;>
  by_cases h3 : (delete_all s.table).1 = 0 <;>
  first
  | (have h4 : (0 : Int) = (delete_all s.table).1 := h3.symm
     simp [reset, open_table, close_table, enter_thd, leave_thd, Server.log, h1, h2, h3,
       ← h4, Outcome.rows])
  | (have h4 : ¬ (0 : Int) = (delete_all s.table).1 := fun h => h3 h.symm
     simp [reset, open_table, close_table, enter_thd, leave_thd, Server.log, h1, h2, h3,
       h4, Outcome.rows])

theorem fetch_gtids_set (s : Server) (thd : Option THD) (g : Gtid_set) :
    (fetch_gtids s thd g).2 =
      if s.usable ∧ s.table.engine_call.1 = false then
        (fetch_gtids_loop s.table.rows s.table.engine_call.2 g).2.2
      else g := by
  unfold Server.usable
  cases thd <;>
  by_cases h1 : s.table_exists = true <;> by_cases h2 : s.table.fields < 3 <;>
  cases h3 : s.table.engine_call.1 <;>
  simp only [fetch_gtids, open_table, enter_thd, Server.log, h1, h2, ha_index_init_eq, h3] <;>
  simp [HA_ERR_INTERNAL_ERROR] <;>
  split_ifs <;> first | rfl | simp_all

theorem fetch_gtids_empty (s : Server) (thd : Option THD) (g : Gtid_set)
    (h : s.table.rows = []) : (fetch_gtids s thd g).2 = g := by
  rw [fetch_gtids_set, h]
  split_ifs
  · unfold fetch_gtids_loop
    rfl
  · rfl

theorem digit_value_char16 : ∀ d, d < 16 → digit_value 16 (digit_char d) = some d := by decide
theorem digit_value_char10 : ∀ d, d < 10 → digit_value 10 (digit_char d) = some d := by decide
theorem digit_char_ne_sep : ∀ d, d < 16 → digit_char d ≠ sid_gno_separator ∧ digit_char d ≠ gno_start_end_separator := by decide

theorem fixed_digits_length (base : Nat) (w : Nat) : ∀ n, (fixed_digits base w n).length = w := by
  induction w with
  | zero => intro n; rfl
  | succ w ih => intro n; simp [fixed_digits, ih]

theorem to_string_length (sid : rpl_sid) : sid.to_string.length = rpl_sid.TEXT_LENGTH := by
  simp [rpl_sid.to_string, fixed_digits_length, rpl_sid.TEXT_LENGTH]

theorem to_string_length_le (sid : rpl_sid) :
    sid.to_string.length ≤ rpl_sid.TEXT_LENGTH := le_of_eq (to_string_length sid)

theorem fixed_digits_lt (base : Nat) (hb : 0 < base) (w : Nat) :
    ∀ n, ∀ d ∈ fixed_digits base w n, d < base := by
  induction w with
  | zero => intro n d hd; simp [fixed_digits] at hd
  | succ w ih =>
    intro n d hd
    simp only [fixed_digits, List.mem_append, List.mem_singleton] at hd
    rcases hd with h | h
    · exact ih _ d h
    · rw [h]; exact Nat.mod_lt _ hb

theorem fixed_digits_value (base : Nat) (w : Nat) :
    ∀ n, of_digits base 0 (fixed_digits base w n) = n % base ^ w := by
  induction w with
  | zero => intro n; simp [fixed_digits, of_digits, Nat.mod_one]
  | succ w ih =>
    intro n
    have h := ih (n / base)
    unfold of_digits at h ⊢
    simp only [fixed_digits, List.foldl_append, List.foldl_cons, List.foldl_nil]
    rw [h, pow_succ, Nat.mul_comm (base ^ w) base, Nat.mod_mul]
    ring

theorem decimal_digits_spec (fuel : Nat) : ∀ n, n < fuel →
    of_digits 10 0 (decimal_digits fuel n) = n ∧ decimal_digits fuel n ≠ [] ∧
    ∀ d ∈ decimal_digits fuel n, d < 10 := by
  induction fuel with
  | zero => intro n h; omega
  | succ fuel ih =>
    intro n hn
    by_cases h : n < 10
    · simp [decimal_digits, h, of_digits]
    · obtain ⟨h1, h2, h3⟩ := ih (n / 10) (by omega)
      unfold of_digits at h1 ⊢
      simp only [decimal_digits, h, if_false, List.foldl_append, List.foldl_cons, List.foldl_nil]
      refine ⟨by rw [h1]; omega, by simp, ?_⟩
      intro d hd
      simp only [List.mem_append, List.mem_singleton] at hd
      rcases hd with hd | hd
      · exact h3 d hd
      · omega

theorem parse_digits_fold (base : Nat)
    (hdv : ∀ d, d < base → digit_value base (digit_char d) = some d) (ds : List Nat) :
    ∀ a : Nat, (∀ d ∈ ds, d < base) →
    (ds.map digit_char).foldl
      (fun acc c => match acc, digit_value base c with
        | some a, some d => some (a * base + d)
        | _, _ => none)
      (some a) = some (of_digits base a ds) := by
  induction ds with
  | nil => intro a _; rfl
  | cons d ds ih =>
    intro a h
    simp only [List.map_cons, List.foldl_cons, hdv d (h d (by simp))]
    rw [ih _ (fun x hx => h x (List.mem_cons_of_mem _ hx))]
    rfl

theorem parse_digits_map (base : Nat)
    (hdv : ∀ d, d < base → digit_value base (digit_char d) = some d) (ds : List Nat)
    (hne : ds ≠ []) (h : ∀ d ∈ ds, d < base) :
    parse_digits base (ds.map digit_char) = some (of_digits base 0 ds) := by
  unfold parse_digits
  rw [if_neg (by simpa using hne)]
  exact parse_digits_fold base hdv ds 0 h

theorem parse_decimal (n : Nat) : parse_digits 10 (decimal n) = some n := by
  obtain ⟨h1, h2, h3⟩ := decimal_digits_spec (n + 1) n (by omega)
  unfold decimal
  rw [parse_digits_map 10 digit_value_char10 _ h2 h3, h1]

theorem sid_from_text_to_string (sid : rpl_sid) : sid_from_text sid.to_string = some sid := by
  unfold sid_from_text rpl_sid.to_string
  have hlen : ((fixed_digits 16 32 sid.val).map digit_char).length = 32 := by
    rw [List.length_map, fixed_digits_length]
  have hne : fixed_digits 16 32 sid.val ≠ [] := by
    intro h
    have := fixed_digits_length 16 32 sid.val
    rw [h] at this
    simp at this
  rw [if_pos hlen, parse_digits_map 16 digit_value_char16 _ hne
    (fixed_digits_lt 16 (by decide) 32 sid.val), fixed_digits_value]
  have hval : sid.val % 16 ^ 32 = sid.val := by
    apply Nat.mod_eq_of_lt
    have := sid.isLt
    norm_num at this ⊢
    exact this
  simp only [hval]
  rw [dif_pos sid.isLt]

theorem takeWhile_sep (sep : Char) (xs rest : List Char) (h : ∀ c ∈ xs, c ≠ sep) :
    (xs ++ sep :: rest).takeWhile (fun c => c ≠ sep) = xs ∧
    (xs ++ sep :: rest).dropWhile (fun c => c ≠ sep) = sep :: rest := by
  induction xs with
  | nil => simp [List.takeWhile, List.dropWhile]
  | cons x xs ih =>
    have hx : x ≠ sep := h x (by simp)
    obtain ⟨h1, h2⟩ := ih (fun c hc => h c (List.mem_cons_of_mem _ hc))
    have hd : decide (x ≠ sep) = true := by simpa using hx
    rw [List.cons_append, List.takeWhile_cons, List.dropWhile_cons]
    simp only [hd, if_true]
    exact ⟨by rw [h1], h2⟩

theorem to_string_no_sep (sid : rpl_sid) : ∀ c ∈ sid.to_string, c ≠ sid_gno_separator := by
  intro c hc
  unfold rpl_sid.to_string at hc
  obtain ⟨d, hd, rfl⟩ := List.mem_map.mp hc
  exact (digit_char_ne_sep d (fixed_digits_lt 16 (by decide) 32 sid.val d hd)).1

theorem decimal_no_sep (n : Nat) : ∀ c ∈ decimal n, c ≠ gno_start_end_separator := by
  intro c hc
  unfold decimal at hc
  obtain ⟨d, hd, rfl⟩ := List.mem_map.mp hc
  have := (decimal_digits_spec (n + 1) n (by omega)).2.2 d hd
  exact (digit_char_ne_sep d (by omega)).2

/-- The text the persistor writes for `(sid, gno_start, gno_end)` reads back as
the same interval. -/
theorem parse_encode (sid : rpl_sid) (a b : Nat) :
    parse_gtid_text (encode_gtid_text ⟨sid.to_string, a, b⟩) = some (sid, a, b) := by
  unfold parse_gtid_text encode_gtid_text
  simp only [List.append_assoc, List.singleton_append, List.cons_append, List.nil_append]
  obtain ⟨h1, h2⟩ := takeWhile_sep sid_gno_separator sid.to_string
    (decimal a ++ gno_start_end_separator :: decimal b) (to_string_no_sep sid)
  obtain ⟨h3, h4⟩ := takeWhile_sep gno_start_end_separator (decimal a) (decimal b)
    (decimal_no_sep a)
  rw [h1, h2]
  simp only
  rw [h3, h4]
  simp only [sid_from_text_to_string, parse_decimal]

theorem to_string_injective (a b : rpl_sid) (h : a.to_string = b.to_string) : a = b := by
  have ha := sid_from_text_to_string a
  rw [h, sid_from_text_to_string b] at ha
  exact (Option.some.inj ha).symm

theorem fetch_gtids_loop_ok (cursor : List Row) : ∀ (t : TABLE) (g : Gtid_set),
    (fetch_gtids_loop cursor t g).1 = HA_ERR_END_OF_FILE →
    ∀ (sid : rpl_sid) (gno : Nat),
      (fetch_gtids_loop cursor t g).2.2.contains sid gno ↔
        g.contains sid gno ∨
        ∃ r ∈ cursor, ∃ i, parse_gtid_text (encode_gtid_text r) = some i ∧
          i.1 = sid ∧ i.2.1 ≤ gno ∧ gno ≤ i.2.2 := by
  induction cursor with
  | nil =>
    intro t g _ sid gno
    unfold fetch_gtids_loop
    simp
  | cons c rest ih =>
    intro t g h sid gno
    unfold fetch_gtids_loop at h ⊢
    rw [ha_index_next_eq] at h ⊢
    cases h1 : t.engine_call.1 with
    | true => simp [h1, HA_ERR_INTERNAL_ERROR, HA_ERR_END_OF_FILE] at h
    | false =>
      simp only [h1, Bool.false_eq_true, if_false, List.cons_ne_nil, ne_eq, not_true_eq_false]
        at h ⊢
      cases hp : parse_gtid_text (encode_gtid_text c) with
      | none =>
        simp [Gtid_set.add_gtid_text, hp, HA_ERR_END_OF_FILE] at h
      | some i =>
        simp only [Gtid_set.add_gtid_text, hp] at h ⊢
        rw [ih _ _ h sid gno]
        constructor
        · rintro (hc | ⟨r, hr, hrest⟩)
          · unfold Gtid_set.contains at hc ⊢
            obtain ⟨j, hj, hj2⟩ := hc
            rcases List.mem_cons.mp hj with hji | hjg
            · right
              exact ⟨c, by simp, i, hp, by rw [← hji]; exact hj2⟩
            · left
              exact ⟨j, hjg, hj2⟩
          · right
            exact ⟨r, List.mem_cons_of_mem _ hr, hrest⟩
        · rintro (hc | ⟨r, hr, j, hj, hj2⟩)
          · left
            unfold Gtid_set.contains at hc ⊢
            obtain ⟨j, hj, hj2⟩ := hc
            exact ⟨j, List.mem_cons_of_mem _ hj, hj2⟩
          · rcases List.mem_cons.mp hr with hrc | hrr
            · left
              rw [hrc, hp] at hj
              have hij : i = j := Option.some.inj hj
              exact ⟨i, by simp, by rw [hij]; exact hj2⟩
            · right
              exact ⟨r, hrr, j, hj, hj2⟩

theorem fetch_gtids_ret (s : Server) (thd : Option THD) (g : Gtid_set) :
    (fetch_gtids s thd g).1.ret =
      if s.usable then
        if s.table.engine_call.1 = true then -1
        else if (fetch_gtids_loop s.table.rows s.table.engine_call.2 g).1 ≠ HA_ERR_END_OF_FILE
          then -1 else 0
      else 1 := by
  unfold Server.usable
  cases thd <;>
  by_cases h1 : s.table_exists = true <;> by_cases h2 : s.table.fields < 3 <;>
  cases h3 : s.table.engine_call.1 <;>
  simp only [fetch_gtids, open_table, enter_thd, Server.log, h1, h2, ha_index_init_eq, h3] <;>
  simp [HA_ERR_INTERNAL_ERROR] <;>
  split_ifs <;> first | rfl | simp_all

theorem fetch_gtids_ok (s : Server) (thd : Option THD) (g : Gtid_set)
    (h : (fetch_gtids s thd g).1.ret = 0) (sid : rpl_sid) (gno : Nat) :
    (fetch_gtids s thd g).2.contains sid gno ↔
      g.contains sid gno ∨
      ∃ r ∈ s.table.rows, ∃ i, parse_gtid_text (encode_gtid_text r) = some i ∧
        i.1 = sid ∧ i.2.1 ≤ gno ∧ gno ≤ i.2.2 := by
  rw [fetch_gtids_ret] at h
  rw [fetch_gtids_set]
  by_cases hu : s.usable
  · rw [if_pos hu] at h
    by_cases hf : s.table.engine_call.1 = true
    · rw [if_pos hf] at h
      exact absurd h (by decide)
    · rw [if_neg hf] at h
      have hf' : s.table.engine_call.1 = false := by simpa using hf
      rw [if_pos ⟨hu, hf'⟩]
      by_cases he : (fetch_gtids_loop s.table.rows s.table.engine_call.2 g).1 ≠
          HA_ERR_END_OF_FILE
      · rw [if_pos he] at h
        exact absurd h (by decide)
      · exact fetch_gtids_loop_ok _ _ _ (by simpa using he) sid gno
  · rw [if_neg hu] at h
    exact absurd h (by decide)

theorem save_ret (s : Server) (thd : Option THD) (g : Gtid) :
    (save s thd g).ret =
      if s.usable then (write_row s.table g.sid.to_string g.gno g.gno).1 else 1 := by
  unfold Server.usable
  cases thd <;>
  by_cases h1 : s.table_exists = true <;> by_cases h2 : s.table.fields < 3 <;>
  simp [save, open_table, close_table, enter_thd, leave_thd, Server.log, h1, h2] <;>
  split_ifs <;> rfl

theorem write_row_ret (t : TABLE) (sid : List Char) (a b : Nat) :
    (write_row t sid a b).1 = 0 ∨ (write_row t sid a b).1 = -1 := by
  simp only [write_row]
  split_ifs <;> simp

@[simp] theorem log_table (s : Server) (e : Event) : (s.log e).table = s.table := rfl
@[simp] theorem log_table_exists (s : Server) (e : Event) :
    (s.log e).table_exists = s.table_exists := rfl
@[simp] theorem log_m_count (s : Server) (e : Event) : (s.log e).m_count = s.m_count := rfl
@[simp] theorem log_period (s : Server) (e : Event) :
    (s.log e).executed_gtids_compression_period = s.executed_gtids_compression_period := rfl
@[simp] theorem log_trace (s : Server) (e : Event) : (s.log e).trace = s.trace ++ [e] := rfl

theorem open_table_usable (s : Server) (thd : THD) (write : Bool) (h : s.usable) :
    open_table s thd write =
      (false, some s.table, thd.open_tables_state,
        (s.log Event.reset_n_backup_open_tables_state).log
          (Event.open_n_lock_single_table write),
        { thd with open_tables_state := 0, is_operating_gtid_table := true }) := by
  obtain ⟨h1, h2⟩ := h
  simp [open_table, h1, h2]

theorem open_table_unusable (s : Server) (thd : THD) (write : Bool) (h : ¬ s.usable) :
    ∃ evs : List Event, Event.cond_signal ∉ evs ∧
      open_table s thd write =
        (true, none, thd.open_tables_state, { s with trace := s.trace ++ evs },
          { thd with is_operating_gtid_table := true }) := by
  unfold Server.usable at h
  by_cases h1 : s.table_exists = true
  · have h2 : s.table.fields < 3 := by
      by_contra hc
      exact h ⟨h1, hc⟩
    refine ⟨[Event.reset_n_backup_open_tables_state, Event.open_n_lock_single_table write,
      Event.ha_rollback_trans false, Event.close_thread_tables,
      Event.restore_backup_open_tables_state, Event.my_error], by simp, ?_⟩
    simp [open_table, h1, h2, Server.log]
  · refine ⟨[Event.reset_n_backup_open_tables_state, Event.open_n_lock_single_table write,
      Event.close_thread_tables, Event.restore_backup_open_tables_state,
      Event.sql_print_warning], by simp, ?_⟩
    simp [open_table, h1, Server.log]

theorem enter_thd_server (s : Server) (thd : Option THD) :
    ∃ evs : List Event, Event.cond_signal ∉ evs ∧
      (enter_thd s thd).1 = { s with trace := s.trace ++ evs } := by
  cases thd with
  | none => exact ⟨[Event.create_thd], by simp, rfl⟩
  | some t => exact ⟨[], by simp, by simp [enter_thd]⟩

theorem leave_thd_server (s : Server) (thd : Option THD) (cur : THD) :
    ∃ evs : List Event, Event.cond_signal ∉ evs ∧
      (leave_thd s thd cur).1 = { s with trace := s.trace ++ evs } := by
  cases thd with
  | none => exact ⟨[Event.drop_thd], by simp, rfl⟩
  | some t => exact ⟨[], by simp, by simp [leave_thd]⟩

theorem close_table_server (s : Server) (thd : THD) (table : Option TABLE) (backup : Nat)
    (error need_commit : Bool) :
    ∃ evs : List Event, Event.cond_signal ∉ evs ∧
      (close_table s thd table backup error need_commit).1 =
        { s with
          table := match table with
            | some t => if error then { s.table with faults := t.faults } else t
            | none => s.table
          trace := s.trace ++ evs } := by
  cases table with
  | none => exact ⟨[], by simp, by simp [close_table]⟩
  | some t =>
    cases error <;> cases need_commit
    · exact ⟨[Event.ha_commit_trans false, Event.close_thread_tables,
        Event.restore_backup_open_tables_state], by simp,
        by simp [close_table, Server.log]⟩
    · exact ⟨[Event.ha_commit_trans false, Event.ha_commit_trans true,
        Event.close_thread_tables, Event.restore_backup_open_tables_state], by simp,
        by simp [close_table, Server.log]⟩
    · exact ⟨[Event.ha_rollback_trans false, Event.close_thread_tables,
        Event.restore_backup_open_tables_state], by simp,
        by simp [close_table, Server.log]⟩
    · exact ⟨[Event.ha_rollback_trans false, Event.ha_rollback_trans true,
        Event.close_thread_tables, Event.restore_backup_open_tables_state], by simp,
        by simp [close_table, Server.log]⟩

theorem ha_write_row_eq (t : TABLE) (r : Row) :
    t.ha_write_row r =
      if t.engine_call.1 = true then (HA_ERR_INTERNAL_ERROR, t.engine_call.2)
      else if t.rows.any (fun a => same_key a r) = true then
        (HA_ERR_FOUND_DUPP_KEY, t.engine_call.2)
      else (0, { t.engine_call.2 with rows := key_insert r t.rows }) := rfl

theorem write_row_fields (t : TABLE) (sid : List Char) (a b : Nat) :
    (write_row t sid a b).2.fields = t.fields := by
  have hff := fill_fields_eq t sid a b
  unfold write_row
  generalize fill_fields t sid a b = ff at hff ⊢
  obtain ⟨e, t1, key⟩ := ff
  simp only at hff ⊢
  obtain ⟨_, _, hfields, _⟩ := hff
  rw [ha_write_row_eq]
  split_ifs <;> simp [hfields]

theorem write_row_ok (t : TABLE) (sid : List Char) (a b : Nat)
    (hlen : sid.length ≤ rpl_sid.TEXT_LENGTH) (h : (write_row t sid a b).1 = 0) :
    (∀ r ∈ t.rows, ¬ same_key r ⟨sid, a, b⟩) ∧
    (write_row t sid a b).2.rows = key_insert ⟨sid, a, b⟩ t.rows := by
  have hff := fill_fields_eq t sid a b
  rw [List.take_of_length_le hlen] at hff
  unfold write_row at h ⊢
  generalize fill_fields t sid a b = ff at hff h ⊢
  obtain ⟨e, t1, key⟩ := ff
  simp only at hff h ⊢
  obtain ⟨hkey, hrows, _, _⟩ := hff
  subst hkey
  rw [ha_write_row_eq] at h ⊢
  rw [hrows] at h ⊢
  by_cases he : e = 0
  · by_cases h1 : t1.engine_call.1 = true
    · simp [he, h1, HA_ERR_INTERNAL_ERROR] at h
    · by_cases h2 : t.rows.any (fun r => same_key r ⟨sid, a, b⟩) = true
      · simp [he, h1, h2, HA_ERR_FOUND_DUPP_KEY] at h
      · simp only [he, h1, h2, ne_eq, not_true_eq_false, if_false, Bool.false_eq_true]
        refine ⟨?_, by simp⟩
        intro r hr hk
        apply h2
        rw [List.any_eq_true]
        exact ⟨r, hr, by simpa using hk⟩
  · simp [he] at h

theorem save_m_count (s : Server) (thd : Option THD) (g : Gtid) :
    (save s thd g).server.m_count =
      if (save s thd g).ret = 0 then
        (if s.executed_gtids_compression_period ≠ 0 ∧
            (s.m_count + 1) % 2 ^ ULONG_BITS ≥ s.executed_gtids_compression_period
          then 0 else (s.m_count + 1) % 2 ^ ULONG_BITS)
      else s.m_count := by
  rw [save_ret]
  generalize hm : (s.m_count + 1) % 2 ^ ULONG_BITS = m'
  unfold Server.usable
  cases thd <;>
  by_cases h1 : s.table_exists = true <;> by_cases h2 : s.table.fields < 3 <;>
  by_cases h3 : (write_row s.table g.sid.to_string g.gno g.gno).1 = 0 <;>
  by_cases h5 : s.executed_gtids_compression_period ≠ 0 ∧
      m' ≥ s.executed_gtids_compression_period <;>
  first
  | (have h4 : (0 : Int) = (write_row s.table g.sid.to_string g.gno g.gno).1 := h3.symm
     simp [save, open_table, close_table, enter_thd, leave_thd, Server.log, h1, h2, h3,
       ← h4, hm, h5])
  | (have h4 : ¬ (0 : Int) = (write_row s.table g.sid.to_string g.gno g.gno).1 :=
       fun h => h3 h.symm
     simp [save, open_table, close_table, enter_thd, leave_thd, Server.log, h1, h2, h3,
       h4, hm, h5])

theorem save_signals (s : Server) (thd : Option THD) (g : Gtid) :
    (save s thd g).server.signals =
      s.signals +
        if (save s thd g).ret = 0 ∧ s.executed_gtids_compression_period ≠ 0 ∧
            (s.m_count + 1) % 2 ^ ULONG_BITS ≥ s.executed_gtids_compression_period
        then 1 else 0 := by
  rw [save_ret]
  generalize hm : (s.m_count + 1) % 2 ^ ULONG_BITS = m'
  unfold Server.usable Server.signals
  cases thd <;>
  by_cases h1 : s.table_exists = true <;> by_cases h2 : s.table.fields < 3 <;>
  by_cases h3 : (write_row s.table g.sid.to_string g.gno g.gno).1 = 0 <;>
  by_cases h5 : s.executed_gtids_compression_period ≠ 0 ∧
      m' ≥ s.executed_gtids_compression_period <;>
  first
  | (have h4 : (0 : Int) = (write_row s.table g.sid.to_string g.gno g.gno).1 := h3.symm
     simp [save, open_table, close_table, enter_thd, leave_thd, Server.log, h1, h2, h3,
       ← h4, hm, h5])
  | (have h4 : ¬ (0 : Int) = (write_row s.table g.sid.to_string g.gno g.gno).1 :=
       fun h => h3 h.symm
     simp [save, open_table, close_table, enter_thd, leave_thd, Server.log, h1, h2, h3,
       h4, hm, h5])

theorem save_frame (s : Server) (thd : Option THD) (g : Gtid) :
    (save s thd g).server.executed_gtids_compression_period =
      s.executed_gtids_compression_period ∧
    (save s thd g).server.table_exists = s.table_exists ∧
    (save s thd g).server.table.fields = s.table.fields := by
  have hw := write_row_fields s.table g.sid.to_string g.gno g.gno
  generalize hm : (s.m_count + 1) % 2 ^ ULONG_BITS = m'
  cases thd <;>
  by_cases h1 : s.table_exists = true <;> by_cases h2 : s.table.fields < 3 <;>
  by_cases h3 : (write_row s.table g.sid.to_string g.gno g.gno).1 = 0 <;>
  by_cases h5 : s.executed_gtids_compression_period ≠ 0 ∧
      m' ≥ s.executed_gtids_compression_period <;>
  first
  | (have h4 : (0 : Int) = (write_row s.table g.sid.to_string g.gno g.gno).1 := h3.symm
     simp [save, open_table, close_table, enter_thd, leave_thd, Server.log, h1, h2, h3,
       ← h4, hm, h5, hw])
  | (have h4 : ¬ (0 : Int) = (write_row s.table g.sid.to_string g.gno g.gno).1 :=
       fun h => h3 h.symm
     simp [save, open_table, close_table, enter_thd, leave_thd, Server.log, h1, h2, h3,
       h4, hm, h5, hw])

theorem save_rows (s : Server) (thd : Option THD) (g : Gtid) :
    (save s thd g).rows =
      if (save s thd g).ret = 0 then (write_row s.table g.sid.to_string g.gno g.gno).2.rows
      else s.table.rows := by
  rw [save_ret]
  generalize hm : (s.m_count + 1) % 2 ^ ULONG_BITS = m'
  unfold Server.usable Outcome.rows
  cases thd <;>
  by_cases h1 : s.table_exists = true <;> by_cases h2 : s.table.fields < 3 <;>
  by_cases h3 : (write_row s.table g.sid.to_string g.gno g.gno).1 = 0 <;>
  by_cases h5 : s.executed_gtids_compression_period ≠ 0 ∧
      m' ≥ s.executed_gtids_compression_period <;>
  first
  | (have h4 : (0 : Int) = (write_row s.table g.sid.to_string g.gno g.gno).1 := h3.symm
     simp [save, open_table, close_table, enter_thd, leave_thd, Server.log, h1, h2, h3,
       ← h4, hm, h5])
  | (have h4 : ¬ (0 : Int) = (write_row s.table g.sid.to_string g.gno g.gno).1 :=
       fun h => h3 h.symm
     simp [save, open_table, close_table, enter_thd, leave_thd, Server.log, h1, h2, h3,
       h4, hm, h5])

theorem succ_mod_step (p k : Nat) (hp : 0 < p) :
    (k + 1) % p = if k % p + 1 = p then 0 else k % p + 1 := by
  have hlt := Nat.mod_lt k hp
  have hdm := Nat.div_add_mod k p
  by_cases h : k % p + 1 = p
  · rw [if_pos h]
    have : k + 1 = p * (k / p + 1) := by
      rw [Nat.mul_add, Nat.mul_one]; omega
    rw [this, Nat.mul_mod_right]
  · rw [if_neg h]
    have : k + 1 = p * (k / p) + (k % p + 1) := by omega
    rw [this, Nat.mul_add_mod, Nat.mod_eq_of_lt (by omega)]

theorem dvd_succ_iff (p k : Nat) (hp : 0 < p) : p ∣ k + 1 ↔ k % p + 1 = p := by
  rw [Nat.dvd_iff_mod_eq_zero, succ_mod_step p k hp]
  have hlt := Nat.mod_lt k hp
  by_cases h : k % p + 1 = p
  · simp [h]
  · simp [h]

theorem save_step (s : Server) (thd : Option THD) (g : Gtid) (p k : Nat) (hp : 0 < p)
    (hp64 : p < 2 ^ ULONG_BITS) (hperiod : s.executed_gtids_compression_period = p)
    (hm : s.m_count = k % p) :
    ((save s thd g).ret = 0 →
      (save s thd g).server.m_count = (k + 1) % p ∧
      (save s thd g).server.signals = s.signals + (if p ∣ k + 1 then 1 else 0)) ∧
    ((save s thd g).ret ≠ 0 →
      (save s thd g).server.m_count = k % p ∧
      (save s thd g).server.signals = s.signals) := by
  have hlt := Nat.mod_lt k hp
  have hsucc : (s.m_count + 1) % 2 ^ ULONG_BITS = k % p + 1 := by
    rw [hm]
    exact Nat.mod_eq_of_lt (by omega)
  have hcond : (s.executed_gtids_compression_period ≠ 0 ∧
      k % p + 1 ≥ s.executed_gtids_compression_period) ↔ k % p + 1 = p := by
    rw [hperiod]
    constructor
    · intro h; omega
    · intro h; omega
  constructor
  · intro hret
    rw [save_m_count, save_signals, if_pos hret, hsucc, succ_mod_step p k hp]
    simp only [hret, true_and, hcond, dvd_succ_iff p k hp]
  · intro hret
    rw [save_m_count, save_signals, if_neg hret, if_neg (fun hc => hret hc.1)]
    exact ⟨hm, rfl⟩

theorem save_seq_counter (p : Nat) (hp : 0 < p) (hp64 : p < 2 ^ ULONG_BITS)
    (calls : List (Option THD × Gtid)) : ∀ (s : Server) (k : Nat),
    s.executed_gtids_compression_period = p → s.m_count = k % p →
    (save_seq s calls).1.executed_gtids_compression_period = p ∧
    (save_seq s calls).1.m_count = (k + (save_seq s calls).2.length) % p ∧
    (save_seq s calls).1.signals + k / p =
      s.signals + (k + (save_seq s calls).2.length) / p := by
  induction calls with
  | nil =>
    intro s k hperiod hm
    simp [save_seq, hperiod, hm]
  | cons c rest ih =>
    intro s k hperiod hm
    obtain ⟨thd, g⟩ := c
    have hstep := save_step s thd g p k hp hp64 hperiod hm
    have hper' : (save s thd g).server.executed_gtids_compression_period = p := by
      rw [(save_frame s thd g).1, hperiod]
    simp only [save_seq]
    by_cases hret : (save s thd g).ret = 0
    · obtain ⟨hm', hs'⟩ := hstep.1 hret
      obtain ⟨h1, h2, h3⟩ := ih (save s thd g).server (k + 1) hper' hm'
      rw [if_pos hret]
      simp only [List.length_cons]
      refine ⟨h1, ?_, ?_⟩
      · rw [h2]; congr 1; omega
      · have hdiv : (k + 1) / p = k / p + if p ∣ k + 1 then 1 else 0 := Nat.succ_div k p
        have e : k + 1 + (save_seq (save s thd g).server rest).2.length =
            k + ((save_seq (save s thd g).server rest).2.length + 1) := by omega
        rw [e] at h3
        rw [hs', hdiv] at h3
        omega
    · obtain ⟨hm', hs'⟩ := hstep.2 hret
      obtain ⟨h1, h2, h3⟩ := ih (save s thd g).server k hper' hm'
      rw [if_neg hret]
      refine ⟨h1, h2, ?_⟩
      rw [hs'] at h3
      exact h3

theorem rows_def (o : Outcome) : o.rows = o.server.table.rows := rfl

theorem mem_key_insert (r x : Row) (l : List Row) : x ∈ key_insert r l ↔ x = r ∨ x ∈ l := by
  induction l with
  | nil => simp [key_insert]
  | cons a l ih =>
    unfold key_insert
    by_cases h : key_lt r a
    · rw [if_pos h]; simp
    · rw [if_neg h, List.mem_cons, ih, List.mem_cons]
      tauto

theorem save_ok_rows (s : Server) (thd : Option THD) (g : Gtid)
    (h : (save s thd g).ret = 0) :
    (∀ r ∈ s.table.rows, ¬ same_key r g.row) ∧
    (save s thd g).rows = key_insert g.row s.table.rows := by
  have hw : (write_row s.table g.sid.to_string g.gno g.gno).1 = 0 := by
    rw [save_ret] at h
    by_cases hu : s.usable
    · rw [if_pos hu] at h; exact h
    · rw [if_neg hu] at h; exact absurd h (by decide)
  obtain ⟨h1, h2⟩ := write_row_ok _ _ _ _ (to_string_length_le _) hw
  rw [save_rows, if_pos h]
  exact ⟨h1, h2⟩

theorem save_fail_rows (s : Server) (thd : Option THD) (g : Gtid)
    (h : (save s thd g).ret ≠ 0) : (save s thd g).rows = s.table.rows := by
  rw [save_rows, if_neg h]

theorem save_seq_rows (calls : List (Option THD × Gtid)) : ∀ (s : Server) (r : Row),
    r ∈ (save_seq s calls).1.table.rows ↔
      r ∈ s.table.rows ∨ ∃ g ∈ (save_seq s calls).2, r = g.row := by
  induction calls with
  | nil => intro s r; simp [save_seq]
  | cons c rest ih =>
    intro s r
    obtain ⟨thd, g⟩ := c
    simp only [save_seq]
    rw [ih (save s thd g).server r]
    by_cases hret : (save s thd g).ret = 0
    · rw [if_pos hret]
      have hrows := (save_ok_rows s thd g hret).2
      rw [rows_def] at hrows
      rw [hrows, mem_key_insert]
      simp only [List.mem_cons, exists_eq_or_imp]
      constructor
      · rintro ((h | h) | h)
        · exact Or.inr (Or.inl h)
        · exact Or.inl h
        · exact Or.inr (Or.inr h)
      · rintro (h | h | h)
        · exact Or.inl (Or.inr h)
        · exact Or.inl (Or.inl h)
        · exact Or.inr h
    · rw [if_neg hret]
      have hrows := save_fail_rows s thd g hret
      rw [rows_def] at hrows
      rw [hrows]

theorem merge_keeps_I1_I2 (X Y del : List Row) (f : Row)
    (hch : List.Chain consecutive f del)
    (hfit : ∀ r ∈ X ++ f :: (del ++ Y), r.gno_end < 2 ^ GNO_BITS)
    (hI1 : ∀ r ∈ X ++ f :: (del ++ Y), I1 r) (hI2 : I2 (X ++ f :: (del ++ Y))) :
    (∀ r ∈ X ++ { f with gno_end := (del.getLastD f).gno_end } :: Y, I1 r) ∧
    I2 (X ++ { f with gno_end := (del.getLastD f).gno_end } :: Y) := by
  have hmemD : ∀ x ∈ f :: del, x ∈ X ++ f :: (del ++ Y) := by
    intro x hx
    simp only [List.mem_append, List.mem_cons] at hx ⊢
    rcases hx with h | h
    · exact Or.inr (Or.inl h)
    · exact Or.inr (Or.inr (Or.inl h))
  obtain ⟨hsid, hle, _, hcov⟩ := run_cover del f hch
    (fun r hr => ⟨hI1 r (hmemD r hr), hfit r (hmemD r hr)⟩)
  have hfI := hI1 f (hmemD f (by simp))
  constructor
  · intro r hr
    simp only [List.mem_append, List.mem_cons] at hr
    rcases hr with h | h | h
    · exact hI1 r (by simp [h])
    · rw [h]
      unfold I1 at hfI ⊢
      simp only
      omega
    · exact hI1 r (by simp [h])
  · unfold I2 at hI2 ⊢
    obtain ⟨hPX, hPfdY, hXrest⟩ := List.pairwise_append.mp hI2
    obtain ⟨hfrest, hPdY⟩ := List.pairwise_cons.mp hPfdY
    obtain ⟨_, hPY, hdY⟩ := List.pairwise_append.mp hPdY
    refine List.pairwise_append.mpr ⟨hPX, List.pairwise_cons.mpr ⟨?_, hPY⟩, ?_⟩
    · intro y hy hov
      obtain ⟨g, hs, h1, h2, h3, h4⟩ := hov
      obtain ⟨r, hr, hr1, hr2⟩ := (hcov g).mp ⟨h1, h2⟩
      rcases List.mem_cons.mp hr with h | h
      · subst h
        exact hfrest y (by simp [hy]) ⟨g, hs, hr1, hr2, h3, h4⟩
      · exact hdY r h y hy ⟨g, by rw [hsid r h]; exact hs, hr1, hr2, h3, h4⟩
    · intro x hx b hb hov
      rcases List.mem_cons.mp hb with h | h
      · subst h
        obtain ⟨g, hs, h1, h2, h3, h4⟩ := hov
        obtain ⟨r, hr, hr1, hr2⟩ := (hcov g).mp ⟨h3, h4⟩
        refine hXrest x hx r ?_ ⟨g, ?_, h1, h2, hr1, hr2⟩
        · simp only [List.mem_append, List.mem_cons] at hr ⊢
          rcases hr with h | h
          · exact Or.inl h
          · exact Or.inr (Or.inl h)
        · rcases List.mem_cons.mp hr with h | h
          · rw [h]; exact hs
          · rw [hsid r h]; exact hs
      · exact hXrest x hx b (by simp [h]) hov

theorem compress_keeps_I1_I2 (s : Server) (thd : Option THD)
    (hwf : well_formed s.table.rows) (hI1 : ∀ r ∈ s.table.rows, I1 r)
    (hI2 : I2 s.table.rows) :
    (∀ r ∈ (compress s thd).rows, I1 r) ∧ I2 (compress s thd).rows := by
  rcases compress_rows_cases s thd with h | ⟨hcf, hrows'⟩
  · rw [h]; exact ⟨hI1, hI2⟩
  · rcases compress_first_consecutive_gtids_merges s.table hwf.1
      (fun r hr => (hwf.2 r hr).2.2) hcf with
      ⟨_, h⟩ | ⟨X, f, del, Y, hrows, _, _, hch, _, hres⟩
    · rw [hrows', h]; exact ⟨hI1, hI2⟩
    · rw [hrows', hres]
      rw [hrows] at hI1 hI2 hwf
      exact merge_keeps_I1_I2 X Y del f hch (fun r hr => (hwf.2 r hr).2.1) hI1 hI2

theorem compress_covers (s : Server) (thd : Option THD)
    (hwf : well_formed s.table.rows) (hI1 : ∀ r ∈ s.table.rows, I1 r)
    (sid : List Char) (gno : Nat) :
    covers (compress s thd).rows sid gno ↔ covers s.table.rows sid gno := by
  rcases compress_rows_cases s thd with h | ⟨hcf, hrows'⟩
  · rw [h]
  · rcases compress_first_consecutive_gtids_merges s.table hwf.1
      (fun r hr => (hwf.2 r hr).2.2) hcf with
      ⟨_, h⟩ | ⟨X, f, del, Y, hrows, _, _, hch, _, hres⟩
    · rw [hrows', h]
    · rw [hrows', hres, hrows]
      apply covers_merge X Y del f hch
      intro r hr
      have hmem : r ∈ s.table.rows := by
        rw [hrows]
        simp only [List.mem_append, List.mem_cons] at hr ⊢
        rcases hr with h | h
        · exact Or.inr (Or.inl h)
        · exact Or.inr (Or.inr (Or.inl h))
      exact ⟨hI1 r hmem, (hwf.2 r hmem).2.1⟩

theorem key_lt_trans {a b c : Row} (h1 : key_lt a b) (h2 : key_lt b c) : key_lt a c := by
  unfold key_lt at *
  rcases h1 with h1 | ⟨h1, h1'⟩ <;> rcases h2 with h2 | ⟨h2, h2'⟩
  · exact Or.inl (lt_trans h1 h2)
  · exact Or.inl (h2 ▸ h1)
  · exact Or.inl (h1 ▸ h2)
  · exact Or.inr ⟨h1.trans h2, lt_trans h1' h2'⟩

theorem key_lt_total {a b : Row} (h1 : ¬ key_lt a b) (h2 : ¬ same_key b a) : key_lt b a := by
  unfold key_lt same_key at *
  rcases lt_trichotomy a.sid b.sid with h | h | h
  · exact absurd (Or.inl h) h1
  · rcases Nat.lt_trichotomy a.gno_start b.gno_start with h' | h' | h'
    · exact absurd (Or.inr ⟨h, h'⟩) h1
    · exact absurd ⟨h.symm, h'.symm⟩ h2
    · exact Or.inr ⟨h.symm, h'⟩
  · exact Or.inl h

theorem key_insert_sorted (r : Row) (l : List Row) (hl : l.Pairwise key_lt)
    (hr : ∀ x ∈ l, ¬ same_key x r) : (key_insert r l).Pairwise key_lt := by
  induction l with
  | nil => simp [key_insert]
  | cons a l ih =>
    obtain ⟨ha, hl'⟩ := List.pairwise_cons.mp hl
    unfold key_insert
    by_cases h : key_lt r a
    · rw [if_pos h]
      refine List.pairwise_cons.mpr ⟨?_, hl⟩
      intro x hx
      rcases List.mem_cons.mp hx with hx | hx
      · rw [hx]; exact h
      · exact key_lt_trans h (ha x hx)
    · rw [if_neg h]
      have har : key_lt a r := key_lt_total h (hr a (by simp))
      refine List.pairwise_cons.mpr ⟨?_, ih hl' (fun x hx => hr x (List.mem_cons_of_mem _ hx))⟩
      intro x hx
      rcases (mem_key_insert r x l).mp hx with hx | hx
      · rw [hx]; exact har
      · exact ha x hx

theorem key_insert_perm (r : Row) (l : List Row) : (key_insert r l).Perm (r :: l) := by
  induction l with
  | nil => simp [key_insert]
  | cons a l ih =>
    unfold key_insert
    by_cases h : key_lt r a
    · rw [if_pos h]
    · rw [if_neg h]
      exact (List.Perm.cons a ih).trans (List.Perm.swap r a l)

theorem overlap_symm {a b : Row} (h : overlap a b) : overlap b a := by
  obtain ⟨g, hs, h1, h2, h3, h4⟩ := h
  exact ⟨g, hs.symm, h3, h4, h1, h2⟩

theorem I2_key_insert (r : Row) (l : List Row) :
    I2 (key_insert r l) ↔ (∀ x ∈ l, ¬ overlap r x) ∧ I2 l := by
  unfold I2
  rw [List.Perm.pairwise_iff (fun {a b} h hab => h (overlap_symm hab)) (key_insert_perm r l),
    List.pairwise_cons]

theorem key_lt_congr {a a1 b b1 : Row} (h : key_lt a b) (ha : same_key a1 a)
    (hb : same_key b1 b) : key_lt a1 b1 := by
  unfold key_lt same_key at *
  rw [ha.1, ha.2, hb.1, hb.2]
  exact h

theorem compress_preserves_well_formed (s : Server) (thd : Option THD)
    (hwf : well_formed s.table.rows) :
    well_formed (compress s thd).rows := by
  rcases compress_rows_cases s thd with h | ⟨hcf, hrows'⟩
  · rw [h]; exact hwf
  · rcases compress_first_consecutive_gtids_merges s.table hwf.1
      (fun r hr => (hwf.2 r hr).2.2) hcf with
      ⟨_, h⟩ | ⟨X, f, del, Y, hrows, _, _, hch, _, hres⟩
    · rw [hrows', h]; exact hwf
    · rw [hrows', hres]
      have hmemD : ∀ x ∈ f :: del, x ∈ s.table.rows := by
        intro x hx
        rw [hrows]
        simp only [List.mem_append, List.mem_cons] at hx ⊢
        rcases hx with h | h
        · exact Or.inr (Or.inl h)
        · exact Or.inr (Or.inr (Or.inl h))
      have hsub : (X ++ f :: Y).Sublist (X ++ f :: (del ++ Y)) :=
        List.Sublist.append (List.Sublist.refl X)
          (List.Sublist.cons₂ f (List.sublist_append_right del Y))
      have hP : (X ++ f :: Y).Pairwise key_lt := by
        have := hwf.1
        rw [hrows] at this
        exact List.Pairwise.sublist hsub this
      obtain ⟨hPX, hPfY, hXfY⟩ := List.pairwise_append.mp hP
      obtain ⟨hfY, hPY⟩ := List.pairwise_cons.mp hPfY
      have hk : same_key { f with gno_end := (del.getLastD f).gno_end } f := ⟨rfl, rfl⟩
      constructor
      · refine List.pairwise_append.mpr ⟨hPX, List.pairwise_cons.mpr ⟨?_, hPY⟩, ?_⟩
        · intro y hy
          exact key_lt_congr (hfY y hy) hk ⟨rfl, rfl⟩
        · intro x hx b hb
          rcases List.mem_cons.mp hb with h | h
          · rw [h]
            exact key_lt_congr (hXfY x hx f (by simp)) ⟨rfl, rfl⟩ hk
          · exact hXfY x hx b (by simp [h])
      · intro r hr
        simp only [List.mem_append, List.mem_cons] at hr
        rcases hr with h | h | h
        · exact hwf.2 r (by rw [hrows]; simp [h])
        · rw [h]
          exact ⟨(hwf.2 f (hmemD f (by simp))).1,
            (hwf.2 _ (hmemD _ (getLastD_mem del f))).2.1,
            (hwf.2 f (hmemD f (by simp))).2.2⟩
        · exact hwf.2 r (by rw [hrows]; simp [h])

theorem row_sid (g : Gtid) : g.row.sid = g.sid.to_string := by
  simp only [Gtid.row]

theorem row_gno_start (g : Gtid) : g.row.gno_start = g.gno := by
  simp only [Gtid.row]

theorem row_gno_end (g : Gtid) : g.row.gno_end = g.gno := by
  simp only [Gtid.row]

theorem step_save_eq (st : Server × List Gtid) (thd : Option THD) (g : Gtid) :
    step st (Op.save thd g) =
      ((save st.1 thd g).server, if (save st.1 thd g).ret = 0 then g :: st.2 else st.2) := rfl

theorem step_compress_eq (st : Server × List Gtid) (thd : Option THD) :
    step st (Op.compress thd) = ((compress st.1 thd).server, st.2) := rfl

theorem step_compress_inv (st : Server × List Gtid) (thd : Option THD) (h : Inv st) :
    Inv (step st (Op.compress thd)) := by
  obtain ⟨hwf, hI1, hI2, hcov⟩ := h
  have h6 := compress_keeps_I1_I2 st.1 thd hwf hI1 hI2
  have hwf' := compress_preserves_well_formed st.1 thd hwf
  rw [step_compress_eq]
  refine ⟨hwf', h6.1, h6.2, ?_⟩
  intro text gno
  have hc := compress_covers st.1 thd hwf hI1 text gno
  exact hc.trans (hcov text gno)

theorem step_save_inv (st : Server × List Gtid) (thd : Option THD) (g : Gtid) (h : Inv st)
    (hfresh : g ∉ st.2) (h1 : 1 ≤ g.gno) (h64 : g.gno < 2 ^ GNO_BITS) :
    Inv (step st (Op.save thd g)) := by
  obtain ⟨hwf, hI1, hI2, hcov⟩ := h
  by_cases hret : (save st.1 thd g).ret = 0
  · obtain ⟨hnokey, hrows⟩ := save_ok_rows st.1 thd g hret
    rw [rows_def] at hrows
    rw [step_save_eq, if_pos hret]
    unfold Inv
    simp only
    rw [hrows]
    have hnew : ∀ x ∈ st.1.table.rows, ¬ overlap g.row x := by
      intro x hx hov
      obtain ⟨n, hs, h1', h2', h3', h4'⟩ := hov
      rw [row_sid] at hs
      rw [row_gno_start] at h1'
      rw [row_gno_end] at h2'
      have hn : n = g.gno := by omega
      have hc : covers st.1.table.rows g.sid.to_string g.gno :=
        ⟨x, hx, hs.symm, by omega, by omega⟩
      obtain ⟨g', hg', hs', hn'⟩ := (hcov _ _).mp hc
      have : g' = g := by
        cases g'; cases g
        simp only at hs' hn'
        rw [to_string_injective _ _ hs', hn']
      exact hfresh (this ▸ hg')
    refine ⟨⟨key_insert_sorted _ _ hwf.1 hnokey, ?_⟩, ?_, ?_, ?_⟩
    · intro r hr
      rcases (mem_key_insert _ _ _).mp hr with h | h
      · rw [h, row_gno_start, row_gno_end, row_sid]; exact ⟨h64, h64, to_string_length_le _⟩
      · exact hwf.2 r h
    · intro r hr
      rcases (mem_key_insert _ _ _).mp hr with h | h
      · rw [h]
        unfold I1
        rw [row_gno_start, row_gno_end]
        exact ⟨h1, le_refl _⟩
      · exact hI1 r h
    · exact (I2_key_insert _ _).mpr ⟨hnew, hI2⟩
    · intro text gno
      unfold covers
      constructor
      · rintro ⟨r, hr, hs, hr1, hr2⟩
        rcases (mem_key_insert _ _ _).mp hr with h | h
        · subst h
          rw [row_sid] at hs
          rw [row_gno_start] at hr1
          rw [row_gno_end] at hr2
          exact ⟨g, List.mem_cons_self _ _, hs, by omega⟩
        · obtain ⟨g', hg', hg2⟩ := (hcov text gno).mp ⟨r, h, hs, hr1, hr2⟩
          exact ⟨g', List.mem_cons_of_mem _ hg', hg2⟩
      · rintro ⟨g', hg', hs, hn⟩
        rcases List.mem_cons.mp hg' with h | h
        · subst h
          refine ⟨g'.row, (mem_key_insert _ _ _).mpr (Or.inl rfl), ?_, ?_, ?_⟩
          · rw [row_sid]; exact hs
          · rw [row_gno_start, hn]
          · rw [row_gno_end, hn]
        · obtain ⟨r, hr, hr2⟩ := (hcov text gno).mpr ⟨g', h, hs, hn⟩
          exact ⟨r, (mem_key_insert _ _ _).mpr (Or.inr hr), hr2⟩
  · have hrows := save_fail_rows st.1 thd g hret
    rw [rows_def] at hrows
    rw [step_save_eq, if_neg hret]
    unfold Inv
    simp only
    rw [hrows]
    exact ⟨hwf, hI1, hI2, hcov⟩

theorem run_inv (ops : List Op) : ∀ st : Server × List Gtid, Inv st → admissible st ops →
    Inv (run st ops) := by
  induction ops with
  | nil => intro st h _; exact h
  | cons op rest ih =>
    intro st h hadm
    cases op with
    | save thd g =>
      obtain ⟨⟨hf, h1, h64⟩, hrest⟩ := hadm
      exact ih _ (step_save_inv st thd g h hf h1 h64) hrest
    | compress thd =>
      exact ih _ (step_compress_inv st thd h) hadm

theorem admissible_take (ops : List Op) : ∀ (st : Server × List Gtid) (n : Nat),
    admissible st ops → admissible st (ops.take n) := by
  induction ops with
  | nil => intro st n h; simpa using h
  | cons op rest ih =>
    intro st n h
    cases n with
    | zero => exact trivial
    | succ n =>
      cases op with
      | save thd g => exact ⟨h.1, ih _ n h.2⟩
      | compress thd => exact ih _ n h

/-! ## Saving a whole set -/

theorem save_intervals_ret (l : List (rpl_sid × Nat × Nat)) : ∀ t : TABLE,
    (save_intervals l t).1 = 0 ∨ (save_intervals l t).1 = -1 := by
  induction l with
  | nil => intro t; left; rfl
  | cons i rest ih =>
    intro t
    simp only [save_intervals]
    by_cases h : (write_row t i.1.to_string i.2.1 i.2.2).1 = 0
    · rw [if_neg (by simpa using h)]
      exact ih _
    · rw [if_pos h]
      rcases write_row_ret t i.1.to_string i.2.1 i.2.2 with h0 | h1
      · exact absurd h0 h
      · right; exact h1

theorem save_intervals_faults_fields (l : List (rpl_sid × Nat × Nat)) : ∀ t : TABLE,
    (save_intervals l t).2.fields = t.fields := by
  induction l with
  | nil => intro t; rfl
  | cons i rest ih =>
    intro t
    simp only [save_intervals]
    by_cases h : (write_row t i.1.to_string i.2.1 i.2.2).1 = 0
    · rw [if_neg (by simpa using h), ih, write_row_fields]
    · rw [if_pos h, write_row_fields]

theorem key_insert_length (r : Row) (l : List Row) :
    (key_insert r l).length = l.length + 1 := by
  rw [(key_insert_perm r l).length_eq, List.length_cons]

theorem save_intervals_ok (l : List (rpl_sid × Nat × Nat)) : ∀ t : TABLE,
    (save_intervals l t).1 = 0 →
    (∀ r, r ∈ (save_intervals l t).2.rows ↔ r ∈ t.rows ∨ ∃ i ∈ l, r = interval_row i) ∧
    (save_intervals l t).2.rows.length = t.rows.length + l.length := by
  induction l with
  | nil =>
    intro t _
    simp [save_intervals]
  | cons i rest ih =>
    intro t h
    simp only [save_intervals] at h ⊢
    by_cases hw : (write_row t i.1.to_string i.2.1 i.2.2).1 = 0
    · rw [if_neg (by simpa using hw)] at h ⊢
      obtain ⟨h1, h2⟩ := ih _ h
      obtain ⟨_, hrows⟩ := write_row_ok t _ _ _ (to_string_length_le _) hw
      refine ⟨?_, ?_⟩
      · intro r
        rw [h1, hrows, mem_key_insert]
        simp only [List.mem_cons, exists_eq_or_imp, interval_row]
        constructor
        · rintro ((h | h) | h)
          · exact Or.inr (Or.inl h)
          · exact Or.inl h
          · exact Or.inr (Or.inr h)
        · rintro (h | h | h)
          · exact Or.inl (Or.inr h)
          · exact Or.inl (Or.inl h)
          · exact Or.inr h
      · rw [h2, hrows, key_insert_length, List.length_cons]
        omega
    · rw [if_pos hw] at h
      exact absurd h hw

theorem save_intervals_append (pre post : List (rpl_sid × Nat × Nat)) : ∀ t : TABLE,
    (save_intervals pre t).1 = 0 →
    save_intervals (pre ++ post) t = save_intervals post (save_intervals pre t).2 := by
  induction pre with
  | nil => intro t _; rfl
  | cons i rest ih =>
    intro t h
    rw [List.cons_append]
    simp only [save_intervals] at h ⊢
    by_cases hw : (write_row t i.1.to_string i.2.1 i.2.2).1 = 0
    · have hne : ¬ (write_row t i.1.to_string i.2.1 i.2.2).1 ≠ 0 := by simpa using hw
      simp only [if_neg hne] at h ⊢
      exact ih _ h
    · rw [if_pos hw] at h
      exact absurd h hw

theorem save_gtid_set_ret (s : Server) (thd : Option THD) (g : Gtid_set) :
    (save_gtid_set s thd g).ret =
      if s.usable then (save_table_gtid_set s.table g).1 else 1 := by
  unfold Server.usable
  cases thd <;>
  by_cases h1 : s.table_exists = true <;> by_cases h2 : s.table.fields < 3 <;>
  simp [save_gtid_set, open_table, close_table, enter_thd, leave_thd, Server.log, h1, h2]

theorem save_gtid_set_rows (s : Server) (thd : Option THD) (g : Gtid_set) :
    (save_gtid_set s thd g).rows =
      if s.usable ∧ (save_table_gtid_set s.table g).1 = 0 then
        (save_table_gtid_set s.table g).2.rows
      else s.table.rows := by
  unfold Server.usable
  cases thd <;>
  by_cases h1 : s.table_exists = true <;> by_cases h2 : s.table.fields < 3 <;>
  by_cases h3 : (save_table_gtid_set s.table g).1 = 0 <;>
  first
  | (have h4 : (0 : Int) = (save_table_gtid_set s.table g).1 := h3.symm
     simp [save_gtid_set, open_table, close_table, enter_thd, leave_thd, Server.log, h1, h2,
       h3, ← h4, Outcome.rows])
  | (have h4 : ¬ (0 : Int) = (save_table_gtid_set s.table g).1 := fun h => h3 h.symm
     simp [save_gtid_set, open_table, close_table, enter_thd, leave_thd, Server.log, h1, h2,
       h3, h4, Outcome.rows])

/-! ## The results of the operations -/

theorem usable_iff (s : Server) :
    ¬ s.usable ↔ s.table_exists = false ∨ s.table.fields < 3 := by
  unfold Server.usable
  cases s.table_exists <;> simp

theorem open_table_fails_iff (s : Server) (thd : THD) (write : Bool) :
    (open_table s thd write).1 = true ↔ ¬ s.usable := by
  unfold Server.usable
  by_cases h1 : s.table_exists = true <;> by_cases h2 : s.table.fields < 3 <;>
  simp [open_table, h1, h2]

theorem delete_all_ret (t : TABLE) : (delete_all t).1 = 0 ∨ (delete_all t).1 = -1 := by
  simp only [delete_all]
  split_ifs <;> simp

theorem compress_first_consecutive_gtids_ret (t : TABLE) :
    (compress_first_consecutive_gtids t).1 = 0 ∨
    (compress_first_consecutive_gtids t).1 = -1 := by
  rw [compress_first_consecutive_gtids_eq]
  split_ifs
  · right; rfl
  · right; rfl
  · exact update_row_ret _ _ _ _ _
  · left; rfl

theorem save_unusable (s : Server) (thd : Option THD) (g : Gtid) (h : ¬ s.usable) :
    (save s thd g).server.table = s.table := by
  unfold Server.usable at h
  cases thd <;>
  by_cases h1 : s.table_exists = true <;> by_cases h2 : s.table.fields < 3 <;>
  first
  | exact absurd (And.intro h1 h2) h
  | simp [save, open_table, close_table, enter_thd, leave_thd, Server.log, h1, h2]

theorem save_gtid_set_unusable (s : Server) (thd : Option THD) (g : Gtid_set)
    (h : ¬ s.usable) : (save_gtid_set s thd g).server.table = s.table := by
  unfold Server.usable at h
  cases thd <;>
  by_cases h1 : s.table_exists = true <;> by_cases h2 : s.table.fields < 3 <;>
  first
  | exact absurd (And.intro h1 h2) h
  | simp [save_gtid_set, open_table, close_table, enter_thd, leave_thd, Server.log, h1, h2]

theorem reset_unusable (s : Server) (thd : Option THD) (h : ¬ s.usable) :
    (reset s thd).server.table = s.table := by
  unfold Server.usable at h
  cases thd <;>
  by_cases h1 : s.table_exists = true <;> by_cases h2 : s.table.fields < 3 <;>
  first
  | exact absurd (And.intro h1 h2) h
  | simp [reset, open_table, close_table, enter_thd, leave_thd, Server.log, h1, h2]

theorem compress_unusable (s : Server) (thd : Option THD) (h : ¬ s.usable) :
    (compress s thd).server.table = s.table := by
  unfold Server.usable at h
  cases thd <;>
  by_cases h1 : s.table_exists = true <;> by_cases h2 : s.table.fields < 3 <;>
  first
  | exact absurd (And.intro h1 h2) h
  | simp [compress, open_table, close_table, enter_thd, leave_thd, Server.log, h1, h2]

theorem fetch_gtids_unusable (s : Server) (thd : Option THD) (g : Gtid_set)
    (h : ¬ s.usable) :
    (fetch_gtids s thd g).1.server.table = s.table ∧ (fetch_gtids s thd g).2 = g := by
  unfold Server.usable at h
  cases thd <;>
  by_cases h1 : s.table_exists = true <;> by_cases h2 : s.table.fields < 3 <;>
  first
  | exact absurd (And.intro h1 h2) h
  | simp [fetch_gtids, open_table, close_table, enter_thd, leave_thd, Server.log, h1, h2]

theorem fetch_gtids_ret_cases (s : Server) (thd : Option THD) (g : Gtid_set) :
    ((fetch_gtids s thd g).1.ret = 0 ∨ (fetch_gtids s thd g).1.ret = -1) ∧ s.usable ∨
    (fetch_gtids s thd g).1.ret = 1 ∧ ¬ s.usable := by
  rw [fetch_gtids_ret]
  by_cases hu : s.usable
  · left
    rw [if_pos hu]
    refine ⟨?_, hu⟩
    split_ifs
    · right; rfl
    · right; rfl
    · left; rfl
  · right
    rw [if_neg hu]
    exact ⟨rfl, hu⟩

/-- The three results of an operation that opens the table and then runs a table
function with results `0` and `-1`. -/
theorem tri_value (u : Prop) [Decidable u] (e ret : Int) (he : e = 0 ∨ e = -1)
    (hret : ret = if u then e else 1) :
    (ret = 0 ∨ ret = 1 ∨ ret = -1) ∧ (ret = 1 ↔ ¬ u) := by
  by_cases hu : u
  · rw [if_pos hu] at hret
    rcases he with h | h
    · rw [hret, h]; simp [hu]
    · rw [hret, h]; simp [hu]
  · rw [if_neg hu] at hret
    rw [hret]; simp [hu]

theorem I2_of_disjoint (rows : List Row)
    (h : rows.Pairwise (fun a b => ¬ (a.sid = b.sid ∧ a.gno_start ≤ b.gno_end ∧
      b.gno_start ≤ a.gno_end))) : I2 rows := by
  refine List.Pairwise.imp ?_ h
  rintro a b hab ⟨g, hs, h1, h2, h3, h4⟩
  exact hab ⟨hs, by omega, by omega⟩

theorem save_seq_zero_period (calls : List (Option THD × Gtid)) : ∀ s : Server,
    s.executed_gtids_compression_period = 0 → s.m_count < 2 ^ ULONG_BITS →
    (save_seq s calls).1.signals = s.signals ∧
    (save_seq s calls).1.m_count =
      (s.m_count + (save_seq s calls).2.length) % 2 ^ ULONG_BITS := by
  induction calls with
  | nil =>
    intro s _ hm
    simp [save_seq, Nat.mod_eq_of_lt hm]
  | cons c rest ih =>
    intro s hp hm
    obtain ⟨thd, g⟩ := c
    have hsig := save_signals s thd g
    have hcnt := save_m_count s thd g
    have hper : (save s thd g).server.executed_gtids_compression_period = 0 := by
      rw [(save_frame s thd g).1, hp]
    simp only [hp, ne_eq, not_true_eq_false, false_and, and_false, if_false,
      Nat.add_zero] at hsig hcnt
    simp only [save_seq]
    by_cases hret : (save s thd g).ret = 0
    · rw [if_pos hret] at hcnt ⊢
      have hm' : (save s thd g).server.m_count < 2 ^ ULONG_BITS := by
        rw [hcnt]; exact Nat.mod_lt _ (by decide)
      obtain ⟨h1, h2⟩ := ih (save s thd g).server hper hm'
      refine ⟨by rw [h1, hsig], ?_⟩
      rw [h2, hcnt, List.length_cons, Nat.mod_add_mod]
      congr 1
      omega
    · rw [if_neg hret] at hcnt ⊢
      obtain ⟨h1, h2⟩ := ih (save s thd g).server hper (by rw [hcnt]; exact hm)
      exact ⟨by rw [h1, hsig], by rw [h2, hcnt]⟩

/-! ## Engine calls that proceed -/

theorem fault_free_refl (fs : List Bool) : fault_free fs fs :=
  ⟨0, by simp, by simp⟩

theorem fault_free_trans {a b c : List Bool} (h1 : fault_free a b) (h2 : fault_free b c) :
    fault_free a c := by
  obtain ⟨n, hn, hf⟩ := h1
  obtain ⟨m, hm, hg⟩ := h2
  refine ⟨n + m, ?_, ?_⟩
  · rw [hm, hn, List.drop_drop]
  · intro x hx
    rw [List.take_add, List.mem_append] at hx
    rcases hx with hx | hx
    · exact hf x hx
    · rw [← hn] at hx
      exact hg x hx

theorem fault_free_call (t : TABLE) (h : t.engine_call.1 = false) :
    fault_free t.faults t.engine_call.2.faults := by
  refine ⟨1, ?_, ?_⟩
  · simp [TABLE.engine_call]
  · intro x hx
    cases hfs : t.faults with
    | nil => rw [hfs] at hx; simp at hx
    | cons b l =>
      rw [hfs] at hx
      simp only [List.take_succ_cons, List.take_zero, List.mem_singleton] at hx
      simp only [TABLE.engine_call, hfs, List.headD_cons] at h
      rw [hx, h]

theorem fault_free_consumed (before after : TABLE)
    (h : fault_free before.faults after.faults) : true ∉ consumed before after := by
  obtain ⟨n, hn, hf⟩ := h
  intro hmem
  have hsub : consumed before after ⊆ before.faults.take n := by
    unfold consumed
    apply List.take_subset_take_left
    rw [hn, List.length_drop]
    omega
  exact absurd (hf true (hsub hmem)) (by decide)

theorem scan_loop_fault_free (cursor : List Row) : ∀ (t : TABLE) (l : Locals),
    ((scan_loop cursor t l).1 = 0 ∨ (scan_loop cursor t l).1 = HA_ERR_END_OF_FILE) →
    fault_free t.faults (scan_loop cursor t l).2.1.faults := by
  induction cursor with
  | nil =>
    intro t l h
    rw [scan_loop_nil] at h ⊢
    cases hf : t.engine_call.1 with
    | true => simp [hf, HA_ERR_INTERNAL_ERROR, HA_ERR_END_OF_FILE] at h
    | false => exact fault_free_call t hf
  | cons c rest ih =>
    intro t l h
    cases hf : t.engine_call.1 with
    | true =>
      rw [scan_loop_fault _ _ _ hf] at h
      simp [HA_ERR_INTERNAL_ERROR, HA_ERR_END_OF_FILE] at h
    | false =>
      rw [scan_loop_cons _ _ _ _ hf] at h ⊢
      have h0 := fault_free_call t hf
      by_cases hc : consecutive l.prev c
      · cases hd : t.engine_call.2.engine_call.1 with
        | true =>
          rw [compress_loop_delete_fault _ _ _ _ hc hd] at h
          simp [HA_ERR_INTERNAL_ERROR, HA_ERR_END_OF_FILE] at h
        | false =>
          rw [compress_loop_delete _ _ _ _ hc hd] at h ⊢
          exact fault_free_trans h0
            (fault_free_trans (fault_free_call _ hd) (ih _ _ h))
      · cases hfound : l.find_first_consecutive_row with
        | true =>
          rw [compress_loop_break _ _ _ _ hc hfound]
          exact h0
        | false =>
          rw [compress_loop_skip _ _ _ _ hc hfound] at h ⊢
          exact fault_free_trans h0 (ih _ _ h)

theorem fill_fields_fault_free (t : TABLE) (sid : List Char) (a b : Nat)
    (h : (fill_fields t sid a b).1 = 0) :
    fault_free t.faults (fill_fields t sid a b).2.1.faults := by
  unfold fill_fields at h ⊢
  rw [field_store_eq] at h ⊢
  cases h1 : t.engine_call.1 with
  | true => simp [h1] at h
  | false =>
    simp only [h1, Bool.false_eq_true, if_false, ne_eq, not_true_eq_false] at h ⊢
    rw [field_store_eq] at h ⊢
    cases h2 : t.engine_call.2.engine_call.1 with
    | true => simp [h2] at h
    | false =>
      simp only [h2, Bool.false_eq_true, if_false, ne_eq, not_true_eq_false] at h ⊢
      rw [field_store_eq] at h ⊢
      cases h3 : t.engine_call.2.engine_call.2.engine_call.1 with
      | true => simp [h3] at h
      | false =>
        simp only [h3, Bool.false_eq_true, if_false, ne_eq, not_true_eq_false]
        exact fault_free_trans (fault_free_call t h1)
          (fault_free_trans (fault_free_call _ h2) (fault_free_call _ h3))

theorem update_row_fault_free (t : TABLE) (sid : List Char)
    (gno_start gno_end new_gno_end : Nat)
    (h : (update_row t sid gno_start gno_end new_gno_end).1 = 0) :
    fault_free t.faults (update_row t sid gno_start gno_end new_gno_end).2.faults := by
  have hff := fill_fields_fault_free t sid gno_start gno_end
  unfold update_row at h ⊢
  generalize fill_fields t sid gno_start gno_end = ff at hff h ⊢
  obtain ⟨e, t1, key⟩ := ff
  simp only at hff h ⊢
  by_cases he : e = 0
  · have h0 := hff he
    simp only [he, ne_eq, not_true_eq_false, if_false] at h ⊢
    rw [ha_index_init_eq] at h ⊢
    cases h1 : t1.engine_call.1 with
    | true => simp [h1, HA_ERR_INTERNAL_ERROR] at h
    | false =>
      simp only [h1, Bool.false_eq_true, if_false, ne_eq, not_true_eq_false] at h ⊢
      rw [ha_index_read_map_eq] at h ⊢
      cases h2 : t1.engine_call.2.engine_call.1 with
      | true => simp [h2, HA_ERR_INTERNAL_ERROR] at h
      | false =>
        simp only [h2, Bool.false_eq_true, if_false, engine_call_rows] at h ⊢
        cases hfind : t1.rows.find? (fun r => same_key r key) with
        | none => simp [hfind, HA_ERR_KEY_NOT_FOUND] at h
        | some old =>
          simp only [hfind, ne_eq, not_true_eq_false, if_false] at h ⊢
          rw [field_store_eq] at h ⊢
          cases h3 : t1.engine_call.2.engine_call.2.engine_call.1 with
          | true => simp [h3] at h
          | false =>
            simp only [h3, Bool.false_eq_true, if_false, ne_eq, not_true_eq_false] at h ⊢
            rw [ha_update_row_eq] at h ⊢
            cases h4 : t1.engine_call.2.engine_call.2.engine_call.2.engine_call.1 with
            | true => simp [h4, HA_ERR_INTERNAL_ERROR] at h
            | false =>
              simp only [h4, Bool.false_eq_true, if_false]
              exact fault_free_trans h0 (fault_free_trans (fault_free_call _ h1)
                (fault_free_trans (fault_free_call _ h2)
                  (fault_free_trans (fault_free_call _ h3) (fault_free_call _ h4))))
  · simp [he] at h

theorem compress_first_consecutive_gtids_fault_free (t : TABLE)
    (h : (compress_first_consecutive_gtids t).1 = 0) :
    fault_free t.faults (compress_first_consecutive_gtids t).2.faults := by
  rw [compress_first_consecutive_gtids_eq] at h ⊢
  cases hf : t.engine_call.1 with
  | true => simp [hf] at h
  | false =>
    simp only [hf, Bool.false_eq_true, if_false] at h ⊢
    have h0 := fault_free_call t hf
    by_cases herr : (scan_loop t.rows t.engine_call.2 Locals.init).1 ≠ HA_ERR_END_OF_FILE ∧
        (scan_loop t.rows t.engine_call.2 Locals.init).1 ≠ 0
    · rw [if_pos herr] at h
      simp at h
    · rw [if_neg herr] at h ⊢
      have hok : (scan_loop t.rows t.engine_call.2 Locals.init).1 = 0 ∨
          (scan_loop t.rows t.engine_call.2 Locals.init).1 = HA_ERR_END_OF_FILE := by
        by_contra hc
        push_neg at hc
        exact herr ⟨hc.2, hc.1⟩
      have h1 := scan_loop_fault_free t.rows t.engine_call.2 Locals.init hok
      by_cases hfound :
          (scan_loop t.rows t.engine_call.2 Locals.init).2.2.find_first_consecutive_row = true
      · rw [if_pos hfound] at h ⊢
        exact fault_free_trans h0 (fault_free_trans h1 (update_row_fault_free _ _ _ _ _ h))
      · rw [if_neg hfound]
        exact fault_free_trans h0 h1

theorem compress_faults (s : Server) (thd : Option THD) :
    (compress s thd).server.table.faults =
      if s.usable then (compress_first_consecutive_gtids s.table).2.faults
      else s.table.faults := by
  unfold Server.usable
  cases thd <;>
  by_cases h1 : s.table_exists = true <;> by_cases h2 : s.table.fields < 3 <;>
  by_cases h3 : (compress_first_consecutive_gtids s.table).1 = 0 <;>
  first
  | (have h4 : (0 : Int) = (compress_first_consecutive_gtids s.table).1 := h3.symm
     simp [compress, open_table, close_table, enter_thd, leave_thd, Server.log, h1, h2, h3,
       ← h4])
  | (have h4 : ¬ (0 : Int) = (compress_first_consecutive_gtids s.table).1 :=
       fun h => h3 h.symm
     simp [compress, open_table, close_table, enter_thd, leave_thd, Server.log, h1, h2, h3,
       h4])

theorem compress_fail_rows (s : Server) (thd : Option THD) (h : (compress s thd).ret ≠ 0) :
    (compress s thd).rows = s.table.rows := by
  rw [compress_rows]
  rw [compress_ret] at h
  by_cases hu : s.usable
  · rw [if_pos hu] at h
    rw [if_neg (fun hc => h hc.2)]
  · rw [if_neg (fun hc => hu hc.1)]

theorem consumed_self (t : TABLE) : consumed t t = [] := by
  simp [consumed]

/-! ## The scan of `fetch_gtids` -/

theorem take_succ_faults (t : TABLE) (n : Nat) :
    (∀ b ∈ t.faults.take (n + 1), b = false) ↔
      t.engine_call.1 = false ∧ ∀ b ∈ t.engine_call.2.faults.take n, b = false := by
  cases hfs : t.faults with
  | nil => simp [TABLE.engine_call, hfs]
  | cons x l => simp [TABLE.engine_call, hfs]

theorem add_gtid_text_eq_none (g : Gtid_set) (text : List Char) :
    g.add_gtid_text text = none ↔ parse_gtid_text text = none := by
  unfold Gtid_set.add_gtid_text
  cases parse_gtid_text text <;> simp

theorem fetch_gtids_loop_eof_iff (cursor : List Row) : ∀ (t : TABLE) (g : Gtid_set),
    (fetch_gtids_loop cursor t g).1 = HA_ERR_END_OF_FILE ↔
      (∀ b ∈ t.faults.take (cursor.length + 1), b = false) ∧
      ∀ r ∈ cursor, parse_gtid_text (encode_gtid_text r) ≠ none := by
  induction cursor with
  | nil =>
    intro t g
    unfold fetch_gtids_loop
    rw [ha_index_next_eq, take_succ_faults]
    cases h1 : t.engine_call.1 <;> simp [HA_ERR_INTERNAL_ERROR, HA_ERR_END_OF_FILE]
  | cons c rest ih =>
    intro t g
    unfold fetch_gtids_loop
    rw [ha_index_next_eq, List.length_cons, take_succ_faults]
    cases h1 : t.engine_call.1 with
    | true => simp [HA_ERR_INTERNAL_ERROR, HA_ERR_END_OF_FILE]
    | false =>
      simp only [Bool.false_eq_true, if_false, List.cons_ne_nil, ne_eq, not_true_eq_false,
        true_and, List.mem_cons, forall_eq_or_imp]
      cases hp : parse_gtid_text (encode_gtid_text c) with
      | none => simp [Gtid_set.add_gtid_text, hp, HA_ERR_END_OF_FILE]
      | some i =>
        simp only [Gtid_set.add_gtid_text, hp]
        rw [ih]
        simp

theorem fetch_gtids_loop_stops (pre : List Row) (bad : Row) (post : List Row)
    (hbad : parse_gtid_text (encode_gtid_text bad) = none) : ∀ (t : TABLE) (g : Gtid_set),
    ∀ i ∈ (fetch_gtids_loop (pre ++ bad :: post) t g).2.2.intervals,
      i ∈ g.intervals ∨ ∃ r ∈ pre, parse_gtid_text (encode_gtid_text r) = some i := by
  induction pre with
  | nil =>
    intro t g i hi
    rw [List.nil_append] at hi
    unfold fetch_gtids_loop at hi
    rw [ha_index_next_eq] at hi
    cases h1 : t.engine_call.1 with
    | true =>
      simp only [h1, if_true] at hi
      exact Or.inl hi
    | false =>
      simp only [h1, Bool.false_eq_true, if_false, List.cons_ne_nil, ne_eq,
        not_true_eq_false, Gtid_set.add_gtid_text, hbad] at hi
      exact Or.inl hi
  | cons p rest ih =>
    intro t g i hi
    rw [List.cons_append] at hi
    unfold fetch_gtids_loop at hi
    rw [ha_index_next_eq] at hi
    cases h1 : t.engine_call.1 with
    | true =>
      simp only [h1, if_true] at hi
      exact Or.inl hi
    | false =>
      simp only [h1, Bool.false_eq_true, if_false, List.cons_ne_nil, ne_eq,
        not_true_eq_false] at hi
      cases hp : parse_gtid_text (encode_gtid_text p) with
      | none =>
        simp only [Gtid_set.add_gtid_text, hp] at hi
        exact Or.inl hi
      | some j =>
        simp only [Gtid_set.add_gtid_text, hp] at hi
        rcases ih _ _ i hi with h | ⟨r, hr, hri⟩
        · rcases List.mem_cons.mp h with hij | hg
          · right
            exact ⟨p, by simp, by rw [hp, hij]⟩
          · exact Or.inl hg
        · right
          exact ⟨r, List.mem_cons_of_mem _ hr, hri⟩

/-- A row with the SID text `A`, which is not the text of a SID. -/
theorem sid_A_row_malformed : parse_gtid_text (encode_gtid_text ⟨sid_A, 2, 2⟩) = none := by
  decide

/-! ## What the operations leave behind -/

theorem compress_restored (s : Server) (thd : Option THD) :
    restored s thd (compress s thd) 1 := by
  unfold restored Server.calls
  cases thd <;>
  by_cases h1 : s.table_exists = true <;> by_cases h2 : s.table.fields < 3 <;>
  by_cases h3 : (compress_first_consecutive_gtids s.table).1 = 0 <;>
  first
  | (have h4 : (0 : Int) = (compress_first_consecutive_gtids s.table).1 := h3.symm
     simp [compress, open_table, close_table, enter_thd, leave_thd, Server.log, h1, h2, h3,
       ← h4, List.count_cons, List.count_append])
  | (have h4 : ¬ (0 : Int) = (compress_first_consecutive_gtids s.table).1 :=
       fun h => h3 h.symm
     simp [compress, open_table, close_table, enter_thd, leave_thd, Server.log, h1, h2, h3,
       h4, List.count_cons, List.count_append])

theorem reset_restored (s : Server) (thd : Option THD) :
    restored s thd (reset s thd) 1 := by
  unfold restored Server.calls
  cases thd <;>
  by_cases h1 : s.table_exists = true <;> by_cases h2 : s.table.fields < 3 <;>
  by_cases h3 : (delete_all s.table).1 = 0 <;>
  first
  | (have h4 : (0 : Int) = (delete_all s.table).1 := h3.symm
     simp [reset, open_table, close_table, enter_thd, leave_thd, Server.log, h1, h2, h3,
       ← h4, List.count_cons, List.count_append])
  | (have h4 : ¬ (0 : Int) = (delete_all s.table).1 := fun h => h3 h.symm
     simp [reset, open_table, close_table, enter_thd, leave_thd, Server.log, h1, h2, h3,
       h4, List.count_cons, List.count_append])

theorem save_gtid_set_restored (s : Server) (thd : Option THD) (g : Gtid_set) :
    restored s thd (save_gtid_set s thd g) 0 := by
  unfold restored Server.calls
  cases thd <;>
  by_cases h1 : s.table_exists = true <;> by_cases h2 : s.table.fields < 3 <;>
  by_cases h3 : (save_table_gtid_set s.table g).1 = 0 <;>
  first
  | (have h4 : (0 : Int) = (save_table_gtid_set s.table g).1 := h3.symm
     simp [save_gtid_set, open_table, close_table, enter_thd, leave_thd, Server.log, h1, h2,
       h3, ← h4, List.count_cons, List.count_append])
  | (have h4 : ¬ (0 : Int) = (save_table_gtid_set s.table g).1 := fun h => h3 h.symm
     simp [save_gtid_set, open_table, close_table, enter_thd, leave_thd, Server.log, h1, h2,
       h3, h4, List.count_cons, List.count_append])

theorem save_restored (s : Server) (thd : Option THD) (g : Gtid) :
    restored s thd (save s thd g) 0 := by
  unfold restored Server.calls
  generalize hm : (s.m_count + 1) % 2 ^ ULONG_BITS = m1
  cases thd <;>
  by_cases h1 : s.table_exists = true <;> by_cases h2 : s.table.fields < 3 <;>
  by_cases h3 : (write_row s.table g.sid.to_string g.gno g.gno).1 = 0 <;>
  by_cases h5 : s.executed_gtids_compression_period ≠ 0 ∧
    m1 ≥ s.executed_gtids_compression_period <;>
  first
  | (have h4 : (0 : Int) = (write_row s.table g.sid.to_string g.gno g.gno).1 := h3.symm
     simp [save, open_table, close_table, enter_thd, leave_thd, Server.log, h1, h2, h3,
       ← h4, hm, h5, List.count_cons, List.count_append])
  | (have h4 : ¬ (0 : Int) = (write_row s.table g.sid.to_string g.gno g.gno).1 :=
       fun h => h3 h.symm
     simp [save, open_table, close_table, enter_thd, leave_thd, Server.log, h1, h2, h3,
       h4, hm, h5, List.count_cons, List.count_append])

theorem compress_cond_wait (s : Server) (thd : Option THD) :
    (compress s thd).server.calls Event.cond_wait = s.calls Event.cond_wait := by
  unfold Server.calls
  cases thd <;>
  by_cases h1 : s.table_exists = true <;> by_cases h2 : s.table.fields < 3 <;>
  by_cases h3 : (compress_first_consecutive_gtids s.table).1 = 0 <;>
  first
  | (have h4 : (0 : Int) = (compress_first_consecutive_gtids s.table).1 := h3.symm
     simp [compress, open_table, close_table, enter_thd, leave_thd, Server.log, h1, h2, h3,
       ← h4, List.count_cons, List.count_append])
  | (have h4 : ¬ (0 : Int) = (compress_first_consecutive_gtids s.table).1 :=
       fun h => h3 h.symm
     simp [compress, open_table, close_table, enter_thd, leave_thd, Server.log, h1, h2, h3,
       h4, List.count_cons, List.count_append])

theorem calls_log (s : Server) (e x : Event) :
    (s.log e).calls x = s.calls x + if e = x then 1 else 0 := by
  simp [Server.calls, Server.log, List.count_append, List.count_cons]

/-! ## The loop of the compression thread -/

theorem compress_gtid_table_turn (s : Server) (thd : THD) (rest : List (Bool × Bool)) :
    compress_gtid_table s thd ((false, false) :: rest) =
      compress_gtid_table
        (if (compress (((s.log Event.mutex_lock).log Event.cond_wait).log Event.mutex_unlock)
            (some thd)).ret ≠ 0 then
          (compress (((s.log Event.mutex_lock).log Event.cond_wait).log Event.mutex_unlock)
            (some thd)).server.log Event.sql_print_warning
        else (compress (((s.log Event.mutex_lock).log Event.cond_wait).log Event.mutex_unlock)
          (some thd)).server)
        ((compress (((s.log Event.mutex_lock).log Event.cond_wait).log Event.mutex_unlock)
          (some thd)).thd.getD thd) rest := by
  simp only [compress_gtid_table, Bool.false_eq_true, if_false]

theorem compress_gtid_table_exited (obs : List (Bool × Bool)) : ∀ (s : Server) (thd : THD),
    (compress_gtid_table s thd obs).exited = true ↔ ∃ o ∈ obs, o.1 = true ∨ o.2 = true := by
  induction obs with
  | nil => intro s thd; simp [compress_gtid_table]
  | cons o rest ih =>
    intro s thd
    obtain ⟨before, after⟩ := o
    cases before with
    | true => simp [compress_gtid_table]
    | false =>
      cases after with
      | true => simp [compress_gtid_table]
      | false =>
        rw [compress_gtid_table_turn, ih]
        simp

theorem compress_gtid_table_waits (obs : List (Bool × Bool)) : ∀ (s : Server) (thd : THD),
    (∀ o ∈ obs, o.1 = false ∧ o.2 = false) →
    (compress_gtid_table s thd obs).server.calls Event.cond_wait =
      s.calls Event.cond_wait + obs.length ∧
    (compress_gtid_table s thd obs).server.calls Event.mutex_lock =
      s.calls Event.mutex_lock + 2 * obs.length ∧
    (compress_gtid_table s thd obs).server.calls Event.mutex_unlock =
      s.calls Event.mutex_unlock + 2 * obs.length := by
  induction obs with
  | nil => intro s thd _; simp [compress_gtid_table]
  | cons o rest ih =>
    intro s thd h
    obtain ⟨before, after⟩ := o
    have ho := h (before, after) (by simp)
    simp only at ho
    obtain ⟨hb, ha⟩ := ho
    subst hb
    subst ha
    rw [compress_gtid_table_turn]
    obtain ⟨h1, h2, h3⟩ := ih
      (if (compress (((s.log Event.mutex_lock).log Event.cond_wait).log Event.mutex_unlock)
          (some thd)).ret ≠ 0 then
        (compress (((s.log Event.mutex_lock).log Event.cond_wait).log Event.mutex_unlock)
          (some thd)).server.log Event.sql_print_warning
      else (compress (((s.log Event.mutex_lock).log Event.cond_wait).log Event.mutex_unlock)
        (some thd)).server)
      ((compress (((s.log Event.mutex_lock).log Event.cond_wait).log Event.mutex_unlock)
        (some thd)).thd.getD thd)
      (fun o ho => h o (List.mem_cons_of_mem _ ho))
    have hr := compress_restored
      (((s.log Event.mutex_lock).log Event.cond_wait).log Event.mutex_unlock) (some thd)
    have hw := compress_cond_wait
      (((s.log Event.mutex_lock).log Event.cond_wait).log Event.mutex_unlock) (some thd)
    obtain ⟨_, _, _, hlock, hunlock⟩ := hr
    rw [h1, h2, h3, List.length_cons]
    split_ifs
    · simp only [calls_log] at hw hlock hunlock ⊢
      rw [hw, hlock, hunlock]
      simp
      omega
    · simp only [calls_log] at hw hlock hunlock ⊢
      rw [hw, hlock, hunlock]
      simp
      omega

/-! ## Counting the runs of consecutive rows -/

theorem runs_from_congr (l : List Row) (b : Bool) (p q : Row) (hs : p.sid = q.sid)
    (he : p.gno_end = q.gno_end) : runs_from b p l = runs_from b q l := by
  cases l with
  | nil => rfl
  | cons c rest => simp only [runs_from, consecutive, hs, he]

theorem runs_from_le (l : List Row) : ∀ p : Row,
    2 * runs_from true p l ≤ l.length ∧ 2 * runs_from false p l ≤ l.length + 1 := by
  induction l with
  | nil => intro p; simp [runs_from]
  | cons c rest ih =>
    intro p
    obtain ⟨h1, h2⟩ := ih c
    simp only [runs_from, List.length_cons]
    by_cases hc : consecutive p c
    · simp only [if_pos hc, if_true, Bool.false_eq_true, if_false]
      constructor <;> omega
    · simp only [if_neg hc]
      constructor <;> omega

theorem run_count_le (rows : List Row) : run_count rows ≤ rows.length / 2 := by
  cases rows with
  | nil => simp [run_count]
  | cons f rest =>
    have h := (runs_from_le rest f).2
    simp only [run_count, List.length_cons]
    omega

theorem runs_from_free (l : List Row) : ∀ (b : Bool) (p : Row),
    List.Chain (fun a b => ¬ consecutive a b) p l → runs_from b p l = 0 := by
  induction l with
  | nil => intro b p _; rfl
  | cons c rest ih =>
    intro b p h
    obtain ⟨hc, hrest⟩ := List.chain_cons.mp h
    simp only [runs_from, if_neg hc]
    exact ih false c hrest

theorem free_of_runs_from (l : List Row) : ∀ p : Row,
    runs_from false p l = 0 → List.Chain (fun a b => ¬ consecutive a b) p l := by
  induction l with
  | nil => intro p _; exact List.Chain.nil
  | cons c rest ih =>
    intro p h
    simp only [runs_from] at h
    by_cases hc : consecutive p c
    · rw [if_pos hc] at h
      simp at h
    · rw [if_neg hc] at h
      exact List.Chain.cons hc (ih c h)

theorem run_count_zero_iff (rows : List Row) :
    run_count rows = 0 ↔ List.Chain' (fun a b => ¬ consecutive a b) rows := by
  cases rows with
  | nil => simp [run_count]
  | cons f rest =>
    simp only [run_count, List.Chain']
    exact ⟨free_of_runs_from rest f, runs_from_free rest false f⟩

theorem runs_from_skip (f f1 : Row) (Z : List Row) (hs : f1.sid = f.sid)
    (hg : f1.gno_start = f.gno_start) (X : List Row) : ∀ p : Row,
    List.Chain (fun a b => ¬ consecutive a b) p (X ++ [f]) →
    runs_from false p (X ++ f1 :: Z) = runs_from false f1 Z := by
  induction X with
  | nil =>
    intro p h
    obtain ⟨hc, _⟩ := List.chain_cons.mp h
    have hc1 : ¬ consecutive p f1 := by
      unfold consecutive at hc ⊢
      rw [hs, hg]
      exact hc
    simp only [List.nil_append, runs_from, if_neg hc1]
  | cons x X1 ih =>
    intro p h
    obtain ⟨hc, hrest⟩ := List.chain_cons.mp h
    simp only [List.cons_append, runs_from, if_neg hc, List.append_eq]
    exact ih x hrest

theorem run_count_skip (f f1 : Row) (Z : List Row) (hs : f1.sid = f.sid)
    (hg : f1.gno_start = f.gno_start) (X : List Row)
    (h : List.Chain' (fun a b => ¬ consecutive a b) (X ++ [f])) :
    run_count (X ++ f1 :: Z) = runs_from false f1 Z := by
  cases X with
  | nil => rfl
  | cons x X1 =>
    simp only [List.cons_append, run_count]
    exact runs_from_skip f f1 Z hs hg X1 x h

theorem runs_from_chain (Y : List Row) (del : List Row) : ∀ f : Row,
    List.Chain consecutive f del →
    runs_from true f (del ++ Y) = runs_from true (del.getLastD f) Y := by
  induction del with
  | nil => intro f _; rfl
  | cons d del1 ih =>
    intro f h
    obtain ⟨hc, hrest⟩ := List.chain_cons.mp h
    simp only [List.cons_append, runs_from, if_pos hc, if_true, Nat.zero_add,
      List.getLastD_cons, List.append_eq]
    exact ih d hrest

theorem runs_from_run (Y : List Row) (del : List Row) (f : Row) (hne : del ≠ [])
    (h : List.Chain consecutive f del) :
    runs_from false f (del ++ Y) = 1 + runs_from true (del.getLastD f) Y := by
  cases del with
  | nil => exact absurd rfl hne
  | cons d del1 =>
    obtain ⟨hc, hrest⟩ := List.chain_cons.mp h
    simp only [List.cons_append, runs_from, if_pos hc, Bool.false_eq_true, if_false,
      List.getLastD_cons, List.append_eq]
    rw [runs_from_chain Y del1 d hrest]

theorem runs_from_true_false (p : Row) (Y : List Row)
    (h : ∀ y, Y.head? = some y → ¬ consecutive p y) :
    runs_from true p Y = runs_from false p Y := by
  cases Y with
  | nil => rfl
  | cons y Y1 =>
    have hc := h y rfl
    simp only [runs_from, if_neg hc]

theorem merge_run_count (X Y del : List Row) (f : Row) (hne : del ≠ [])
    (hfree : List.Chain' (fun a b => ¬ consecutive a b) (X ++ [f]))
    (hch : List.Chain consecutive f del)
    (hmax : ∀ y, Y.head? = some y → ¬ consecutive (del.getLastD f) y) :
    run_count (X ++ f :: (del ++ Y)) =
      run_count (X ++ { f with gno_end := (del.getLastD f).gno_end } :: Y) + 1 := by
  rw [run_count_skip f f (del ++ Y) rfl rfl X hfree,
    run_count_skip f { f with gno_end := (del.getLastD f).gno_end } Y rfl rfl X hfree,
    runs_from_run Y del f hne hch, runs_from_true_false _ Y hmax]
  have hsid : (del.getLastD f).sid = f.sid := by
    rcases List.mem_cons.mp (getLastD_mem del f) with h | h
    · rw [h]
    · exact run_same_sid del f hch _ h
  rw [runs_from_congr Y false (del.getLastD f)
    { f with gno_end := (del.getLastD f).gno_end } hsid rfl]
  omega

theorem compress_first_consecutive_gtids_run_count (t : TABLE)
    (hwf : t.rows.Pairwise key_lt)
    (hlen : ∀ r ∈ t.rows, r.sid.length ≤ rpl_sid.TEXT_LENGTH)
    (h : (compress_first_consecutive_gtids t).1 = 0) :
    run_count (compress_first_consecutive_gtids t).2.rows = run_count t.rows - 1 := by
  rcases compress_first_consecutive_gtids_merges t hwf hlen h with
    ⟨hfree, hsame⟩ | ⟨X, f, del, Y, hrows, hne, hfree, hch, hmax, hres⟩
  · rw [hsame, (run_count_zero_iff t.rows).mpr hfree]
  · rw [hres, hrows, merge_run_count X Y del f hne hfree hch hmax]
    omega

theorem compress_run_count (s : Server) (thd : Option THD)
    (hwf : well_formed s.table.rows) (h : (compress s thd).ret = 0) :
    run_count (compress s thd).rows = run_count s.table.rows - 1 := by
  rw [compress_ok_rows s thd h]
  exact compress_first_consecutive_gtids_run_count s.table hwf.1
    (fun r hr => (hwf.2 r hr).2.2) ((compress_ok_iff s thd).mp h).2

theorem compress_passes_keeps (thds : List (Option THD)) : ∀ s : Server,
    well_formed s.table.rows → (∀ r ∈ s.table.rows, I1 r) → I2 s.table.rows →
    well_formed (compress_passes s thds).1.table.rows ∧
    (∀ r ∈ (compress_passes s thds).1.table.rows, I1 r) ∧
    I2 (compress_passes s thds).1.table.rows := by
  induction thds with
  | nil => intro s h1 h2 h3; exact ⟨h1, h2, h3⟩
  | cons thd rest ih =>
    intro s h1 h2 h3
    simp only [compress_passes]
    have hk := compress_keeps_I1_I2 s thd h1 h2 h3
    exact ih (compress s thd).server (compress_preserves_well_formed s thd h1) hk.1 hk.2

theorem compress_passes_run_count (thds : List (Option THD)) : ∀ s : Server,
    well_formed s.table.rows → (∀ e ∈ (compress_passes s thds).2, e = 0) →
    run_count (compress_passes s thds).1.table.rows =
      run_count s.table.rows - thds.length := by
  induction thds with
  | nil => intro s _ _; simp [compress_passes]
  | cons thd rest ih =>
    intro s hwf hok
    simp only [compress_passes] at hok ⊢
    have h0 : (compress s thd).ret = 0 := hok _ (by simp)
    have hstep := compress_run_count s thd hwf h0
    rw [rows_def] at hstep
    rw [ih (compress s thd).server (compress_preserves_well_formed s thd hwf)
      (fun e he => hok e (List.mem_cons_of_mem _ he)), hstep, List.length_cons]
    omega

theorem free_canonical (rows : List Row) : rows.Pairwise key_lt →
    (∀ r ∈ rows, r.gno_start < 2 ^ GNO_BITS ∧ r.gno_end < 2 ^ GNO_BITS) →
    (∀ r ∈ rows, I1 r) → I2 rows →
    List.Chain' (fun a b => ¬ consecutive a b) rows → canonical rows := by
  induction rows with
  | nil => intro _ _ _ _ _ a ha; simp at ha
  | cons x rest ih =>
    intro hpw hfit hI1 hI2 hfree
    obtain ⟨hx, hpw1⟩ := List.pairwise_cons.mp hpw
    obtain ⟨hox, hI21⟩ := List.pairwise_cons.mp hI2
    have hcan := ih hpw1 (fun r hr => hfit r (List.mem_cons_of_mem _ hr))
      (fun r hr => hI1 r (List.mem_cons_of_mem _ hr)) hI21 hfree.tail
    have hxI := hI1 x (by simp)
    intro a ha b hb hfol
    rcases List.mem_cons.mp ha with rfl | ha1 <;> rcases List.mem_cons.mp hb with rfl | hb1
    · unfold follows at hfol
      unfold I1 at hxI
      omega
    · cases rest with
      | nil => simp at hb1
      | cons y rest1 =>
        have hnc : ¬ consecutive a y := (List.chain'_cons.mp hfree).1
        have hyI := hI1 y (by simp)
        have hyfit := hfit y (by simp)
        rcases List.mem_cons.mp hb1 with rfl | hb2
        · exact hnc ((consecutive_iff_follows (hfit a (by simp)).2 hyfit.1 hyI.1).mpr hfol)
        · have hay : key_lt a y := hx y (by simp)
          have hyb : key_lt y b := (List.pairwise_cons.mp hpw1).1 b hb2
          unfold follows at hfol
          unfold key_lt at hay hyb
          obtain ⟨hsid, hstart⟩ := hfol
          have hys : a.sid = y.sid ∧ a.gno_start < y.gno_start ∧ y.gno_start < b.gno_start := by
            rcases hay with h | ⟨h, h1⟩
            · rcases hyb with h2 | ⟨h2, _⟩
              · rw [← hsid] at h2
                exact absurd (lt_trans h h2) (lt_irrefl _)
              · rw [h2, ← hsid] at h
                exact absurd h (lt_irrefl _)
            · rcases hyb with h2 | ⟨_, h3⟩
              · rw [← hsid, h] at h2
                exact absurd h2 (lt_irrefl _)
              · exact ⟨h, h1, h3⟩
          unfold I1 at hyI
          exact hox y (by simp) ⟨y.gno_start, hys.1, by omega, by omega, le_refl _, hyI.2⟩
    · have hxa : key_lt b a := hx a ha1
      unfold follows at hfol
      unfold key_lt at hxa
      have haI := hI1 a (List.mem_cons_of_mem _ ha1)
      unfold I1 at haI
      rcases hxa with h | ⟨_, h⟩
      · rw [hfol.1] at h
        exact absurd h (lt_irrefl _)
      · omega
    · exact hcan a ha1 b hb1 hfol

theorem compress_canonical_fixed (s : Server) (thd : Option THD)
    (hwf : well_formed s.table.rows) (hI1 : ∀ r ∈ s.table.rows, I1 r)
    (hcan : canonical s.table.rows) : (compress s thd).rows = s.table.rows := by
  rcases compress_rows_cases s thd with h | ⟨hcf, hrows1⟩
  · exact h
  · rcases compress_first_consecutive_gtids_merges s.table hwf.1
      (fun r hr => (hwf.2 r hr).2.2) hcf with
      ⟨_, hsame⟩ | ⟨X, f, del, Y, hrows, hne, _, hch, _, _⟩
    · rw [hrows1, hsame]
    · exfalso
      cases del with
      | nil => exact hne rfl
      | cons d del1 =>
        obtain ⟨hc, _⟩ := List.chain_cons.mp hch
        have hf : f ∈ s.table.rows := by rw [hrows]; simp
        have hd : d ∈ s.table.rows := by rw [hrows]; simp
        exact hcan f hf d hd
          ((consecutive_iff_follows (hwf.2 f hf).2.1 (hwf.2 d hd).1 (hI1 d hd).1).mp hc)

/-! ## The calls an operation makes -/

theorem compress_made (s : Server) (thd : Option THD) :
    (compress s thd).server.trace = s.trace ++ (compress s thd).made s ∧
    under_lock false ((compress s thd).made s) = true ∧
    Event.open_n_lock_single_table true ∈ (compress s thd).made s := by
  unfold Outcome.made
  cases thd <;>
  by_cases h1 : s.table_exists = true <;> by_cases h2 : s.table.fields < 3 <;>
  by_cases h3 : (compress_first_consecutive_gtids s.table).1 = 0 <;>
  first
  | (have h4 : (0 : Int) = (compress_first_consecutive_gtids s.table).1 := h3.symm
     simp [compress, open_table, close_table, enter_thd, leave_thd, Server.log, h1, h2, h3,
       ← h4, under_lock, Event.touches_table])
  | (have h4 : ¬ (0 : Int) = (compress_first_consecutive_gtids s.table).1 :=
       fun h => h3 h.symm
     simp [compress, open_table, close_table, enter_thd, leave_thd, Server.log, h1, h2, h3,
       h4, under_lock, Event.touches_table])

theorem reset_made (s : Server) (thd : Option THD) :
    (reset s thd).server.trace = s.trace ++ (reset s thd).made s ∧
    under_lock false ((reset s thd).made s) = true ∧
    Event.open_n_lock_single_table true ∈ (reset s thd).made s := by
  unfold Outcome.made
  cases thd <;>
  by_cases h1 : s.table_exists = true <;> by_cases h2 : s.table.fields < 3 <;>
  by_cases h3 : (delete_all s.table).1 = 0 <;>
  first
  | (have h4 : (0 : Int) = (delete_all s.table).1 := h3.symm
     simp [reset, open_table, close_table, enter_thd, leave_thd, Server.log, h1, h2, h3,
       ← h4, under_lock, Event.touches_table])
  | (have h4 : ¬ (0 : Int) = (delete_all s.table).1 := fun h => h3 h.symm
     simp [reset, open_table, close_table, enter_thd, leave_thd, Server.log, h1, h2, h3,
       h4, under_lock, Event.touches_table])

theorem save_gtid_set_made (s : Server) (thd : Option THD) (g : Gtid_set) :
    (save_gtid_set s thd g).server.trace = s.trace ++ (save_gtid_set s thd g).made s ∧
    Event.mutex_lock ∉ (save_gtid_set s thd g).made s ∧
    Event.mutex_unlock ∉ (save_gtid_set s thd g).made s ∧
    Event.cond_signal ∉ (save_gtid_set s thd g).made s ∧
    Event.open_n_lock_single_table true ∈ (save_gtid_set s thd g).made s ∧
    (save_gtid_set s thd g).server.m_count = s.m_count ∧
    (save_gtid_set s thd g).server.executed_gtids_compression_period =
      s.executed_gtids_compression_period := by
  unfold Outcome.made
  cases thd <;>
  by_cases h1 : s.table_exists = true <;> by_cases h2 : s.table.fields < 3 <;>
  by_cases h3 : (save_table_gtid_set s.table g).1 = 0 <;>
  first
  | (have h4 : (0 : Int) = (save_table_gtid_set s.table g).1 := h3.symm
     simp [save_gtid_set, open_table, close_table, enter_thd, leave_thd, Server.log, h1, h2,
       h3, ← h4])
  | (have h4 : ¬ (0 : Int) = (save_table_gtid_set s.table g).1 := fun h => h3 h.symm
     simp [save_gtid_set, open_table, close_table, enter_thd, leave_thd, Server.log, h1, h2,
       h3, h4])

theorem under_lock_unheld (evs : List Event) (hl : Event.mutex_lock ∉ evs)
    (he : ∃ e ∈ evs, e.touches_table = true) : under_lock false evs = false := by
  induction evs with
  | nil =>
    obtain ⟨e, he, _⟩ := he
    simp at he
  | cons x rest ih =>
    obtain ⟨e, hemem, het⟩ := he
    have hx : x ≠ Event.mutex_lock := fun h => hl (by rw [h]; simp)
    have hrest : Event.mutex_lock ∉ rest := fun h => hl (List.mem_cons_of_mem _ h)
    rcases List.mem_cons.mp hemem with rfl | hr
    · cases e <;> simp [under_lock, Event.touches_table] at het hx ⊢
    · have := ih hrest ⟨e, hr, het⟩
      cases x <;> simp [under_lock, this] at hx ⊢

/-! ## Engine calls without a fault -/

theorem write_row_succeeds (t : TABLE) (sid : List Char) (a b : Nat)
    (hlen : sid.length ≤ rpl_sid.TEXT_LENGTH) (hnf : ∀ x ∈ t.faults.take 4, x = false)
    (hkey : ∀ r ∈ t.rows, ¬ same_key r ⟨sid, a, b⟩) : (write_row t sid a b).1 = 0 := by
  obtain ⟨c1, n1⟩ := (take_succ_faults t 3).mp hnf
  obtain ⟨c2, n2⟩ := (take_succ_faults _ 2).mp n1
  obtain ⟨c3, n3⟩ := (take_succ_faults _ 1).mp n2
  obtain ⟨c4, _⟩ := (take_succ_faults _ 0).mp n3
  have hany : ¬ (t.rows.any (fun x => same_key x ⟨sid, a, b⟩) = true) := by
    simpa using hkey
  unfold write_row fill_fields
  simp only [field_store_eq, c1, c2, c3, Bool.false_eq_true, if_false, ne_eq,
    not_true_eq_false, ha_write_row_eq, c4, engine_call_rows, List.take_of_length_le hlen,
    hany]

/-! ## SID texts and the fixed length of the SID field -/

/-- A SID text longer than `rpl_sid::TEXT_LENGTH` is cut when it is stored into the
record: the lookup of `update_row` for the run `Px:[5,5], Px:[6,6]` is made with
the key of `P`, so it finds no row when `P` has none and updates the row of `P`
when there is one. This is why the ledgers of the compaction theorems have SID
texts of at most that length, as every text written by `save` has. -/
theorem long_sid_text_is_cut :
    (fill_fields ⟨3, [], []⟩ sid_Px 5 5).2.2 = ⟨sid_P, 5, 5⟩ ∧
    (compress_first_consecutive_gtids ⟨3, [⟨sid_Px, 5, 5⟩, ⟨sid_Px, 6, 6⟩], []⟩).1 = -1 ∧
    (compress (ledger [⟨sid_P, 5, 5⟩, ⟨sid_Px, 5, 5⟩, ⟨sid_Px, 6, 6⟩] [] 0)
      none).ret = 0 ∧
    (compress (ledger [⟨sid_P, 5, 5⟩, ⟨sid_Px, 5, 5⟩, ⟨sid_Px, 6, 6⟩] [] 0)
      none).rows = [⟨sid_P, 5, 6⟩, ⟨sid_Px, 5, 5⟩] := by
  decide

/-- C1: `compress()` preserves the executed set. For a ledger in primary-key
order (64-bit GNO columns, SID texts of at most `rpl_sid::TEXT_LENGTH` characters)
whose rows satisfy I1, a successful `compress()` leaves the set of identifiers
`(sid, gno)` covered by the rows as it was. -/
theorem compress_preserves_executed_set (s : Server) (thd : Option THD)
    (hwf : well_formed s.table.rows) (hI1 : ∀ r ∈ s.table.rows, I1 r)
    (hok : (compress s thd).ret = 0) (sid : List Char) (gno : Nat) :
    covers (compress s thd).rows sid gno ↔ covers s.table.rows sid gno := by
  rw [compress_ok_rows s thd hok]
  have hcf := ((compress_ok_iff s thd).mp hok).2
  rcases compress_first_consecutive_gtids_merges s.table hwf.1
      (fun r hr => (hwf.2 r hr).2.2) hcf with
    ⟨_, h⟩ | ⟨X, f, del, Y, hrows, _, _, hch, _, hres⟩
  · rw [h]
  · rw [hres, hrows]
    apply covers_merge X Y del f hch
    intro r hr
    have hmem : r ∈ s.table.rows := by
      rw [hrows]
      simp only [List.mem_append, List.mem_cons] at hr ⊢
      rcases hr with h | h
      · exact Or.inr (Or.inl h)
      · exact Or.inr (Or.inr (Or.inl h))
    exact ⟨hI1 r hmem, (hwf.2 r hmem).2.1⟩

/-- Witness of C1 on the ledger `A:[1,1], A:[2,2], A:[3,3], A:[6,6]`. -/
theorem compress_preserves_executed_set_witness :
    (covers (compress (ledger [⟨sid_A, 1, 1⟩, ⟨sid_A, 2, 2⟩, ⟨sid_A, 3, 3⟩, ⟨sid_A, 6, 6⟩]
        [] 0) none).rows sid_A 2 ↔
      covers [⟨sid_A, 1, 1⟩, ⟨sid_A, 2, 2⟩, ⟨sid_A, 3, 3⟩, ⟨sid_A, 6, 6⟩] sid_A 2) ∧
    (compress (ledger [⟨sid_A, 1, 1⟩, ⟨sid_A, 2, 2⟩, ⟨sid_A, 3, 3⟩, ⟨sid_A, 6, 6⟩]
        [] 0) none).rows = [⟨sid_A, 1, 3⟩, ⟨sid_A, 6, 6⟩] :=
  ⟨compress_preserves_executed_set
    (ledger [⟨sid_A, 1, 1⟩, ⟨sid_A, 2, 2⟩, ⟨sid_A, 3, 3⟩, ⟨sid_A, 6, 6⟩] [] 0) none
    (by unfold well_formed; decide) (by unfold I1; decide) (by decide) sid_A 2, by decide⟩

/-- C2: `compress()` merges exactly the first run of consecutive rows. For a
ledger in primary-key order, rows satisfying I1 and with a non-empty SID text of
at most `rpl_sid::TEXT_LENGTH` characters, a successful `compress()` leaves the
rows unchanged when no row follows its predecessor, and otherwise, for the first maximal run `f :: del` (rows `X`
before it, rows `Y` after it), deletes `del`, sets `gno_end` of `f` to the
`gno_end` of the last row of the run, and leaves every other row unchanged. -/
theorem compress_merges_first_run (s : Server) (thd : Option THD)
    (hwf : well_formed s.table.rows) (hI1 : ∀ r ∈ s.table.rows, I1 r)
    (hsid : ∀ r ∈ s.table.rows, r.sid ≠ []) (hok : (compress s thd).ret = 0) :
    (List.Chain' (fun a b => ¬ follows a b) s.table.rows →
      (compress s thd).rows = s.table.rows) ∧
    ∀ (X : List Row) (f : Row) (del Y : List Row),
      s.table.rows = X ++ f :: (del ++ Y) → del ≠ [] →
      List.Chain' (fun a b => ¬ follows a b) (X ++ [f]) →
      List.Chain follows f del →
      (∀ y, Y.head? = some y → ¬ follows (del.getLastD f) y) →
      (compress s thd).rows = X ++ { f with gno_end := (del.getLastD f).gno_end } :: Y := by
  have hcf := ((compress_ok_iff s thd).mp hok).2
  have hconv : ∀ x ∈ s.table.rows, ∀ y ∈ s.table.rows, (consecutive x y ↔ follows x y) := by
    intro x hx y hy
    exact consecutive_iff_follows (hwf.2 x hx).2.1 (hwf.2 y hy).1 (hI1 y hy).1
  rw [compress_ok_rows s thd hok]
  constructor
  · intro hfree
    have h1 : List.Chain' (fun a b => ¬ consecutive a b) s.table.rows :=
      chain'_of_mem _ (fun x hx y hy hn hc => hn ((hconv x hx y hy).mp hc)) hfree
    have h2 := first_run_free _ _ (phantom_chain _ hsid h1)
    obtain ⟨_, hm⟩ := compress_first_consecutive_gtids_ok s.table hcf
    rw [h2] at hm
    exact hm
  · intro X f del Y hrows hne hfree hch hmax
    have hmemX : ∀ x ∈ X ++ [f], x ∈ s.table.rows := by
      intro x hx
      rw [hrows]
      simp only [List.mem_append, List.mem_singleton] at hx
      simp only [List.mem_append, List.mem_cons]
      rcases hx with h | h
      · exact Or.inl h
      · exact Or.inr (Or.inl h)
    have hmemD : ∀ x ∈ f :: del, x ∈ s.table.rows := by
      intro x hx
      rw [hrows]
      simp only [List.mem_append, List.mem_cons] at hx ⊢
      rcases hx with h | h
      · exact Or.inr (Or.inl h)
      · exact Or.inr (Or.inr (Or.inl h))
    have h1 : List.Chain' (fun a b => ¬ consecutive a b) (X ++ [f]) :=
      chain'_of_mem _
        (fun x hx y hy hn hc => hn ((hconv x (hmemX x hx) y (hmemX y hy)).mp hc)) hfree
    have h2 : List.Chain consecutive f del :=
      chain_of_mem _ _
        (fun x hx y hy hf => (hconv x (hmemD x hx) y (hmemD y hy)).mpr hf) hch
    have h3 : ∀ y, Y.head? = some y → ¬ consecutive (del.getLastD f) y := by
      intro y hy hc
      have hyY : y ∈ Y := List.mem_of_mem_head? hy
      have hymem : y ∈ s.table.rows := by
        rw [hrows]; simp [hyY]
      exact hmax y hy ((hconv _ (hmemD _ (getLastD_mem del f)) y hymem).mp hc)
    have h4 := phantom_chain (X ++ [f]) (fun r hr => hsid r (hmemX r hr)) h1
    have hfr := first_run_decomp Y del f hne h2 h3 X phantom h4
    rw [← hrows] at hfr
    exact merge_result s.table hwf.1 (fun r hr => (hwf.2 r hr).2.2) hcf X Y del f hrows hfr

/-- Witness of C2, the scenario of the specification: one pass turns
`A:[1,1],[2,2],[3,3],[6,6],[7,7],[8,8]` into `A:[1,3],[6,6],[7,7],[8,8]`, a second
pass turns that into `A:[1,3],[6,8]`. -/
theorem compress_merges_first_run_witness :
    (compress (ledger [⟨sid_A, 1, 1⟩, ⟨sid_A, 2, 2⟩, ⟨sid_A, 3, 3⟩, ⟨sid_A, 6, 6⟩,
        ⟨sid_A, 7, 7⟩, ⟨sid_A, 8, 8⟩] [] 0) none).rows =
      [⟨sid_A, 1, 3⟩, ⟨sid_A, 6, 6⟩, ⟨sid_A, 7, 7⟩, ⟨sid_A, 8, 8⟩] ∧
    (compress (compress (ledger [⟨sid_A, 1, 1⟩, ⟨sid_A, 2, 2⟩, ⟨sid_A, 3, 3⟩, ⟨sid_A, 6, 6⟩,
        ⟨sid_A, 7, 7⟩, ⟨sid_A, 8, 8⟩] [] 0) none).server none).rows =
      [⟨sid_A, 1, 3⟩, ⟨sid_A, 6, 8⟩] :=
  ⟨(compress_merges_first_run
      (ledger [⟨sid_A, 1, 1⟩, ⟨sid_A, 2, 2⟩, ⟨sid_A, 3, 3⟩, ⟨sid_A, 6, 6⟩,
        ⟨sid_A, 7, 7⟩, ⟨sid_A, 8, 8⟩] [] 0) none
      (by unfold well_formed; decide) (by unfold I1; decide) (by decide) (by decide)).2
      [] ⟨sid_A, 1, 1⟩ [⟨sid_A, 2, 2⟩, ⟨sid_A, 3, 3⟩]
      [⟨sid_A, 6, 6⟩, ⟨sid_A, 7, 7⟩, ⟨sid_A, 8, 8⟩]
      (by decide) (by decide) (by simp) (by simp [follows]) (by decide),
   (compress_merges_first_run
      (compress (ledger [⟨sid_A, 1, 1⟩, ⟨sid_A, 2, 2⟩, ⟨sid_A, 3, 3⟩, ⟨sid_A, 6, 6⟩,
        ⟨sid_A, 7, 7⟩, ⟨sid_A, 8, 8⟩] [] 0) none).server none
      (by unfold well_formed; decide) (by unfold I1; decide) (by decide) (by decide)).2
      [⟨sid_A, 1, 3⟩] ⟨sid_A, 6, 6⟩ [⟨sid_A, 7, 7⟩, ⟨sid_A, 8, 8⟩] []
      (by decide) (by decide) (by simp [follows]) (by simp [follows]) (by decide)⟩

/-- C4: `compress()` never merges across sources. On a table in primary-key order
whose SID texts have at most `rpl_sid::TEXT_LENGTH` characters, whatever the
outcome, either the rows are unchanged, or there are a row `u` and a value `e`
such that `u` with `gno_end := e` is in the ledger afterwards, every other row afterwards
was there before, and every row whose key is gone has the SID of `u`. -/
theorem compress_never_merges_across_sources (s : Server) (thd : Option THD)
    (hwf : s.table.rows.Pairwise key_lt)
    (hlen : ∀ r ∈ s.table.rows, r.sid.length ≤ rpl_sid.TEXT_LENGTH) :
    (compress s thd).rows = s.table.rows ∨
    ∃ u ∈ s.table.rows, ∃ e : Nat,
      ({ u with gno_end := e } : Row) ∈ (compress s thd).rows ∧
      (∀ r ∈ (compress s thd).rows, r ≠ { u with gno_end := e } → r ∈ s.table.rows) ∧
      ∀ r ∈ s.table.rows, (∀ x ∈ (compress s thd).rows, ¬ same_key x r) → r.sid = u.sid := by
  rcases compress_rows_cases s thd with h | ⟨hcf, hrows'⟩
  · exact Or.inl h
  · rcases compress_first_consecutive_gtids_merges s.table hwf hlen hcf with
      ⟨_, h⟩ | ⟨X, f, del, Y, hrows, _, _, hch, _, hres⟩
    · left; rw [hrows', h]
    · right
      rw [hrows', hres]
      refine ⟨f, by rw [hrows]; simp, (del.getLastD f).gno_end, by simp, ?_, ?_⟩
      · intro r hr hne
        rw [hrows]
        simp only [List.mem_append, List.mem_cons] at hr ⊢
        rcases hr with h | h | h
        · exact Or.inl h
        · exact absurd h hne
        · exact Or.inr (Or.inr (Or.inr h))
      · intro r hr hgone
        rw [hrows] at hr
        simp only [List.mem_append, List.mem_cons] at hr
        rcases hr with h | h | h | h
        · exact absurd ⟨rfl, rfl⟩ (hgone r (by simp [h]))
        · rw [h]
        · exact run_same_sid del f hch r h
        · exact absurd ⟨rfl, rfl⟩ (hgone r (by simp [h]))

/-- Witness of C4: in `A:[1,1], A:[2,2], B:[3,3]` the row of `B` starts at the
previous row's `gno_end + 1` and stays. -/
theorem compress_never_merges_across_sources_witness :
    ((compress (ledger [⟨sid_A, 1, 1⟩, ⟨sid_A, 2, 2⟩, ⟨sid_B, 3, 3⟩] [] 0) none).rows =
        [⟨sid_A, 1, 1⟩, ⟨sid_A, 2, 2⟩, ⟨sid_B, 3, 3⟩] ∨
      ∃ u ∈ [(⟨sid_A, 1, 1⟩ : Row), ⟨sid_A, 2, 2⟩, ⟨sid_B, 3, 3⟩], ∃ e : Nat,
        ({ u with gno_end := e } : Row) ∈
          (compress (ledger [⟨sid_A, 1, 1⟩, ⟨sid_A, 2, 2⟩, ⟨sid_B, 3, 3⟩] [] 0) none).rows ∧
        (∀ r ∈ (compress (ledger [⟨sid_A, 1, 1⟩, ⟨sid_A, 2, 2⟩, ⟨sid_B, 3, 3⟩] [] 0)
            none).rows,
          r ≠ { u with gno_end := e } →
            r ∈ [(⟨sid_A, 1, 1⟩ : Row), ⟨sid_A, 2, 2⟩, ⟨sid_B, 3, 3⟩]) ∧
        ∀ r ∈ [(⟨sid_A, 1, 1⟩ : Row), ⟨sid_A, 2, 2⟩, ⟨sid_B, 3, 3⟩],
          (∀ x ∈ (compress (ledger [⟨sid_A, 1, 1⟩, ⟨sid_A, 2, 2⟩, ⟨sid_B, 3, 3⟩] [] 0)
            none).rows, ¬ same_key x r) → r.sid = u.sid) ∧
    (compress (ledger [⟨sid_A, 1, 1⟩, ⟨sid_A, 2, 2⟩, ⟨sid_B, 3, 3⟩] [] 0) none).rows =
      [⟨sid_A, 1, 2⟩, ⟨sid_B, 3, 3⟩] :=
  ⟨compress_never_merges_across_sources
    (ledger [⟨sid_A, 1, 1⟩, ⟨sid_A, 2, 2⟩, ⟨sid_B, 3, 3⟩] [] 0) none (by decide) (by decide),
   by decide⟩

/-- C5: `compress()` is non-expanding in row count. Whatever the server state and
the outcome, the ledger afterwards has at most as many rows as before, and every
primary key in it was a primary key before: no row is inserted. -/
theorem compress_non_expanding (s : Server) (thd : Option THD) :
    (compress s thd).rows.length ≤ s.table.rows.length ∧
    ∀ r ∈ (compress s thd).rows, ∃ r0 ∈ s.table.rows, same_key r r0 := by
  rcases compress_rows_cases s thd with h | ⟨hcf, hrows'⟩
  · rw [h]
    exact ⟨le_refl _, fun r hr => ⟨r, hr, rfl, rfl⟩⟩
  · rw [hrows']
    obtain ⟨_, hm⟩ := compress_first_consecutive_gtids_ok s.table hcf
    cases hfr : first_run phantom s.table.rows with
    | none =>
      rw [hfr] at hm
      rw [hm]
      exact ⟨le_refl _, fun r hr => ⟨r, hr, rfl, rfl⟩⟩
    | some fd =>
      obtain ⟨f, del⟩ := fd
      rw [hfr] at hm
      obtain ⟨old, hfind, hres⟩ := hm
      rw [hres]
      constructor
      · rw [List.length_map]
        exact List.length_filter_le _ _
      · intro r hr
        obtain ⟨r1, hr1, hr1eq⟩ := List.mem_map.mp hr
        have hr1mem := delete_rows_subset _ _ _ hr1
        by_cases hk : same_key r1 old
        · rw [if_pos hk] at hr1eq
          refine ⟨r1, hr1mem, ?_⟩
          rw [← hr1eq]
          exact ⟨hk.1.symm, hk.2.symm⟩
        · rw [if_neg hk] at hr1eq
          rw [← hr1eq]
          exact ⟨r1, hr1mem, rfl, rfl⟩

/-- C6: `compress()` preserves I1 and I2. On a ledger in primary-key order (64-bit
GNO columns, SID texts of at most `rpl_sid::TEXT_LENGTH` characters) whose rows
satisfy `1 ≤ gno_start ≤ gno_end` and where no identifier is covered by two
rows, the same holds of the ledger after `compress()`, whatever its outcome. -/
theorem compress_preserves_I1_I2 (s : Server) (thd : Option THD)
    (hwf : well_formed s.table.rows) (hI1 : ∀ r ∈ s.table.rows, I1 r)
    (hI2 : I2 s.table.rows) :
    (∀ r ∈ (compress s thd).rows, I1 r) ∧ I2 (compress s thd).rows := by
  rcases compress_rows_cases s thd with h | ⟨hcf, hrows'⟩
  · rw [h]; exact ⟨hI1, hI2⟩
  · rcases compress_first_consecutive_gtids_merges s.table hwf.1
      (fun r hr => (hwf.2 r hr).2.2) hcf with
      ⟨_, h⟩ | ⟨X, f, del, Y, hrows, _, _, hch, _, hres⟩
    · rw [hrows', h]; exact ⟨hI1, hI2⟩
    · rw [hrows', hres]
      have hfit : ∀ r ∈ X ++ f :: (del ++ Y), r.gno_end < 2 ^ GNO_BITS := by
        intro r hr
        rw [← hrows] at hr
        exact (hwf.2 r hr).2.1
      rw [hrows] at hI1 hI2
      exact merge_keeps_I1_I2 X Y del f hch hfit hI1 hI2

/-- Witness of C6 on the ledger `A:[1,1], A:[2,2], B:[1,1]`. -/
theorem compress_preserves_I1_I2_witness :
    (∀ r ∈ (compress (ledger [⟨sid_A, 1, 1⟩, ⟨sid_A, 2, 2⟩, ⟨sid_B, 1, 1⟩] [] 0) none).rows,
      I1 r) ∧
    I2 (compress (ledger [⟨sid_A, 1, 1⟩, ⟨sid_A, 2, 2⟩, ⟨sid_B, 1, 1⟩] [] 0) none).rows :=
  compress_preserves_I1_I2 (ledger [⟨sid_A, 1, 1⟩, ⟨sid_A, 2, 2⟩, ⟨sid_B, 1, 1⟩] [] 0) none
    (by unfold well_formed; decide) (by unfold I1; decide)
    (by
      unfold I2 overlap
      simp only [ledger, List.pairwise_cons, List.mem_cons, List.mem_singleton, forall_eq_or_imp,
        forall_eq, List.not_mem_nil, false_implies, implies_true, List.Pairwise.nil, and_true]
      refine ⟨⟨?_, ?_⟩, ?_⟩ <;> rintro ⟨g, hs, h1, h2, h3, h4⟩
      · omega
      · exact absurd hs (by decide)
      · exact absurd hs (by decide))

/-- C9: after `reset()`, fetch yields the empty set. A `reset()` that returns `0`
has deleted every row, and a following `fetch_gtids` adds nothing to the set it
is given, in particular to the empty set. -/
theorem reset_then_fetch_empty (s : Server) (thd : Option THD)
    (hok : (reset s thd).ret = 0) :
    (reset s thd).rows = [] ∧
    ∀ (thd1 : Option THD) (g : Gtid_set), (fetch_gtids (reset s thd).server thd1 g).2 = g := by
  have hrows : (reset s thd).rows = [] := by
    rw [reset_ret] at hok
    rw [reset_rows]
    by_cases hu : s.usable
    · rw [if_pos hu] at hok
      rw [if_pos ⟨hu, hok⟩]
      exact delete_all_ok _ hok
    · rw [if_neg hu] at hok
      exact absurd hok (by decide)
  exact ⟨hrows, fun thd1 g => fetch_gtids_empty _ thd1 g hrows⟩

/-- Witness of C9 on the ledger `A:[1,1], A:[2,2], B:[1,1]`. -/
theorem reset_then_fetch_empty_witness :
    (reset (ledger [⟨sid_A, 1, 1⟩, ⟨sid_A, 2, 2⟩, ⟨sid_B, 1, 1⟩] [] 0) none).rows = [] ∧
    ∀ (thd1 : Option THD) (g : Gtid_set),
      (fetch_gtids (reset (ledger [⟨sid_A, 1, 1⟩, ⟨sid_A, 2, 2⟩, ⟨sid_B, 1, 1⟩] [] 0)
        none).server thd1 g).2 = g :=
  reset_then_fetch_empty (ledger [⟨sid_A, 1, 1⟩, ⟨sid_A, 2, 2⟩, ⟨sid_B, 1, 1⟩] [] 0) none
    (by decide)

/-- C10: threshold trigger. With `executed_gtids_compression_period = p > 0` and
the append counter at `0`, after any sequence of `save(gtid)` calls of which `k`
returned `0` the counter is `k mod p` and `k div p` signals were sent; the next
successful `save` signals exactly when `k + 1` is a multiple of `p`, and then
leaves the counter at `0`. -/
theorem threshold_trigger (s : Server) (p : Nat) (hp : 0 < p) (hp64 : p < 2 ^ ULONG_BITS)
    (hperiod : s.executed_gtids_compression_period = p) (hm : s.m_count = 0)
    (calls : List (Option THD × Gtid)) :
    (save_seq s calls).1.m_count = (save_seq s calls).2.length % p ∧
    (save_seq s calls).1.signals = s.signals + (save_seq s calls).2.length / p ∧
    ∀ (thd : Option THD) (g : Gtid), (save (save_seq s calls).1 thd g).ret = 0 →
      (save (save_seq s calls).1 thd g).server.signals =
        (save_seq s calls).1.signals +
          (if p ∣ (save_seq s calls).2.length + 1 then 1 else 0) ∧
      (p ∣ (save_seq s calls).2.length + 1 →
        (save (save_seq s calls).1 thd g).server.m_count = 0) := by
  obtain ⟨h1, h2, h3⟩ := save_seq_counter p hp hp64 calls s 0 hperiod
    (by rw [hm, Nat.zero_mod])
  simp only [Nat.zero_add, Nat.zero_div, Nat.add_zero] at h2 h3
  refine ⟨h2, h3, ?_⟩
  intro thd g hret
  obtain ⟨hm', hs'⟩ := (save_step _ thd g p _ hp hp64 h1 h2).1 hret
  refine ⟨hs', ?_⟩
  intro hd
  rw [hm']
  exact Nat.mod_eq_zero_of_dvd hd

/-- C7: save then fetch round trip. Each `save(thd, gtid)` that returns `0` inserts
the degenerate row `(sid, gno, gno)` at its place in the table; and after any
sequence of `save` calls on an empty ledger, a `fetch_gtids` into the empty set
that returns `0` yields a set containing exactly the identifiers whose `save`
returned `0`. -/
theorem save_then_fetch (s : Server) (hempty : s.table.rows = [])
    (calls : List (Option THD × Gtid)) (thd : Option THD) :
    (∀ (s1 : Server) (thd1 : Option THD) (g : Gtid), (save s1 thd1 g).ret = 0 →
      (save s1 thd1 g).rows = key_insert ⟨g.sid.to_string, g.gno, g.gno⟩ s1.table.rows) ∧
    ((fetch_gtids (save_seq s calls).1 thd ⟨[]⟩).1.ret = 0 →
      ∀ (sid : rpl_sid) (gno : Nat),
        (fetch_gtids (save_seq s calls).1 thd ⟨[]⟩).2.contains sid gno ↔
          ∃ g ∈ (save_seq s calls).2, g.sid = sid ∧ g.gno = gno) := by
  constructor
  · intro s1 thd1 g h
    exact (save_ok_rows s1 thd1 g h).2
  · intro hok sid gno
    rw [fetch_gtids_ok _ _ _ hok]
    constructor
    · rintro (hc | ⟨r, hr, i, hi, h1, h2, h3⟩)
      · obtain ⟨j, hj, _⟩ := hc
        simp at hj
      · rw [save_seq_rows, hempty] at hr
        rcases hr with hr | ⟨g, hg, hrg⟩
        · simp at hr
        · rw [hrg, Gtid.row, parse_encode] at hi
          have := Option.some.inj hi
          subst this
          simp only at h1 h2 h3
          exact ⟨g, hg, h1, by omega⟩
    · rintro ⟨g, hg, hs, hn⟩
      right
      refine ⟨g.row, ?_, (g.sid, g.gno, g.gno), parse_encode _ _ _, hs, by simp [hn], by simp [hn]⟩
      rw [save_seq_rows]
      exact Or.inr ⟨g, hg, rfl⟩

/-- Witness of C7, the singleton append scenario: starting empty, `save(sid=A,
gno=5)` leaves exactly one row and `fetch_gtids` yields `{A:[5,5]}`. -/
theorem save_then_fetch_witness :
    (save (ledger [] [] 0) none ⟨SID_A, 5⟩).rows = [⟨SID_A.to_string, 5, 5⟩] ∧
    (fetch_gtids (save (ledger [] [] 0) none ⟨SID_A, 5⟩).server none ⟨[]⟩).2 =
      ⟨[(SID_A, 5, 5)]⟩ ∧
    ∀ (sid : rpl_sid) (gno : Nat),
      (fetch_gtids (save_seq (ledger [] [] 0) [(none, ⟨SID_A, 5⟩)]).1 none ⟨[]⟩).2.contains
          sid gno ↔
        ∃ g ∈ (save_seq (ledger [] [] 0) [(none, ⟨SID_A, 5⟩)]).2, g.sid = sid ∧ g.gno = gno :=
  ⟨by decide, by decide,
    (save_then_fetch (ledger [] [] 0) rfl [(none, ⟨SID_A, 5⟩)] none).2 (by decide)⟩

/-- Witness of C10 with `p = 4`: four successful saves send one signal, a fifth
sends none, eight send two. -/
theorem threshold_trigger_witness :
    (save_seq (ledger [] [] 4)
      [(none, ⟨SID_A, 1⟩), (none, ⟨SID_A, 2⟩), (none, ⟨SID_A, 3⟩), (none, ⟨SID_A, 4⟩)]).1.signals
      = 1 ∧
    (save_seq (ledger [] [] 4)
      [(none, ⟨SID_A, 1⟩), (none, ⟨SID_A, 2⟩), (none, ⟨SID_A, 3⟩), (none, ⟨SID_A, 4⟩),
       (none, ⟨SID_A, 5⟩)]).1.signals = 1 ∧
    (save_seq (ledger [] [] 4)
      [(none, ⟨SID_A, 1⟩), (none, ⟨SID_A, 2⟩), (none, ⟨SID_A, 3⟩), (none, ⟨SID_A, 4⟩),
       (none, ⟨SID_A, 5⟩)]).1.m_count = 1 := by
  have h4 := threshold_trigger (ledger [] [] 4) 4 (by decide) (by decide) rfl rfl
    [(none, ⟨SID_A, 1⟩), (none, ⟨SID_A, 2⟩), (none, ⟨SID_A, 3⟩), (none, ⟨SID_A, 4⟩)]
  have h5 := threshold_trigger (ledger [] [] 4) 4 (by decide) (by decide) rfl rfl
    [(none, ⟨SID_A, 1⟩), (none, ⟨SID_A, 2⟩), (none, ⟨SID_A, 3⟩), (none, ⟨SID_A, 4⟩),
     (none, ⟨SID_A, 5⟩)]
  have l4 : (save_seq (ledger [] [] 4)
      [(none, ⟨SID_A, 1⟩), (none, ⟨SID_A, 2⟩), (none, ⟨SID_A, 3⟩),
       (none, ⟨SID_A, 4⟩)]).2.length = 4 := by decide
  have l5 : (save_seq (ledger [] [] 4)
      [(none, ⟨SID_A, 1⟩), (none, ⟨SID_A, 2⟩), (none, ⟨SID_A, 3⟩), (none, ⟨SID_A, 4⟩),
       (none, ⟨SID_A, 5⟩)]).2.length = 5 := by decide
  rw [l4] at h4
  rw [l5] at h5
  exact ⟨h4.2.1, h5.2.1, h5.1⟩

/-- C8 (as stated, refuted): after `save A:1`, `save A:2`, `save A:3`,
`compress`, `save A:2` on an empty ledger every call has returned `0` and the
ledger holds `A:[1,3]` and `A:[2,2]`: the identifier `A:2` is covered by two rows. -/
theorem interleaving_duplicates :
    (run (ledger [] [] 0, [])
      [Op.save none ⟨SID_A, 1⟩, Op.save none ⟨SID_A, 2⟩, Op.save none ⟨SID_A, 3⟩,
       Op.compress none, Op.save none ⟨SID_A, 2⟩]).1.table.rows =
      [⟨SID_A.to_string, 1, 3⟩, ⟨SID_A.to_string, 2, 2⟩] ∧
    ¬ I2 (run (ledger [] [] 0, [])
      [Op.save none ⟨SID_A, 1⟩, Op.save none ⟨SID_A, 2⟩, Op.save none ⟨SID_A, 3⟩,
       Op.compress none, Op.save none ⟨SID_A, 2⟩]).1.table.rows := by
  have hrows : (run (ledger [] [] 0, [])
      [Op.save none ⟨SID_A, 1⟩, Op.save none ⟨SID_A, 2⟩, Op.save none ⟨SID_A, 3⟩,
       Op.compress none, Op.save none ⟨SID_A, 2⟩]).1.table.rows =
      [⟨SID_A.to_string, 1, 3⟩, ⟨SID_A.to_string, 2, 2⟩] := by decide
  refine ⟨hrows, ?_⟩
  rw [hrows]
  intro h
  unfold I2 at h
  have := (List.pairwise_cons.mp h).1 ⟨SID_A.to_string, 2, 2⟩ (by simp)
  exact this ⟨2, rfl, by decide, by decide, by decide, by decide⟩

/-- C8 (amended): for any finite sequence of `save(gtid)` and `compress()` calls
on an empty ledger in which every `save` is for a GNO in `[1, 2^64)` and for an
identifier whose `save` has not already returned `0`, after each step (after the
first `n` calls, for every `n`) the identifiers covered by the ledger are exactly
those whose `save` returned `0`, and no identifier is covered by more than one
row. -/
theorem interleaving_no_loss_no_duplicate (s : Server) (hempty : s.table.rows = [])
    (ops : List Op) (hadm : admissible (s, []) ops) (n : Nat) :
    (∀ (text : List Char) (gno : Nat),
      covers (run (s, []) (ops.take n)).1.table.rows text gno ↔
        ∃ g ∈ (run (s, []) (ops.take n)).2, g.sid.to_string = text ∧ g.gno = gno) ∧
    I2 (run (s, []) (ops.take n)).1.table.rows := by
  have h0 : Inv (s, []) := by
    unfold Inv
    simp only
    rw [hempty]
    refine ⟨⟨List.Pairwise.nil, by simp⟩, by simp, List.Pairwise.nil, ?_⟩
    intro text gno
    simp [covers]
  obtain ⟨_, _, hI2, hcov⟩ := run_inv (ops.take n) (s, []) h0 (admissible_take ops _ n hadm)
  exact ⟨hcov, hI2⟩

/-- Witness of C8 (amended): `save A:1`, `save A:2`, `compress`, `save A:3`,
`compress` on an empty ledger, after all five calls. -/
theorem interleaving_no_loss_no_duplicate_witness :
    (run (ledger [] [] 0, [])
      [Op.save none ⟨SID_A, 1⟩, Op.save none ⟨SID_A, 2⟩, Op.compress none,
       Op.save none ⟨SID_A, 3⟩, Op.compress none]).1.table.rows =
      [⟨SID_A.to_string, 1, 3⟩] ∧
    ((∀ (text : List Char) (gno : Nat),
      covers (run (ledger [] [] 0, [])
        ([Op.save none ⟨SID_A, 1⟩, Op.save none ⟨SID_A, 2⟩, Op.compress none,
         Op.save none ⟨SID_A, 3⟩, Op.compress none].take 5)).1.table.rows text gno ↔
        ∃ g ∈ (run (ledger [] [] 0, [])
          ([Op.save none ⟨SID_A, 1⟩, Op.save none ⟨SID_A, 2⟩, Op.compress none,
           Op.save none ⟨SID_A, 3⟩, Op.compress none].take 5)).2,
          g.sid.to_string = text ∧ g.gno = gno) ∧
    I2 (run (ledger [] [] 0, [])
      ([Op.save none ⟨SID_A, 1⟩, Op.save none ⟨SID_A, 2⟩, Op.compress none,
       Op.save none ⟨SID_A, 3⟩, Op.compress none].take 5)).1.table.rows) :=
  ⟨by decide,
    interleaving_no_loss_no_duplicate (ledger [] [] 0) rfl
      [Op.save none ⟨SID_A, 1⟩, Op.save none ⟨SID_A, 2⟩, Op.compress none,
       Op.save none ⟨SID_A, 3⟩, Op.compress none]
      (by decide) 5⟩

/-- C11: zero disables automatic compaction. With
`executed_gtids_compression_period = 0`, whatever the value of `m_count`, a
`save(thd, gtid)` makes no `mysql_cond_signal` call and does not take the branch
`m_count = 0`: the counter afterwards is the incremented counter (`m_count++` on
a `ulong`) when the save returned `0` and the counter before otherwise. The same
holds along every sequence of saves: no signal, and the counter has counted the
successful saves. -/
theorem zero_period_disables_compaction (s : Server)
    (hp : s.executed_gtids_compression_period = 0) (hm : s.m_count < 2 ^ ULONG_BITS) :
    (∀ (thd : Option THD) (g : Gtid),
      (save s thd g).server.signals = s.signals ∧
      (save s thd g).server.m_count =
        (if (save s thd g).ret = 0 then (s.m_count + 1) % 2 ^ ULONG_BITS else s.m_count)) ∧
    ∀ calls : List (Option THD × Gtid),
      (save_seq s calls).1.signals = s.signals ∧
      (save_seq s calls).1.m_count =
        (s.m_count + (save_seq s calls).2.length) % 2 ^ ULONG_BITS := by
  refine ⟨?_, fun calls => save_seq_zero_period calls s hp hm⟩
  intro thd g
  have hsig := save_signals s thd g
  have hcnt := save_m_count s thd g
  simp only [hp, ne_eq, not_true_eq_false, false_and, and_false, if_false,
    Nat.add_zero] at hsig hcnt
  exact ⟨hsig, hcnt⟩

theorem zero_period_disables_compaction_witness :
    (save ⟨true, ⟨3, [], []⟩, 999, 0, []⟩ none ⟨SID_A, 1⟩).server.signals = 0 ∧
    (save ⟨true, ⟨3, [], []⟩, 999, 0, []⟩ none ⟨SID_A, 1⟩).server.m_count = 1000 :=
  ⟨((zero_period_disables_compaction ⟨true, ⟨3, [], []⟩, 999, 0, []⟩ rfl
      (by decide)).1 none ⟨SID_A, 1⟩).1.trans (by decide),
   ((zero_period_disables_compaction ⟨true, ⟨3, [], []⟩, 999, 0, []⟩ rfl
      (by decide)).1 none ⟨SID_A, 1⟩).2.trans (by decide)⟩

/-- C12: `save(set)` is all-or-nothing. Whatever the server, the session and the
set: when `save(Gtid_set*)` returns `0` the ledger afterwards holds exactly the
rows it held before and one row for every interval of the set; when it returns
anything else the ledger is the ledger before the call. In particular, when the
intervals before the `k`-th were written and `write_row` fails on the `k`-th, the
call fails and none of the rows written before it is left. -/
theorem save_set_all_or_nothing (s : Server) (thd : Option THD) (gtid_set : Gtid_set) :
    ((save_gtid_set s thd gtid_set).ret = 0 →
      (∀ r, r ∈ (save_gtid_set s thd gtid_set).rows ↔
        r ∈ s.table.rows ∨ ∃ i ∈ gtid_set.get_gtid_intervals, r = interval_row i) ∧
      (save_gtid_set s thd gtid_set).rows.length =
        s.table.rows.length + gtid_set.get_gtid_intervals.length) ∧
    ((save_gtid_set s thd gtid_set).ret ≠ 0 →
      (save_gtid_set s thd gtid_set).rows = s.table.rows) ∧
    ∀ (pre : List (rpl_sid × Nat × Nat)) (i : rpl_sid × Nat × Nat)
      (post : List (rpl_sid × Nat × Nat)),
      gtid_set.get_gtid_intervals = pre ++ i :: post →
      (save_intervals pre s.table).1 = 0 →
      (write_row (save_intervals pre s.table).2 i.1.to_string i.2.1 i.2.2).1 ≠ 0 →
      (save_gtid_set s thd gtid_set).ret ≠ 0 ∧
      (save_gtid_set s thd gtid_set).rows = s.table.rows := by
  have hfail : (save_gtid_set s thd gtid_set).ret ≠ 0 →
      (save_gtid_set s thd gtid_set).rows = s.table.rows := by
    intro h
    rw [save_gtid_set_ret] at h
    rw [save_gtid_set_rows]
    by_cases hu : s.usable
    · rw [if_pos hu] at h
      rw [if_neg (fun hc => h hc.2)]
    · rw [if_neg (fun hc => hu hc.1)]
  refine ⟨?_, hfail, ?_⟩
  · intro h
    rw [save_gtid_set_ret] at h
    rw [save_gtid_set_rows]
    by_cases hu : s.usable
    · rw [if_pos hu] at h
      rw [if_pos ⟨hu, h⟩]
      exact save_intervals_ok _ _ h
    · rw [if_neg hu] at h
      exact absurd h (by decide)
  · intro pre i post hsplit hpre hw
    have hret : (save_gtid_set s thd gtid_set).ret ≠ 0 := by
      rw [save_gtid_set_ret]
      by_cases hu : s.usable
      · rw [if_pos hu, save_table_gtid_set, hsplit, save_intervals_append pre _ _ hpre]
        simp only [save_intervals]
        rw [if_pos hw]
        exact hw
      · rw [if_neg hu]
        decide
    exact ⟨hret, hfail hret⟩

/-- C14 (as stated, refuted): on a server whose table is found and opened
(`open_n_lock_single_table` succeeds, no "cannot be opened" warning is printed)
but has two columns, `save(thd, gtid)` and `fetch_gtids` return `1`. -/
theorem tri_value_one_though_table_opened :
    two_column_ledger.table_exists = true ∧
    (save two_column_ledger none ⟨SID_A, 2⟩).ret = 1 ∧
    (fetch_gtids two_column_ledger none ⟨[]⟩).1.ret = 1 ∧
    Event.sql_print_warning ∉ (save two_column_ledger none ⟨SID_A, 2⟩).server.trace ∧
    Event.my_error ∈ (save two_column_ledger none ⟨SID_A, 2⟩).server.trace := by
  decide

/-- C14 (amended): each of `save(thd, gtid)`, `save(set)`, `reset(thd)`,
`fetch_gtids(set)` and `compress(thd)` returns exactly one of `0`, `1`, `-1`, never
a storage-handler status; it returns `1` if and only if `open_table` fails, that
is, the table cannot be opened and locked or it has fewer than three columns; and
when it returns `1` the table (rows and engine calls) is untouched, and for
`fetch_gtids` so is the set. -/
theorem tri_value_results (s : Server) (thd : Option THD) (gtid : Gtid)
    (gtid_set : Gtid_set) :
    (((save s thd gtid).ret = 0 ∨ (save s thd gtid).ret = 1 ∨ (save s thd gtid).ret = -1) ∧
      ((save s thd gtid).ret = 1 ↔ s.table_exists = false ∨ s.table.fields < 3) ∧
      ((save s thd gtid).ret = 1 → (save s thd gtid).server.table = s.table)) ∧
    (((save_gtid_set s thd gtid_set).ret = 0 ∨ (save_gtid_set s thd gtid_set).ret = 1 ∨
        (save_gtid_set s thd gtid_set).ret = -1) ∧
      ((save_gtid_set s thd gtid_set).ret = 1 ↔
        s.table_exists = false ∨ s.table.fields < 3) ∧
      ((save_gtid_set s thd gtid_set).ret = 1 →
        (save_gtid_set s thd gtid_set).server.table = s.table)) ∧
    (((reset s thd).ret = 0 ∨ (reset s thd).ret = 1 ∨ (reset s thd).ret = -1) ∧
      ((reset s thd).ret = 1 ↔ s.table_exists = false ∨ s.table.fields < 3) ∧
      ((reset s thd).ret = 1 → (reset s thd).server.table = s.table)) ∧
    (((fetch_gtids s thd gtid_set).1.ret = 0 ∨ (fetch_gtids s thd gtid_set).1.ret = 1 ∨
        (fetch_gtids s thd gtid_set).1.ret = -1) ∧
      ((fetch_gtids s thd gtid_set).1.ret = 1 ↔
        s.table_exists = false ∨ s.table.fields < 3) ∧
      ((fetch_gtids s thd gtid_set).1.ret = 1 →
        (fetch_gtids s thd gtid_set).1.server.table = s.table ∧
        (fetch_gtids s thd gtid_set).2 = gtid_set)) ∧
    (((compress s thd).ret = 0 ∨ (compress s thd).ret = 1 ∨ (compress s thd).ret = -1) ∧
      ((compress s thd).ret = 1 ↔ s.table_exists = false ∨ s.table.fields < 3) ∧
      ((compress s thd).ret = 1 → (compress s thd).server.table = s.table)) := by
  have h1 := tri_value s.usable _ _ (write_row_ret s.table gtid.sid.to_string gtid.gno
    gtid.gno) (save_ret s thd gtid)
  have h2 := tri_value s.usable _ _ (save_intervals_ret gtid_set.get_gtid_intervals s.table)
    (save_gtid_set_ret s thd gtid_set)
  have h3 := tri_value s.usable _ _ (delete_all_ret s.table) (reset_ret s thd)
  have h5 := tri_value s.usable _ _ (compress_first_consecutive_gtids_ret s.table)
    (compress_ret s thd)
  rw [usable_iff] at h1 h2 h3 h5
  refine ⟨⟨h1.1, h1.2, fun h => save_unusable s thd gtid ((usable_iff s).mpr (h1.2.mp h))⟩,
    ⟨h2.1, h2.2, fun h => save_gtid_set_unusable s thd gtid_set
      ((usable_iff s).mpr (h2.2.mp h))⟩,
    ⟨h3.1, h3.2, fun h => reset_unusable s thd ((usable_iff s).mpr (h3.2.mp h))⟩,
    ?_,
    ⟨h5.1, h5.2, fun h => compress_unusable s thd ((usable_iff s).mpr (h5.2.mp h))⟩⟩
  rcases fetch_gtids_ret_cases s thd gtid_set with ⟨h | h, hu⟩ | ⟨h, hu⟩
  · rw [h]
    exact ⟨Or.inl rfl, ⟨fun hc => absurd hc (by decide),
      fun hc => absurd hu ((usable_iff s).mpr hc)⟩, fun hc => absurd hc (by decide)⟩
  · rw [h]
    exact ⟨Or.inr (Or.inr rfl), ⟨fun hc => absurd hc (by decide),
      fun hc => absurd hu ((usable_iff s).mpr hc)⟩, fun hc => absurd hc (by decide)⟩
  · rw [h]
    exact ⟨Or.inr (Or.inl rfl), ⟨fun _ => (usable_iff s).mp hu, fun _ => rfl⟩,
      fun _ => fetch_gtids_unusable s thd gtid_set hu⟩

/-- C15 (as stated, refuted): on a server whose table opens but has two columns,
`save(thd, gtid)`, `save(set)`, `reset`, `fetch_gtids` and `compress` all return
`1`, the result of a table that cannot be opened, and not `-1`. -/
theorem schema_mismatch_returns_one :
    two_column_ledger.table_exists = true ∧ two_column_ledger.table.fields < 3 ∧
    (save two_column_ledger none ⟨SID_B, 1⟩).ret = 1 ∧
    (save_gtid_set two_column_ledger none ⟨[(SID_B, 1, 1)]⟩).ret = 1 ∧
    (reset two_column_ledger none).ret = 1 ∧
    (fetch_gtids two_column_ledger none ⟨[]⟩).1.ret = 1 ∧
    (compress two_column_ledger none).ret = 1 ∧
    (save { two_column_ledger with table_exists := false } none ⟨SID_B, 1⟩).ret = 1 := by
  decide

/-- C15 (amended): when the table opens but has fewer than three columns,
`open_table` rolls back, closes the table, raises the column-count error and
fails, and every operation (`save(thd, gtid)`, `save(set)`, `reset`,
`fetch_gtids`, `compress`) returns `1`, the same result as when the table cannot
be opened, leaving the rows as they were. -/
theorem schema_mismatch_result (s : Server) (thd : Option THD) (gtid : Gtid)
    (gtid_set : Gtid_set) (hopen : s.table_exists = true) (hfields : s.table.fields < 3) :
    ((save s thd gtid).ret = 1 ∧ (save s thd gtid).rows = s.table.rows) ∧
    ((save_gtid_set s thd gtid_set).ret = 1 ∧
      (save_gtid_set s thd gtid_set).rows = s.table.rows) ∧
    ((reset s thd).ret = 1 ∧ (reset s thd).rows = s.table.rows) ∧
    ((fetch_gtids s thd gtid_set).1.ret = 1 ∧
      (fetch_gtids s thd gtid_set).1.rows = s.table.rows ∧
      (fetch_gtids s thd gtid_set).2 = gtid_set) ∧
    ((compress s thd).ret = 1 ∧ (compress s thd).rows = s.table.rows) ∧
    ∀ (t : THD) (write : Bool),
      (open_table s t write).1 = true ∧
      (open_table s t write).2.2.2.1.trace =
        s.trace ++ [Event.reset_n_backup_open_tables_state,
          Event.open_n_lock_single_table write, Event.ha_rollback_trans false,
          Event.close_thread_tables, Event.restore_backup_open_tables_state,
          Event.my_error] := by
  have hu : ¬ s.usable := fun h => h.2 hfields
  refine ⟨⟨?_, ?_⟩, ⟨?_, ?_⟩, ⟨?_, ?_⟩, ⟨?_, ?_, ?_⟩, ⟨?_, ?_⟩, ?_⟩
  · rw [save_ret, if_neg hu]
  · rw [rows_def, save_unusable s thd gtid hu]
  · rw [save_gtid_set_ret, if_neg hu]
  · rw [rows_def, save_gtid_set_unusable s thd gtid_set hu]
  · rw [reset_ret, if_neg hu]
  · rw [rows_def, reset_unusable s thd hu]
  · rw [fetch_gtids_ret, if_neg hu]
  · rw [rows_def, (fetch_gtids_unusable s thd gtid_set hu).1]
  · exact (fetch_gtids_unusable s thd gtid_set hu).2
  · rw [compress_ret, if_neg hu]
  · rw [rows_def, compress_unusable s thd hu]
  · intro t write
    simp [open_table, hopen, hfields, Server.log]

theorem schema_mismatch_result_witness :
    (save two_column_ledger none ⟨SID_A, 3⟩).ret = 1 ∧
    (reset two_column_ledger (some THD.fresh)).rows = [⟨sid_A, 1, 1⟩] ∧
    (compress two_column_ledger none).ret = 1 :=
  ⟨(schema_mismatch_result two_column_ledger none ⟨SID_A, 3⟩ ⟨[]⟩ rfl (by decide)).1.1,
   (schema_mismatch_result two_column_ledger (some THD.fresh) ⟨SID_A, 3⟩ ⟨[]⟩ rfl
      (by decide)).2.2.1.2,
   (schema_mismatch_result two_column_ledger none ⟨SID_A, 3⟩ ⟨[]⟩ rfl
      (by decide)).2.2.2.2.1.1⟩

/-- C13: `compress()` is atomic on failure. If any engine call made by the
compaction fails (index initialisation, positioning or advancing the cursor, a
row delete, a field store or the index lookup and the update of the first row),
that is, if a fault is among the entries of the fault schedule the call used up,
then `compress()` returns `-1` and the ledger is the ledger before the call, rows
deleted during the walk included. More generally every `compress()` with a result
other than `0` leaves the ledger as it was. -/
theorem compress_atomic_on_failure (s : Server) (thd : Option THD) :
    (true ∈ consumed s.table (compress s thd).server.table →
      (compress s thd).ret = -1 ∧ (compress s thd).rows = s.table.rows) ∧
    ((compress s thd).ret ≠ 0 → (compress s thd).rows = s.table.rows) := by
  refine ⟨?_, compress_fail_rows s thd⟩
  intro hfault
  by_cases hu : s.usable
  · have hret : (compress s thd).ret = -1 := by
      rw [compress_ret, if_pos hu]
      rcases compress_first_consecutive_gtids_ret s.table with h0 | h1
      · exfalso
        have hff := compress_first_consecutive_gtids_fault_free s.table h0
        have hcf := compress_faults s thd
        rw [if_pos hu] at hcf
        rw [← hcf] at hff
        exact fault_free_consumed _ _ hff hfault
      · exact h1
    exact ⟨hret, compress_fail_rows s thd (by rw [hret]; decide)⟩
  · rw [compress_unusable s thd hu, consumed_self] at hfault
    exact absurd hfault (by simp)

/-- Witness of C13: on the ledger `A:[1,1], A:[2,2], A:[3,3]` with the sixth engine
call failing (the delete of `A:[3,3]`, after `A:[2,2]` has been deleted),
`compress()` returns `-1` and the three rows are there. -/
theorem compress_atomic_on_failure_witness :
    true ∈ consumed
      (ledger [⟨sid_A, 1, 1⟩, ⟨sid_A, 2, 2⟩, ⟨sid_A, 3, 3⟩]
        [false, false, false, false, false, true] 0).table
      (compress (ledger [⟨sid_A, 1, 1⟩, ⟨sid_A, 2, 2⟩, ⟨sid_A, 3, 3⟩]
        [false, false, false, false, false, true] 0) none).server.table ∧
    (compress (ledger [⟨sid_A, 1, 1⟩, ⟨sid_A, 2, 2⟩, ⟨sid_A, 3, 3⟩]
      [false, false, false, false, false, true] 0) none).ret = -1 ∧
    (compress (ledger [⟨sid_A, 1, 1⟩, ⟨sid_A, 2, 2⟩, ⟨sid_A, 3, 3⟩]
      [false, false, false, false, false, true] 0) none).rows =
      [⟨sid_A, 1, 1⟩, ⟨sid_A, 2, 2⟩, ⟨sid_A, 3, 3⟩] :=
  ⟨by decide,
   (compress_atomic_on_failure (ledger [⟨sid_A, 1, 1⟩, ⟨sid_A, 2, 2⟩, ⟨sid_A, 3, 3⟩]
      [false, false, false, false, false, true] 0) none).1 (by decide)⟩

/-- C16: `fetch_gtids` surfaces a malformed row as an error. It returns `0` if and
only if the table was opened (with its three columns), `ha_rnd_init` and every
`ha_rnd_next` of the scan proceeded, the last of them reporting end-of-file after
all rows, and the text of every row is accepted by the set. If the text of some
row cannot be parsed, the result is not `0` (it is `-1` once the table is
opened), and the set afterwards holds nothing beyond what it held before and the
intervals of rows that come before that row: the scan stops there and no later
row is added. -/
theorem fetch_malformed_row (s : Server) (thd : Option THD) (g : Gtid_set) :
    ((fetch_gtids s thd g).1.ret = 0 ↔
      s.usable ∧ (∀ b ∈ s.table.faults.take (s.table.rows.length + 2), b = false) ∧
      ∀ r ∈ s.table.rows, ∀ h : Gtid_set, h.add_gtid_text (encode_gtid_text r) ≠ none) ∧
    ∀ (pre : List Row) (bad : Row) (post : List Row),
      s.table.rows = pre ++ bad :: post →
      (∀ h : Gtid_set, h.add_gtid_text (encode_gtid_text bad) = none) →
      (fetch_gtids s thd g).1.ret ≠ 0 ∧
      (s.usable → (fetch_gtids s thd g).1.ret = -1) ∧
      ∀ i ∈ (fetch_gtids s thd g).2.intervals,
        i ∈ g.intervals ∨ ∃ r ∈ pre, parse_gtid_text (encode_gtid_text r) = some i := by
  have hiff : (fetch_gtids s thd g).1.ret = 0 ↔
      s.usable ∧ (∀ b ∈ s.table.faults.take (s.table.rows.length + 2), b = false) ∧
      ∀ r ∈ s.table.rows, ∀ h : Gtid_set, h.add_gtid_text (encode_gtid_text r) ≠ none := by
    rw [fetch_gtids_ret, take_succ_faults]
    simp only [ne_eq, add_gtid_text_eq_none, forall_const]
    by_cases hu : s.usable
    · rw [if_pos hu]
      cases h1 : s.table.engine_call.1 with
      | true => simp
      | false =>
        have hl0 := fetch_gtids_loop_eof_iff s.table.rows s.table.engine_call.2 g
        have hl : (fetch_gtids_loop s.table.rows s.table.engine_call.2 g).1 =
            HA_ERR_END_OF_FILE ↔
            (∀ b ∈ s.table.engine_call.2.faults.take (s.table.rows.length + 1), b = false) ∧
            ∀ r ∈ s.table.rows, Gtid_set → ¬ parse_gtid_text (encode_gtid_text r) = none :=
          hl0.trans ⟨fun h => ⟨h.1, fun r hr _ => h.2 r hr⟩,
            fun h => ⟨h.1, fun r hr => h.2 r hr g⟩⟩
        by_cases he : (fetch_gtids_loop s.table.rows s.table.engine_call.2 g).1 =
            HA_ERR_END_OF_FILE
        · simp only [Bool.false_eq_true, if_false, he, not_true_eq_false, true_and, hu]
          simpa using hl.mp he
        · simp only [Bool.false_eq_true, if_false, he, not_false_eq_true, if_true, true_and,
            hu]
          constructor
          · intro hc
            exact absurd hc (by decide)
          · intro hc
            exact absurd (hl.mpr hc) he
    · rw [if_neg hu]
      simp [hu]
  refine ⟨hiff, ?_⟩
  intro pre bad post hrows hbad
  have hbad' : parse_gtid_text (encode_gtid_text bad) = none :=
    (add_gtid_text_eq_none g _).mp (hbad g)
  have hne : (fetch_gtids s thd g).1.ret ≠ 0 := by
    intro h0
    have h := (hiff.mp h0).2.2 bad (by rw [hrows]; simp) g
    exact h (hbad g)
  refine ⟨hne, ?_, ?_⟩
  · intro hu
    rcases fetch_gtids_ret_cases s thd g with ⟨h | h, _⟩ | ⟨_, hnu⟩
    · exact absurd h hne
    · exact h
    · exact absurd hu hnu
  · rw [fetch_gtids_set]
    by_cases hc : s.usable ∧ s.table.engine_call.1 = false
    · rw [if_pos hc, hrows]
      exact fetch_gtids_loop_stops pre bad post hbad' _ g
    · rw [if_neg hc]
      intro i hi
      exact Or.inl hi

/-- Witness of C16: the table holds the row of `(SID_A, 5, 5)`, then a row with the
SID text `A`, then the row of `(SID_B, 7, 7)`; `fetch_gtids` returns `-1` and the
set holds the first interval only. -/
theorem fetch_malformed_row_witness :
    (fetch_gtids (ledger [⟨SID_A.to_string, 5, 5⟩, ⟨sid_A, 2, 2⟩, ⟨SID_B.to_string, 7, 7⟩]
      [] 0) none ⟨[]⟩).1.ret = -1 ∧
    (fetch_gtids (ledger [⟨SID_A.to_string, 5, 5⟩, ⟨sid_A, 2, 2⟩, ⟨SID_B.to_string, 7, 7⟩]
      [] 0) none ⟨[]⟩).2 = ⟨[(SID_A, 5, 5)]⟩ :=
  ⟨((fetch_malformed_row (ledger [⟨SID_A.to_string, 5, 5⟩, ⟨sid_A, 2, 2⟩,
      ⟨SID_B.to_string, 7, 7⟩] [] 0) none ⟨[]⟩).2 [⟨SID_A.to_string, 5, 5⟩] ⟨sid_A, 2, 2⟩
      [⟨SID_B.to_string, 7, 7⟩] rfl
      (fun h => (add_gtid_text_eq_none h _).mpr sid_A_row_malformed)).2.1 (by decide),
   by decide⟩

/-- C19: scoped restoration on every exit path. For every server state, with or
without a caller's session, and so on every path to return (success, table that
cannot be opened, too few columns, failing row write, delete or update), each of
`save(thd, gtid)`, `save(set)`, `compress` and `reset` leaves the caller's
session as it was with `is_operating_gtid_table` false (`sql_mode`, the
binary-logging option and the open-tables state are those at entry), has called
`restore_backup_open_tables_state` exactly once, has destroyed the session it
created, and, for `compress` and `reset`, has unlocked the compression mutex it
locked. -/
theorem scoped_restoration (s : Server) (thd : Option THD) (gtid : Gtid)
    (gtid_set : Gtid_set) :
    restored s thd (save s thd gtid) 0 ∧
    restored s thd (save_gtid_set s thd gtid_set) 0 ∧
    restored s thd (compress s thd) 1 ∧
    restored s thd (reset s thd) 1 :=
  ⟨save_restored s thd gtid, save_gtid_set_restored s thd gtid_set,
    compress_restored s thd, reset_restored s thd⟩

/-- C20: the compression thread never leaves its loop on a compaction error. For
every server and every sequence of values read from the terminate flag: the loop
is left if and only if one of the reads, before waiting or after waking, returns
true; while all reads return false every turn waits once and calls `compress`
once (one lock and unlock for the wait, one for `compress`), whatever `compress`
returns; and a turn whose `compress` returns non-zero adds one warning to what
`compress` did and goes on with the loop. -/
theorem worker_leaves_only_on_terminate (s : Server) (thd : THD)
    (obs : List (Bool × Bool)) :
    ((compress_gtid_table s thd obs).exited = true ↔
      ∃ o ∈ obs, o.1 = true ∨ o.2 = true) ∧
    ((∀ o ∈ obs, o.1 = false ∧ o.2 = false) →
      (compress_gtid_table s thd obs).exited = false ∧
      (compress_gtid_table s thd obs).server.calls Event.cond_wait =
        s.calls Event.cond_wait + obs.length ∧
      (compress_gtid_table s thd obs).server.calls Event.mutex_lock =
        s.calls Event.mutex_lock + 2 * obs.length ∧
      (compress_gtid_table s thd obs).server.calls Event.mutex_unlock =
        s.calls Event.mutex_unlock + 2 * obs.length) ∧
    ((compress (((s.log Event.mutex_lock).log Event.cond_wait).log Event.mutex_unlock)
        (some thd)).ret ≠ 0 →
      ∀ rest : List (Bool × Bool),
        compress_gtid_table s thd ((false, false) :: rest) =
          compress_gtid_table
            ((compress (((s.log Event.mutex_lock).log Event.cond_wait).log
              Event.mutex_unlock) (some thd)).server.log Event.sql_print_warning)
            ((compress (((s.log Event.mutex_lock).log Event.cond_wait).log
              Event.mutex_unlock) (some thd)).thd.getD thd) rest) := by
  refine ⟨compress_gtid_table_exited obs s thd, ?_, ?_⟩
  · intro h
    refine ⟨?_, compress_gtid_table_waits obs s thd h⟩
    cases hex : (compress_gtid_table s thd obs).exited with
    | false => rfl
    | true =>
      obtain ⟨o, ho, hor⟩ := (compress_gtid_table_exited obs s thd).mp hex
      have := h o ho
      rcases hor with h1 | h1
      · rw [this.1] at h1; exact absurd h1 (by decide)
      · rw [this.2] at h1; exact absurd h1 (by decide)
  · intro hret rest
    rw [compress_gtid_table_turn, if_pos hret]

/-- Witness of C20: on a server whose table has two columns every `compress`
returns `1`; after two turns with the flag read false the thread is still in its
loop, has waited twice and printed two warnings, and it leaves the loop at the
third turn, where the flag is read true. -/
theorem worker_leaves_only_on_terminate_witness :
    (compress two_column_ledger (some THD.fresh)).ret = 1 ∧
    (compress_gtid_table two_column_ledger THD.fresh
      [(false, false), (false, false)]).exited = false ∧
    (compress_gtid_table two_column_ledger THD.fresh
      [(false, false), (false, false)]).server.calls Event.cond_wait = 2 ∧
    (compress_gtid_table two_column_ledger THD.fresh
      [(false, false), (false, false)]).server.calls Event.sql_print_warning = 2 ∧
    (compress_gtid_table two_column_ledger THD.fresh
      [(false, false), (false, false), (true, false)]).exited = true :=
  ⟨by decide,
   ((worker_leaves_only_on_terminate two_column_ledger THD.fresh
      [(false, false), (false, false)]).2.1 (by decide)).1,
   ((worker_leaves_only_on_terminate two_column_ledger THD.fresh
      [(false, false), (false, false)]).2.1 (by decide)).2.1.trans (by decide),
   by decide,
   (worker_leaves_only_on_terminate two_column_ledger THD.fresh
      [(false, false), (false, false), (true, false)]).1.mpr (by decide)⟩

/-- C18: repeated compaction converges to canonical form. Take a ledger with `n`
rows in primary-key order, with 64-bit GNO columns and SID texts of at most
`rpl_sid::TEXT_LENGTH` characters, satisfying I1 and I2, and call
`compress()` repeatedly with nothing in between. The number of maximal runs of
two or more consecutive rows is at most `n / 2`; if every call returns `0` and
there are at least as many calls as runs (`n / 2` calls are always enough), the
ledger afterwards has no two rows of the same SID with one row's `gno_end + 1`
equal to the other's `gno_start`, and every further `compress()`, whatever it
returns, leaves that ledger unchanged. -/
theorem repeated_compaction_converges (s : Server) (thds : List (Option THD))
    (hwf : well_formed s.table.rows) (hI1 : ∀ r ∈ s.table.rows, I1 r)
    (hI2 : I2 s.table.rows) (hok : ∀ e ∈ (compress_passes s thds).2, e = 0)
    (hruns : run_count s.table.rows ≤ thds.length) :
    run_count s.table.rows ≤ s.table.rows.length / 2 ∧
    canonical (compress_passes s thds).1.table.rows ∧
    ∀ thd : Option THD,
      (compress (compress_passes s thds).1 thd).rows =
        (compress_passes s thds).1.table.rows := by
  obtain ⟨hwf1, hI11, hI21⟩ := compress_passes_keeps thds s hwf hI1 hI2
  have hcount := compress_passes_run_count thds s hwf hok
  have hzero : run_count (compress_passes s thds).1.table.rows = 0 := by
    rw [hcount]
    omega
  have hcan : canonical (compress_passes s thds).1.table.rows :=
    free_canonical _ hwf1.1 (fun r hr => ⟨(hwf1.2 r hr).1, (hwf1.2 r hr).2.1⟩) hI11 hI21
      ((run_count_zero_iff _).mp hzero)
  exact ⟨run_count_le _, hcan,
    fun thd => compress_canonical_fixed _ thd hwf1 hI11 hcan⟩

/-- Witness of C18: the ledger of `A` with `[1,1]`, `[2,2]`, `[3,3]`, `[6,6]`,
`[7,7]`, `[8,8]` has two runs; two successful passes leave `[1,3]`, `[6,8]`, which
is canonical and which a third pass leaves unchanged. -/
theorem repeated_compaction_converges_witness :
    (compress_passes (ledger [⟨sid_A, 1, 1⟩, ⟨sid_A, 2, 2⟩, ⟨sid_A, 3, 3⟩, ⟨sid_A, 6, 6⟩,
      ⟨sid_A, 7, 7⟩, ⟨sid_A, 8, 8⟩] [] 0) [none, none]).1.table.rows =
      [⟨sid_A, 1, 3⟩, ⟨sid_A, 6, 8⟩] ∧
    run_count (ledger [⟨sid_A, 1, 1⟩, ⟨sid_A, 2, 2⟩, ⟨sid_A, 3, 3⟩, ⟨sid_A, 6, 6⟩,
      ⟨sid_A, 7, 7⟩, ⟨sid_A, 8, 8⟩] [] 0).table.rows = 2 ∧
    canonical (compress_passes (ledger [⟨sid_A, 1, 1⟩, ⟨sid_A, 2, 2⟩, ⟨sid_A, 3, 3⟩,
      ⟨sid_A, 6, 6⟩, ⟨sid_A, 7, 7⟩, ⟨sid_A, 8, 8⟩] [] 0) [none, none]).1.table.rows ∧
    (compress (compress_passes (ledger [⟨sid_A, 1, 1⟩, ⟨sid_A, 2, 2⟩, ⟨sid_A, 3, 3⟩,
      ⟨sid_A, 6, 6⟩, ⟨sid_A, 7, 7⟩, ⟨sid_A, 8, 8⟩] [] 0) [none, none]).1 none).rows =
      (compress_passes (ledger [⟨sid_A, 1, 1⟩, ⟨sid_A, 2, 2⟩, ⟨sid_A, 3, 3⟩,
        ⟨sid_A, 6, 6⟩, ⟨sid_A, 7, 7⟩, ⟨sid_A, 8, 8⟩] [] 0) [none, none]).1.table.rows :=
  ⟨by decide, by decide,
   (repeated_compaction_converges (ledger [⟨sid_A, 1, 1⟩, ⟨sid_A, 2, 2⟩, ⟨sid_A, 3, 3⟩,
      ⟨sid_A, 6, 6⟩, ⟨sid_A, 7, 7⟩, ⟨sid_A, 8, 8⟩] [] 0) [none, none]
      (by unfold well_formed; decide) (by unfold I1; decide) (I2_of_disjoint _ (by decide))
      (by decide) (by decide)).2.1,
   (repeated_compaction_converges (ledger [⟨sid_A, 1, 1⟩, ⟨sid_A, 2, 2⟩, ⟨sid_A, 3, 3⟩,
      ⟨sid_A, 6, 6⟩, ⟨sid_A, 7, 7⟩, ⟨sid_A, 8, 8⟩] [] 0) [none, none]
      (by unfold well_formed; decide) (by unfold I1; decide) (I2_of_disjoint _ (by decide))
      (by decide) (by decide)).2.2 none⟩

/-- Witness of C12: saving the set of `(SID_A, 1, 1)` and `(SID_B, 1, 1)` into an
empty ledger writes two rows; when the eighth engine call fails (the
`ha_write_row` of the second interval, after the first row was written) the call
fails and the ledger is empty as before. -/
theorem save_set_all_or_nothing_witness :
    (save_gtid_set (ledger [] [] 0) none ⟨[(SID_A, 1, 1), (SID_B, 1, 1)]⟩).rows.length = 2 ∧
    (save_gtid_set (ledger [] [false, false, false, false, false, false, false, true] 0)
      none ⟨[(SID_A, 1, 1), (SID_B, 1, 1)]⟩).ret ≠ 0 ∧
    (save_gtid_set (ledger [] [false, false, false, false, false, false, false, true] 0)
      none ⟨[(SID_A, 1, 1), (SID_B, 1, 1)]⟩).rows = [] :=
  ⟨((save_set_all_or_nothing (ledger [] [] 0) none ⟨[(SID_A, 1, 1), (SID_B, 1, 1)]⟩).1
      (by decide)).2,
   (save_set_all_or_nothing
      (ledger [] [false, false, false, false, false, false, false, true] 0) none
      ⟨[(SID_A, 1, 1), (SID_B, 1, 1)]⟩).2.2 [(SID_A, 1, 1)] (SID_B, 1, 1) [] rfl
      (by decide) (by decide)⟩

/-- C21 (as stated, refuted): `save(set)` on a usable ledger opens the table,
writes the row and closes the table without one `mysql_mutex_lock` call: the
calls that touch the table are made with `LOCK_compress_gtid_table` not held. -/
theorem save_set_takes_no_lock :
    (save_gtid_set (ledger [] [] 0) none ⟨[(SID_A, 1, 1)]⟩).ret = 0 ∧
    (save_gtid_set (ledger [] [] 0) none ⟨[(SID_A, 1, 1)]⟩).rows =
      [⟨SID_A.to_string, 1, 1⟩] ∧
    Event.open_n_lock_single_table true ∈
      (save_gtid_set (ledger [] [] 0) none ⟨[(SID_A, 1, 1)]⟩).server.trace ∧
    Event.mutex_lock ∉ (save_gtid_set (ledger [] [] 0) none ⟨[(SID_A, 1, 1)]⟩).server.trace ∧
    under_lock false
      (save_gtid_set (ledger [] [] 0) none ⟨[(SID_A, 1, 1)]⟩).server.trace = false := by
  decide

/-- C21 (amended): every execution of `compress()` and of `reset()` keeps the calls
made before it and makes its own calls under the compaction lock: the lock is
taken once before the table is opened, every call that opens, commits, rolls back
or closes the table is made while it is held, and it is released after the table
is closed. `save(set)` opens the table in every execution and never takes the
lock, so its table calls are made with the lock not held. -/
theorem compaction_lock_discipline (s : Server) (thd : Option THD) (gtid_set : Gtid_set) :
    ((compress s thd).server.trace = s.trace ++ (compress s thd).made s ∧
      under_lock false ((compress s thd).made s) = true ∧
      Event.open_n_lock_single_table true ∈ (compress s thd).made s) ∧
    ((reset s thd).server.trace = s.trace ++ (reset s thd).made s ∧
      under_lock false ((reset s thd).made s) = true ∧
      Event.open_n_lock_single_table true ∈ (reset s thd).made s) ∧
    ((save_gtid_set s thd gtid_set).server.trace =
        s.trace ++ (save_gtid_set s thd gtid_set).made s ∧
      Event.mutex_lock ∉ (save_gtid_set s thd gtid_set).made s ∧
      Event.open_n_lock_single_table true ∈ (save_gtid_set s thd gtid_set).made s ∧
      under_lock false ((save_gtid_set s thd gtid_set).made s) = false) := by
  obtain ⟨h1, h2, _, _, h5, _, _⟩ := save_gtid_set_made s thd gtid_set
  exact ⟨compress_made s thd, reset_made s thd, h1, h2, h5,
    under_lock_unheld _ h2 ⟨_, h5, rfl⟩⟩

/-- C23: the column count check. When the table can be opened and locked,
`open_table` succeeds if and only if the table has at least three columns (more
than three are accepted) and then hands out the table; with fewer than three it
rolls back the statement, closes the table, restores the saved open-tables state
and `Query_tables_list`, raises the column-count error and fails. -/
theorem column_count_check (s : Server) (thd : THD) (write : Bool)
    (hopen : s.table_exists = true) :
    ((open_table s thd write).1 = false ↔ 3 ≤ s.table.fields) ∧
    (3 ≤ s.table.fields → (open_table s thd write).2.1 = some s.table) ∧
    (s.table.fields < 3 →
      (open_table s thd write).1 = true ∧
      (open_table s thd write).2.1 = none ∧
      (open_table s thd write).2.2.2.1.trace =
        s.trace ++ [Event.reset_n_backup_open_tables_state,
          Event.open_n_lock_single_table write, Event.ha_rollback_trans false,
          Event.close_thread_tables, Event.restore_backup_open_tables_state,
          Event.my_error] ∧
      (open_table s thd write).2.2.2.2.open_tables_state = thd.open_tables_state ∧
      (open_table s thd write).2.2.2.2.query_tables_list = thd.query_tables_list ∧
      (open_table s thd write).2.2.2.1.table = s.table) := by
  by_cases h2 : s.table.fields < 3
  · have h3 : ¬ 3 ≤ s.table.fields := by omega
    simp [open_table, hopen, h2, h3, Server.log]
  · have h3 : 3 ≤ s.table.fields := by omega
    simp [open_table, hopen, h2, h3, Server.log]

/-- Witness of C23: a table with five columns is opened, a table with two is not. -/
theorem column_count_check_witness :
    (open_table ⟨true, ⟨5, [], []⟩, 0, 0, []⟩ THD.fresh true).1 = false ∧
    (open_table two_column_ledger THD.fresh true).1 = true :=
  ⟨(column_count_check ⟨true, ⟨5, [], []⟩, 0, 0, []⟩ THD.fresh true rfl).1.mpr (by decide),
   ((column_count_check two_column_ledger THD.fresh true rfl).2.2 (by decide)).1⟩

/-- C24: the commit/rollback decision of `close_table`. With an open table it
rolls back the statement when `error` is true and commits it otherwise, then, if
and only if `need_commit` is true, rolls back (error) or commits (no error) the
transaction, then closes the table and restores the open-tables state: these are
all its calls, in this order; a rollback leaves the rows the server had, a commit
installs the rows of the table. When no table was opened it makes no call at all,
so neither a commit nor a rollback. -/
theorem close_table_decision (s : Server) (thd : THD) (t : TABLE) (backup : Nat)
    (error need_commit : Bool) :
    (close_table s thd (some t) backup error need_commit).1.trace =
      s.trace ++
        ([if error then Event.ha_rollback_trans false else Event.ha_commit_trans false] ++
          (if need_commit then
            [if error then Event.ha_rollback_trans true else Event.ha_commit_trans true]
           else []) ++
          [Event.close_thread_tables, Event.restore_backup_open_tables_state]) ∧
    (close_table s thd (some t) backup error need_commit).1.table.rows =
      (if error then s.table.rows else t.rows) ∧
    (close_table s thd none backup error need_commit).1 = s := by
  cases error <;> cases need_commit <;> simp [close_table, Server.log]

/-- C26: a failed `save(thd, gtid)` does not count as an append. Whenever the
result is not `0`, whatever the compression period, the counter `m_count` is the
one before the call and no `mysql_cond_signal` has been made. -/
theorem failed_save_not_counted (s : Server) (thd : Option THD) (g : Gtid)
    (hfail : (save s thd g).ret ≠ 0) :
    (save s thd g).server.m_count = s.m_count ∧
    (save s thd g).server.signals = s.signals := by
  have hm := save_m_count s thd g
  have hs := save_signals s thd g
  rw [if_neg hfail] at hm
  rw [if_neg (fun h => hfail h.1)] at hs
  exact ⟨hm, hs⟩

/-- Witness of C26: with period `1` and a failing field store, a table that cannot
be opened, or a duplicate key, the counter stays at `0` and nothing is signalled. -/
theorem failed_save_not_counted_witness :
    ((save (ledger [] [true] 1) none ⟨SID_A, 1⟩).ret = -1 ∧
      (save (ledger [] [true] 1) none ⟨SID_A, 1⟩).server.m_count = 0 ∧
      (save (ledger [] [true] 1) none ⟨SID_A, 1⟩).server.signals = 0) ∧
    ((save { ledger [] [] 1 with table_exists := false } none ⟨SID_A, 1⟩).ret = 1 ∧
      (save { ledger [] [] 1 with table_exists := false } none ⟨SID_A, 1⟩).server.m_count
        = 0) ∧
    (save (ledger [⟨SID_A.to_string, 1, 1⟩] [] 1) none ⟨SID_A, 1⟩).server.signals = 0 :=
  ⟨⟨by decide, failed_save_not_counted (ledger [] [true] 1) none ⟨SID_A, 1⟩ (by decide)⟩,
   ⟨by decide, (failed_save_not_counted { ledger [] [] 1 with table_exists := false } none
      ⟨SID_A, 1⟩ (by decide)).1⟩,
   (failed_save_not_counted (ledger [⟨SID_A.to_string, 1, 1⟩] [] 1) none ⟨SID_A, 1⟩
      (by decide)).2⟩

/-- C29: bulk save never triggers compaction. `save(set)`, for every server, every
set and every outcome, leaves the counter `m_count` and the compression period as
they were and makes no `mysql_cond_signal` call, however many rows it inserts. -/
theorem bulk_save_never_triggers (s : Server) (thd : Option THD) (gtid_set : Gtid_set) :
    (save_gtid_set s thd gtid_set).server.m_count = s.m_count ∧
    (save_gtid_set s thd gtid_set).server.signals = s.signals ∧
    (save_gtid_set s thd gtid_set).server.executed_gtids_compression_period =
      s.executed_gtids_compression_period := by
  obtain ⟨h1, _, _, h4, _, h6, h7⟩ := save_gtid_set_made s thd gtid_set
  refine ⟨h6, ?_, h7⟩
  unfold Server.signals
  rw [h1, List.count_append, List.count_eq_zero_of_not_mem h4, Nat.add_zero]

/-- C22: the row text form round-trips. A row `(sid, gno_start, gno_end)` written by
`write_row` for a SID (the text `sid.to_string` the callers pass) is in the table;
`encode_gtid_text` of it is the SID text, `sid_gno_separator`, the decimal of
`gno_start`, `gno_start_end_separator` and the decimal of `gno_end`, in this
order; and reading that text in the form `<sid>:<start>-<end>` gives back the
same SID, `gno_start` and `gno_end`. -/
theorem row_text_round_trip (t : TABLE) (sid : rpl_sid) (gno_start gno_end : Nat)
    (hw : (write_row t sid.to_string gno_start gno_end).1 = 0) :
    (⟨sid.to_string, gno_start, gno_end⟩ : Row) ∈
      (write_row t sid.to_string gno_start gno_end).2.rows ∧
    encode_gtid_text ⟨sid.to_string, gno_start, gno_end⟩ =
      sid.to_string ++ [sid_gno_separator] ++ decimal gno_start ++
        [gno_start_end_separator] ++ decimal gno_end ∧
    parse_gtid_text (encode_gtid_text ⟨sid.to_string, gno_start, gno_end⟩) =
      some (sid, gno_start, gno_end) := by
  refine ⟨?_, by simp only [encode_gtid_text], parse_encode sid gno_start gno_end⟩
  rw [(write_row_ok t _ _ _ (to_string_length_le _) hw).2, mem_key_insert]
  exact Or.inl rfl

/-- Witness of C22: the row of `(SID_A, 7, 12)` written into an empty table. -/
theorem row_text_round_trip_witness :
    (write_row ⟨3, [], []⟩ SID_A.to_string 7 12).2.rows = [⟨SID_A.to_string, 7, 12⟩] ∧
    parse_gtid_text (encode_gtid_text ⟨SID_A.to_string, 7, 12⟩) = some (SID_A, 7, 12) ∧
    encode_gtid_text ⟨SID_A.to_string, 7, 12⟩ =
      SID_A.to_string ++ [':'] ++ ['7'] ++ ['-'] ++ ['1', '2'] :=
  ⟨by decide, (row_text_round_trip ⟨3, [], []⟩ SID_A 7 12 (by decide)).2.2, by decide⟩

/-- C25: compaction mutates rows only by extending `gno_end`. On a ledger in
primary-key order, with 64-bit GNO columns and SID texts of at most
`rpl_sid::TEXT_LENGTH` characters, whose rows satisfy I1, a `compress()` that
returns `0` either leaves the rows as they were or turns `X ++ f :: del ++ Y`
into `X ++ f' :: Y`, where `f'` is `f` with a strictly greater `gno_end` and the
same SID and `gno_start`: every other surviving row is unchanged, and every row
that disappeared (a row of `del`) has the SID of `f` and lies within the interval
of `f'`. -/
theorem compress_only_extends_gno_end (s : Server) (thd : Option THD)
    (hwf : well_formed s.table.rows) (hI1 : ∀ r ∈ s.table.rows, I1 r)
    (hok : (compress s thd).ret = 0) :
    (compress s thd).rows = s.table.rows ∨
    ∃ (X : List Row) (f : Row) (del Y : List Row) (e : Nat),
      s.table.rows = X ++ f :: (del ++ Y) ∧ del ≠ [] ∧
      (compress s thd).rows = X ++ { f with gno_end := e } :: Y ∧
      f.gno_end < e ∧
      ∀ d ∈ del, d.sid = f.sid ∧ f.gno_start ≤ d.gno_start ∧ d.gno_end ≤ e := by
  have hcf := ((compress_ok_iff s thd).mp hok).2
  rw [compress_ok_rows s thd hok]
  rcases compress_first_consecutive_gtids_merges s.table hwf.1
      (fun r hr => (hwf.2 r hr).2.2) hcf with
    ⟨_, hsame⟩ | ⟨X, f, del, Y, hrows, hne, _, hch, _, hres⟩
  · exact Or.inl hsame
  · right
    have hmem : ∀ r ∈ f :: del, r ∈ s.table.rows := by
      intro r hr
      rw [hrows]
      rcases List.mem_cons.mp hr with h | h
      · rw [h]; simp
      · simp [h]
    obtain ⟨hsid, _, hlt, hcov⟩ := run_cover del f hch
      (fun r hr => ⟨hI1 r (hmem r hr), (hwf.2 r (hmem r hr)).2.1⟩)
    refine ⟨X, f, del, Y, (del.getLastD f).gno_end, hrows, hne, hres, hlt hne, ?_⟩
    intro d hd
    have hdI := hI1 d (hmem d (List.mem_cons_of_mem _ hd))
    have h1 := (hcov d.gno_start).mpr ⟨d, List.mem_cons_of_mem _ hd, le_refl _, hdI.2⟩
    have h2 := (hcov d.gno_end).mpr ⟨d, List.mem_cons_of_mem _ hd, hdI.2, le_refl _⟩
    exact ⟨hsid d hd, h1.1, h2.2⟩

/-- Witness of C25 on the ledger `A:[1,1], A:[2,2], B:[1,1]`, which becomes
`A:[1,2], B:[1,1]`. -/
theorem compress_only_extends_gno_end_witness :
    (compress (ledger [⟨sid_A, 1, 1⟩, ⟨sid_A, 2, 2⟩, ⟨sid_B, 1, 1⟩] [] 0) none).rows =
      [⟨sid_A, 1, 2⟩, ⟨sid_B, 1, 1⟩] ∧
    ((compress (ledger [⟨sid_A, 1, 1⟩, ⟨sid_A, 2, 2⟩, ⟨sid_B, 1, 1⟩] [] 0) none).rows =
        (ledger [⟨sid_A, 1, 1⟩, ⟨sid_A, 2, 2⟩, ⟨sid_B, 1, 1⟩] [] 0).table.rows ∨
      ∃ (X : List Row) (f : Row) (del Y : List Row) (e : Nat),
        (ledger [⟨sid_A, 1, 1⟩, ⟨sid_A, 2, 2⟩, ⟨sid_B, 1, 1⟩] [] 0).table.rows =
          X ++ f :: (del ++ Y) ∧ del ≠ [] ∧
        (compress (ledger [⟨sid_A, 1, 1⟩, ⟨sid_A, 2, 2⟩, ⟨sid_B, 1, 1⟩] [] 0) none).rows =
          X ++ { f with gno_end := e } :: Y ∧
        f.gno_end < e ∧
        ∀ d ∈ del, d.sid = f.sid ∧ f.gno_start ≤ d.gno_start ∧ d.gno_end ≤ e) :=
  ⟨by decide,
   compress_only_extends_gno_end (ledger [⟨sid_A, 1, 1⟩, ⟨sid_A, 2, 2⟩, ⟨sid_B, 1, 1⟩] [] 0)
    none (by unfold well_formed; decide) (by unfold I1; decide) (by decide)⟩

/-- C30: `save(thd, gtid)` checks only the primary key, not coverage. On a usable
table, when the four engine calls of `write_row` proceed and no row has the key
`(sid, gno_start = gno)`, the save returns `0` and inserts the row
`(sid, gno, gno)` at its place in primary-key order, whether or not `(sid, gno)`
is already covered by another row. -/
theorem save_checks_only_primary_key (s : Server) (thd : Option THD) (g : Gtid)
    (hu : s.usable) (hnf : ∀ x ∈ s.table.faults.take 4, x = false)
    (hkey : ∀ r ∈ s.table.rows, ¬ same_key r g.row) :
    (save s thd g).ret = 0 ∧
    (save s thd g).rows = key_insert g.row s.table.rows ∧
    g.row ∈ (save s thd g).rows := by
  have hw : (write_row s.table g.sid.to_string g.gno g.gno).1 = 0 :=
    write_row_succeeds s.table _ _ _ (to_string_length_le _) hnf hkey
  have hret : (save s thd g).ret = 0 := by rw [save_ret, if_pos hu]; exact hw
  have hrows := (save_ok_rows s thd g hret).2
  refine ⟨hret, hrows, ?_⟩
  rw [hrows, mem_key_insert]
  exact Or.inl rfl

/-- Witness of C30: after `save A:1`, `save A:2`, `save A:3`, `compress` the ledger
holds `A:[1,3]`, which covers `(A, 2)`; a further `save A:2` returns `0` and the
ledger holds `A:[1,3]` and `A:[2,2]`, both covering `(A, 2)`. -/
theorem save_checks_only_primary_key_witness :
    (run (ledger [] [] 0, [])
      [Op.save none ⟨SID_A, 1⟩, Op.save none ⟨SID_A, 2⟩, Op.save none ⟨SID_A, 3⟩,
       Op.compress none]).1.table.rows = [⟨SID_A.to_string, 1, 3⟩] ∧
    covers (run (ledger [] [] 0, [])
      [Op.save none ⟨SID_A, 1⟩, Op.save none ⟨SID_A, 2⟩, Op.save none ⟨SID_A, 3⟩,
       Op.compress none]).1.table.rows SID_A.to_string 2 ∧
    (save (run (ledger [] [] 0, [])
      [Op.save none ⟨SID_A, 1⟩, Op.save none ⟨SID_A, 2⟩, Op.save none ⟨SID_A, 3⟩,
       Op.compress none]).1 none ⟨SID_A, 2⟩).ret = 0 ∧
    (save (run (ledger [] [] 0, [])
      [Op.save none ⟨SID_A, 1⟩, Op.save none ⟨SID_A, 2⟩, Op.save none ⟨SID_A, 3⟩,
       Op.compress none]).1 none ⟨SID_A, 2⟩).rows =
      [⟨SID_A.to_string, 1, 3⟩, ⟨SID_A.to_string, 2, 2⟩] :=
  ⟨by decide,
   ⟨⟨SID_A.to_string, 1, 3⟩, by decide, rfl, by decide, by decide⟩,
   (save_checks_only_primary_key (run (ledger [] [] 0, [])
      [Op.save none ⟨SID_A, 1⟩, Op.save none ⟨SID_A, 2⟩, Op.save none ⟨SID_A, 3⟩,
       Op.compress none]).1 none ⟨SID_A, 2⟩ (by decide) (by decide) (by decide)).1,
   by decide⟩

end GtidPersist
